import Mathlib

/-!
# fargo: route table, pattern compiler and request dispatch

A shallow embedding of `src/fargo/router.go` (with the parts of `filter.go`,
`context/input.go`, `middleware/error.go` and `bdlib/util/slice.go` it calls),
of the XSRF check and the signed cookies of `src/fargo/controllers.go` (with
the sanitizers of `context/output.go`), and of `JobQueue` and `SlicePad` of
`src/bdlib/util`.

Conventions of the embedding.

* A Go `string` is a `Str`, a list of code points.  Every byte index the
  embedded code computes locates an ASCII character (`/`, `:`, `(`), whose
  one-byte encoding never occurs inside a longer UTF-8 sequence, so slicing
  by byte index and slicing by code-point index cut the same substrings.
* A Go `map` is an association list with unique keys (`mapSet`, `mapGet`).
* The value a signed cookie carries is a list of bytes; the cookie text
  itself is ASCII.  HMAC-SHA1 is a parameter of the cookie functions.
* The job queue is embedded for a sequential run: a call returns, waits for
  ever, or dereferences nil.
* `regexp` is the Go standard library, not part of the repository.  `Add`
  and the scan of the pattern routes are embedded with the library as a
  parameter (`AddWith`, `patLoopWith` over a `RegexpLib`), so that what is
  proved of them holds whatever `regexp` does.  The library is also modelled
  for a fragment of its syntax: a lexer, a one-pass stack parser and a
  backtracking matcher with Go's leftmost-first preference (`modelRegexp`);
  `Add`, `patLoop` and `ServeHTTP` are the code with this model, which is the
  code on the routes whose expressions are of the modelled syntax.
-/

namespace Fargo

/-! ## Strings -/

/-- A Go string, as its sequence of code points. -/
abbrev Str := List Char

/-- Go `strings.HasPrefix`. -/
def HasPrefix (s pre : Str) : Bool := pre.isPrefixOf s

/-- Go `strings.Split(s, sep)` for a separator of one character. -/
def Split (sep : Char) : Str → List Str
  | [] => [[]]
  | c :: cs =>
    if c = sep then [] :: Split sep cs
    else match Split sep cs with
      | [] => [[c]]
      | p :: ps => (c :: p) :: ps

/-- Go `strings.Join(parts, sep)`. -/
def Join (sep : Str) : List Str → Str
  | [] => []
  | [p] => p
  | p :: q :: ps => p ++ sep ++ Join sep (q :: ps)

/-- Go `strings.Index(s, string(c))`: position of the first `c`, or `-1`. -/
def Index (c : Char) : Str → Int
  | [] => -1
  | d :: ds => if d = c then 0 else
      if Index c ds = -1 then -1 else Index c ds + 1

/-- Go `strings.LastIndex(s, string(c))`: position of the last `c`, or `-1`. -/
def LastIndex (c : Char) : Str → Int
  | [] => -1
  | d :: ds =>
      if LastIndex c ds = -1 then (if d = c then 0 else -1)
      else LastIndex c ds + 1

/-- Go `strings.Contains(s, string(c))`. -/
def Contains (c : Char) (s : Str) : Bool := s.contains c

/-- Go slice expression `s[i:]`. -/
def sliceFrom (s : Str) (i : Int) : Str := s.drop i.toNat

/-- Go slice expression `s[:i]`. -/
def sliceTo (s : Str) (i : Int) : Str := s.take i.toNat

/-- Go `strings.ToLower`, on the ASCII letters: it agrees with Go on every
ASCII string, and request methods are ASCII tokens. -/
def ToLower (s : Str) : Str := s.map Char.toLower

/-- The word-boundary test of Go `strings.Title` (`isSeparator`), on ASCII:
letters, digits and the underscore are not separators, everything else is. -/
def isSeparator (c : Char) : Bool :=
  !(c.isAlphanum || c = '_')

/-- The loop of Go `strings.Title`: `prev` is the character before. -/
def titleFrom (prev : Char) : Str → Str
  | [] => []
  | c :: cs => (if isSeparator prev then c.toUpper else c) :: titleFrom c cs

/-- Go `strings.Title`: upper-cases the first letter of every word. -/
def Title (s : Str) : Str := titleFrom ' ' s

/-- Go `util.InSlice`: membership of `item` in `slice`
(`bdlib/util/slice.go`). -/
def InSlice (item : Str) : List Str → Bool
  | [] => false
  | s :: rest => if s = item then true else InSlice item rest

/-! ## Maps -/

/-- Map assignment `m[k] = v`. -/
def mapSet {κ ν : Type} [DecidableEq κ] (m : List (κ × ν)) (k : κ) (v : ν) : List (κ × ν) :=
  match m with
  | [] => [(k, v)]
  | (k1, v1) :: rest => if k1 = k then (k, v) :: rest else (k1, v1) :: mapSet rest k v

/-- Map lookup with the comma-ok form `v, ok := m[k]`. -/
def mapGet? {κ ν : Type} [DecidableEq κ] (m : List (κ × ν)) (k : κ) : Option ν :=
  match m with
  | [] => none
  | (k1, v1) :: rest => if k1 = k then some v1 else mapGet? rest k

/-- Map lookup `m[k]` of a string-valued map: the empty string when absent. -/
def mapGet {κ : Type} [DecidableEq κ] (m : List (κ × Str)) (k : κ) : Str :=
  (mapGet? m k).getD []

/-! ## The `regexp` library (Go standard library), modelled

Supported syntax: literal characters, `\`-escaped ASCII punctuation, the
Perl classes `\d \w \s \D \W \S`, `.`, bracket classes `[...]` and `[^...]`
of characters, ranges and Perl classes, capturing groups `( )`, plain
groups `(?: )`, alternation `|` and the greedy operators `* + ?`.

`Compile` answers `none` both for a pattern Go rejects and for a pattern
outside this fragment (anchors `^ $`, counted repetition `{n,m}`, lazy
operators, flags, named groups, `\b \A \z \p \Q`, a repetition of an
operand that can match the empty string).
-/

/-- Parsed regular expression (`regexp/syntax.Regexp`). -/
inductive Regex where
  | empty
  | chr (c : Char)
  | dot
  | set (neg : Bool) (ranges : List (Char × Char))
  | cat (a b : Regex)
  | alt (a b : Regex)
  | star (a : Regex)
  | plus (a : Regex)
  | quest (a : Regex)
  | group (idx : Nat) (a : Regex)
  deriving DecidableEq, Repr

/-- Lexical items of a pattern. -/
inductive Tok where
  | chr (c : Char)
  | dot
  | set (neg : Bool) (ranges : List (Char × Char))
  | lparen
  | lparenNC
  | rparen
  | bar
  | star
  | plus
  | quest
  deriving DecidableEq, Repr

/-- Where the lexer stands inside a bracket class. -/
inductive ClsSt where
  | start
  | pending (lo : Char)
  | dash (lo : Char)
  deriving DecidableEq, Repr

/-- Lexer modes. -/
inductive LexMode where
  | norm
  | esc
  | lp
  | lpq
  | clsOpen
  | cls (neg : Bool) (acc : List (Char × Char)) (st : ClsSt)
  | clsEsc (neg : Bool) (acc : List (Char × Char))
  deriving DecidableEq, Repr

/-- Ranges of `\d`. -/
def perlD : List (Char × Char) := [('0', '9')]

/-- Ranges of `\w`. -/
def perlW : List (Char × Char) := [('0', '9'), ('A', 'Z'), ('_', '_'), ('a', 'z')]

/-- Ranges of `\s`. -/
def perlS : List (Char × Char) := [('\t', '\n'), ('\x0c', '\r'), (' ', ' ')]

/-- ASCII punctuation: the characters a backslash makes literal. -/
def isPunct (c : Char) : Bool := decide (c.toNat < 128) && !c.isAlphanum

/-- One character read in normal mode. -/
def normTok (c : Char) : Option (LexMode × List Tok) :=
  if c = '\\' then some (.esc, [])
  else if c = '(' then some (.lp, [])
  else if c = '[' then some (.clsOpen, [])
  else if c = ')' then some (.norm, [.rparen])
  else if c = '|' then some (.norm, [.bar])
  else if c = '*' then some (.norm, [.star])
  else if c = '+' then some (.norm, [.plus])
  else if c = '?' then some (.norm, [.quest])
  else if c = '.' then some (.norm, [.dot])
  else if c = '^' ∨ c = '$' ∨ c = '{' then none
  else some (.norm, [.chr c])

/-- One character read inside a bracket class. -/
def clsTok (neg : Bool) (acc : List (Char × Char)) (st : ClsSt) (c : Char) :
    Option (LexMode × List Tok) :=
  if c = '[' then none
  else match st with
  | .start =>
    if c = ']' then (if acc = [] then none else some (.norm, [.set neg acc]))
    else if c = '\\' then some (.clsEsc neg acc, [])
    else if c = '-' then (if acc = [] then some (.cls neg acc (.pending c), []) else none)
    else some (.cls neg acc (.pending c), [])
  | .pending lo =>
    if c = ']' then some (.norm, [.set neg (acc ++ [(lo, lo)])])
    else if c = '\\' then some (.clsEsc neg (acc ++ [(lo, lo)]), [])
    else if c = '-' then some (.cls neg acc (.dash lo), [])
    else some (.cls neg (acc ++ [(lo, lo)]) (.pending c), [])
  | .dash lo =>
    if c = ']' then some (.norm, [.set neg (acc ++ [(lo, lo), ('-', '-')])])
    else if c = '\\' then none
    else if lo ≤ c then some (.cls neg (acc ++ [(lo, c)]) .start, [])
    else none

/-- One step of the lexer. -/
def lexStep (m : LexMode) (c : Char) : Option (LexMode × List Tok) :=
  match m with
  | .norm => normTok c
  | .esc =>
    if c = 'd' then some (.norm, [.set false perlD])
    else if c = 'w' then some (.norm, [.set false perlW])
    else if c = 's' then some (.norm, [.set false perlS])
    else if c = 'D' then some (.norm, [.set true perlD])
    else if c = 'W' then some (.norm, [.set true perlW])
    else if c = 'S' then some (.norm, [.set true perlS])
    else if isPunct c then some (.norm, [.chr c])
    else none
  | .lp =>
    if c = '?' then some (.lpq, [])
    else match normTok c with
      | none => none
      | some (m1, ts) => some (m1, .lparen :: ts)
  | .lpq => if c = ':' then some (.norm, [.lparenNC]) else none
  | .clsOpen =>
    if c = '^' then some (.cls true [] .start, [])
    else clsTok false [] .start c
  | .cls neg acc st => clsTok neg acc st c
  | .clsEsc neg acc =>
    if c = 'd' then some (.cls neg (acc ++ perlD) .start, [])
    else if c = 'w' then some (.cls neg (acc ++ perlW) .start, [])
    else if c = 's' then some (.cls neg (acc ++ perlS) .start, [])
    else if isPunct c then some (.cls neg acc (.pending c), [])
    else none

/-- The lexer: the tokens of a pattern read from mode `m`. -/
def lexRun : LexMode → Str → Option (List Tok)
  | m, [] => if m = .norm then some [] else none
  | m, c :: cs =>
    match lexStep m c with
    | none => none
    | some (m1, ts) =>
      match lexRun m1 cs with
      | none => none
      | some rest => some (ts ++ rest)

/-- Whether an expression can match the empty string. -/
def Regex.nullable : Regex → Bool
  | .empty => true
  | .chr _ => false
  | .dot => false
  | .set _ _ => false
  | .cat a b => a.nullable && b.nullable
  | .alt a b => a.nullable || b.nullable
  | .star _ => true
  | .plus a => a.nullable
  | .quest _ => true
  | .group _ a => a.nullable

/-- Number of capturing groups (`Regexp.NumSubexp`). -/
def Regex.NumSubexp : Regex → Nat
  | .empty => 0
  | .chr _ => 0
  | .dot => 0
  | .set _ _ => 0
  | .cat a b => a.NumSubexp + b.NumSubexp
  | .alt a b => a.NumSubexp + b.NumSubexp
  | .star a => a.NumSubexp
  | .plus a => a.NumSubexp
  | .quest a => a.NumSubexp
  | .group _ a => a.NumSubexp + 1

/-- Concatenation of a list of expressions. -/
def catList : List Regex → Regex
  | [] => .empty
  | [x] => x
  | x :: y :: xs => .cat x (catList (y :: xs))

/-- Alternation of a list of expressions, first alternative preferred. -/
def altList : List Regex → Regex
  | [] => .empty
  | [x] => x
  | x :: y :: xs => .alt x (altList (y :: xs))

/-- One open level of the parser's stack: the group being read (its capture
index, if it captures), the alternatives finished so far and the factors of
the alternative being read, both latest first. -/
structure Frame where
  cap : Option Nat
  alts : List Regex
  cur : List Regex
  deriving DecidableEq, Repr

/-- Parser state: the innermost level, the enclosing levels, the number of
capturing parentheses opened so far, and whether the last token was a
repetition operator. -/
structure PState where
  top : Frame
  below : List Frame
  ncap : Nat
  rep : Bool
  deriving DecidableEq, Repr

/-- The expression a finished level stands for. -/
def Frame.close (f : Frame) : Regex :=
  let r := altList ((catList f.cur.reverse :: f.alts).reverse)
  match f.cap with
  | some i => .group i r
  | none => r

/-- Apply a repetition operator to the latest factor. -/
def pRepeat (st : PState) (op : Regex → Regex) (needsNonNull : Bool) : Option PState :=
  if st.rep then none
  else match st.top.cur with
    | [] => none
    | x :: xs =>
      if needsNonNull && x.nullable then none
      else some { st with top := { st.top with cur := op x :: xs }, rep := true }

/-- Push an atom as the latest factor. -/
def pAtom (st : PState) (a : Regex) : Option PState :=
  some { st with top := { st.top with cur := a :: st.top.cur }, rep := false }

/-- One step of the parser. -/
def pStep (st : PState) : Tok → Option PState
  | .chr c => pAtom st (.chr c)
  | .dot => pAtom st .dot
  | .set neg rs => pAtom st (.set neg rs)
  | .star => pRepeat st .star true
  | .plus => pRepeat st .plus true
  | .quest => pRepeat st .quest false
  | .lparen =>
    some { top := ⟨some (st.ncap + 1), [], []⟩, below := st.top :: st.below,
           ncap := st.ncap + 1, rep := false }
  | .lparenNC =>
    some { top := ⟨none, [], []⟩, below := st.top :: st.below, ncap := st.ncap, rep := false }
  | .bar =>
    some { st with
      top := { st.top with alts := catList st.top.cur.reverse :: st.top.alts, cur := [] },
      rep := false }
  | .rparen =>
    match st.below with
    | [] => none
    | f :: fs =>
      some { top := { f with cur := st.top.close :: f.cur }, below := fs,
             ncap := st.ncap, rep := false }

/-- The parser: run over the tokens, then close the outermost level. -/
def pRun : PState → List Tok → Option Regex
  | st, [] => if st.below = [] then some st.top.close else none
  | st, t :: ts =>
    match pStep st t with
    | none => none
    | some st1 => pRun st1 ts

/-- Go `regexp.Compile` on the modelled syntax: `some` the parsed expression
when the text is an expression of that syntax; `none` when Go rejects the
text, and also when the text is outside the modelled syntax, whatever Go
makes of it. -/
def Compile (expr : Str) : Option Regex :=
  match lexRun .norm expr with
  | none => none
  | some ts => pRun ⟨⟨none, [], []⟩, [], 0, false⟩ ts

/-- Whether an atom accepts a character. -/
def inRanges (rs : List (Char × Char)) (c : Char) : Bool :=
  rs.any (fun r => decide (r.1 ≤ c) && decide (c ≤ r.2))

/-- The text consumed between input `s` and its remainder `rest`. -/
def consumed (s rest : Str) : Str := s.take (s.length - rest.length)

/-- Greedy iteration: every way to run `step` zero or more times, more
iterations first; an iteration must consume input. -/
def starLoop (step : Str → List (Nat × Str) → List (Str × List (Nat × Str))) :
    Nat → Str → List (Nat × Str) → List (Str × List (Nat × Str))
  | 0, s, caps => [(s, caps)]
  | n + 1, s, caps =>
    ((step s caps).filter (fun r => decide (r.1.length < s.length))).flatMap
        (fun r => starLoop step n r.1 r.2)
      ++ [(s, caps)]

/-- The backtracking matcher: every way `re` matches a beginning of `s`, as
the remaining input and the captures, in Go's order of preference (first
alternative first, greedy operators longest first).  `caps` holds the
captures so far, latest first. -/
def matchR : Regex → Str → List (Nat × Str) → List (Str × List (Nat × Str))
  | .empty, s, caps => [(s, caps)]
  | .chr c, s, caps =>
    match s with
    | [] => []
    | d :: ds => if d = c then [(ds, caps)] else []
  | .dot, s, caps =>
    match s with
    | [] => []
    | d :: ds => if d = '\n' then [] else [(ds, caps)]
  | .set neg rs, s, caps =>
    match s with
    | [] => []
    | d :: ds => if inRanges rs d != neg then [(ds, caps)] else []
  | .cat a b, s, caps => (matchR a s caps).flatMap (fun r => matchR b r.1 r.2)
  | .alt a b, s, caps => matchR a s caps ++ matchR b s caps
  | .star a, s, caps => starLoop (fun t c => matchR a t c) s.length s caps
  | .plus a, s, caps =>
    (matchR a s caps).flatMap (fun r => starLoop (fun t c => matchR a t c) r.1.length r.1 r.2)
  | .quest a, s, caps => matchR a s caps ++ [(s, caps)]
  | .group i a, s, caps =>
    (matchR a s caps).map (fun r => (r.1, (i, consumed s r.1) :: r.2))

/-- The leftmost match and, at that start, the preferred one: the matched
text and the captures. -/
def search (re : Regex) : Str → Option (Str × List (Nat × Str))
  | [] => (matchR re [] []).head?.map (fun r => (consumed [] r.1, r.2))
  | c :: cs =>
    match (matchR re (c :: cs) []).head? with
    | some r => some (consumed (c :: cs) r.1, r.2)
    | none => search re cs

/-- Go `Regexp.MatchString`: whether the text contains a match. -/
def MatchString (re : Regex) (s : Str) : Bool := (search re s).isSome

/-- Text of capture group `i` among the captures: the latest one recorded,
the empty string when the group took no part. -/
def capText (caps : List (Nat × Str)) (i : Nat) : Str :=
  match caps.find? (fun e => e.1 == i) with
  | some e => e.2
  | none => []

/-- Go `Regexp.FindStringSubmatch`: the text of the leftmost match followed
by the texts of the capture groups `1 .. NumSubexp`; `none` is the nil
result. -/
def FindStringSubmatch (re : Regex) (s : Str) : Option (List Str) :=
  (search re s).map
    (fun r => r.1 :: (List.range re.NumSubexp).map (fun i => capText r.2 (i + 1)))

/-- Match of the whole text: what the expression anchored at both ends,
`^(?:re)$`, decides. -/
def fullMatch (re : Regex) (s : Str) : Bool :=
  (matchR re s []).any (fun r => r.1.isEmpty)

/-- The functions of Go's package `regexp` that the router calls, for a
type `ρ` of compiled expressions (`*regexp.Regexp`): `regexp.Compile`
(`none` the error result), `Regexp.MatchString` and
`Regexp.FindStringSubmatch` (the empty list the nil slice). -/
structure RegexpLib (ρ : Type) where
  Compile : Str → Option ρ
  MatchString : ρ → Str → Bool
  FindStringSubmatch : ρ → Str → List Str

/-- The modelled library. -/
def modelRegexp : RegexpLib Regex :=
  { Compile := Compile, MatchString := MatchString,
    FindStringSubmatch := fun re s => (FindStringSubmatch re s).getD [] }

/-! ## The route table (`router.go`) -/

/-- Go `reflect.Type` of a controller: an opaque identifier. -/
abbrev ReflectType := Nat

/-- Go `controllerInfo`: one registered route.  `ρ` is the type of the
compiled expressions, Go's `*regexp.Regexp`; `regex` is `none` for the nil
pointer. -/
structure controllerInfoOf (ρ : Type) where
  pattern : Str
  regex : Option ρ
  params : List (Nat × Str)
  controllerType : ReflectType
  methods : List (Str × Str)
  hasMethod : Bool
  deriving DecidableEq, Repr

/-- Go `controllerInfo` with the expressions of the modelled `regexp`. -/
abbrev controllerInfo := controllerInfoOf Regex

/-- The variables of one iteration of the loop over `parts` in `Add`: the
loop variable `part`, the slot `parts[i]`, the map `params` and the
counter `j`. -/
structure PartSt where
  part : Str
  slot : Str
  params : List (Nat × Str)
  j : Nat
  deriving DecidableEq, Repr

/-- Lines 116-136 of `Add`: a segment that starts with a colon. -/
def addColon (s : PartSt) : PartSt :=
  if HasPrefix s.part ":".toList then
    let index := Index '(' s.part
    let r : Str × Str :=
      if index != -1 then (sliceFrom s.part index, sliceTo s.part index)
      else
        let lindex := LastIndex ':' s.part
        if lindex != 0 then
          if sliceFrom s.part lindex = ":int".toList then
            ("([0-9]+)".toList, sliceTo s.part lindex)
          else if sliceFrom s.part lindex = ":string".toList then
            ("([\\w]+)".toList, sliceTo s.part lindex)
          else ("(.*)".toList, s.part)
        else ("(.*)".toList, s.part)
    { part := r.2, slot := r.1, params := mapSet s.params s.j r.2, j := s.j + 1 }
  else s

/-- Lines 137-152 of `Add`: a segment that starts with a star. -/
def addStar (s : PartSt) : PartSt :=
  if HasPrefix s.part "*".toList then
    if s.part = "*.*".toList then
      { s with params := mapSet (mapSet s.params s.j ":path".toList) (s.j + 1) ":ext".toList,
               slot := "([^.]+).([^.]+)".toList, j := s.j + 2 }
    else
      { s with params := mapSet s.params s.j ":splat".toList, slot := "(.*)".toList,
               j := s.j + 1 }
  else s

/-- The variables of the character scan of lines 155-191. -/
structure ScanSt where
  out : Str
  start : Bool
  startexp : Bool
  param : Str
  expt : Str
  params : List (Nat × Str)
  j : Nat
  deriving DecidableEq, Repr

/-- One iteration of the character scan (lines 160-191). -/
def scanStep (s : ScanSt) (v : Char) : ScanSt :=
  if s.start && v != '(' then { s with param := s.param ++ [v] }
  else if s.startexp && v != ')' then { s with expt := s.expt ++ [v] }
  else if v = ':' then { s with param := [':'], start := true }
  else if v = '(' then
    { s with startexp := true, start := false, params := mapSet s.params s.j s.param,
             j := s.j + 1, expt := ['('] }
  else if v = ')' then
    { s with startexp := false, expt := s.expt ++ [')'], out := s.out ++ (s.expt ++ [')']) }
  else { s with out := s.out ++ [v] }

/-- Lines 153-193 of `Add`: a segment with an embedded `:name(expr)`. -/
def addMixed (s : PartSt) : PartSt :=
  if Contains ':' s.part && Contains '(' s.part && Contains ')' s.part then
    let r := s.part.foldl scanStep ⟨[], false, false, [], [], s.params, s.j⟩
    { s with slot := r.out, params := r.params, j := r.j }
  else s

/-- One iteration of the loop over `parts` (lines 114-194). -/
def addPart (part : Str) (params : List (Nat × Str)) (j : Nat) : PartSt :=
  addMixed (addStar (addColon ⟨part, part, params, j⟩))

/-- The loop over `parts` (lines 114-194): the rewritten parts, `params`
and `j`. -/
def addLoop : List Str → List (Nat × Str) → Nat → List Str × List (Nat × Str) × Nat
  | [], params, j => ([], params, j)
  | part :: rest, params, j =>
    let s := addPart part params j
    let r := addLoop rest s.params s.j
    (s.slot :: r.1, r.2.1, r.2.2)

/-- Go `FilterRouter.tree`: the result of `Tree.Match` on a path, as
`ValidRouter` reads it.  The tree itself (`NewTree`, `AddRouter`, `Match`)
is not part of the sources, so a filter carries its match function. -/
inductive TreeResult where
  | nil
  | bool (b : Bool)
  | other
  deriving DecidableEq, Repr

/-- A value passed to `panic`: whether it is a `middleware.HTTPException`,
and its text under `fmt.Sprint`. -/
structure PanicVal where
  isHTTPException : Bool
  text : Str
  deriving DecidableEq, Repr

/-- What one call of user code (a filter function, a controller method)
does that dispatch can observe: whether it writes a status or body through
`context.ResponseWriter`, and whether it panics. -/
structure UserCode where
  writes : Bool
  panics : Option PanicVal
  deriving DecidableEq, Repr

/-- Go `FilterRouter` (`filter.go`).  `tree` stands for `f.tree.Match`. -/
structure FilterRouter where
  filterFunc : UserCode
  tree : Str → TreeResult × List (Str × Str)
  pattern : Str
  returnOnOutput : Bool

/-- Go `FilterRouter.ValidRouter` (`filter.go`). -/
def FilterRouter.ValidRouter (f : FilterRouter) (router : Str) : Bool × List (Str × Str) :=
  match f.tree router with
  | (.nil, _) => (false, [])
  | (.bool isok, params) => (isok, params)
  | (.other, _) => (false, [])

/-- Go `ControllerRegistor`: the pattern routes, the fixed routes and the
filters of every stage, for a type `ρ` of compiled expressions. -/
structure ControllerRegistorOf (ρ : Type) where
  routers : List (controllerInfoOf ρ)
  fixrouters : List (controllerInfoOf ρ)
  enableFilter : Bool
  filters : List (Nat × List FilterRouter)

/-- Go `ControllerRegistor` with the expressions of the modelled `regexp`. -/
abbrev ControllerRegistor := ControllerRegistorOf Regex

/-- Stage constant `BEFORE_STATIC`. -/
def BEFORE_STATIC : Nat := 0

/-- Stage constant `BEFORE_ROUTER`. -/
def BEFORE_ROUTER : Nat := 1

/-- Stage constant `BEFORE_EXEC`. -/
def BEFORE_EXEC : Nat := 2

/-- Stage constant `AFTER_EXEC`. -/
def AFTER_EXEC : Nat := 3

/-- Stage constant `FINISH_ROUTER`. -/
def FINISH_ROUTER : Nat := 4

/-- The supported HTTP methods, `HTTPMETHOD`. -/
def HTTPMETHOD : List Str :=
  ["get".toList, "post".toList, "put".toList, "delete".toList, "patch".toList,
   "options".toList, "head".toList]

/-- Go `NewControllerRegistor`. -/
def NewControllerRegistor {ρ : Type} : ControllerRegistorOf ρ :=
  { routers := [], fixrouters := [], enableFilter := false, filters := [] }

/-- Go `ControllerRegistor.Add`; `t` is the type of the controller `c`, and
`compile` is the library function `regexp.Compile`, `none` standing for its
error result.  The method map is created empty and `mappingMethods` is
never read, as in the source. -/
def AddWith {ρ : Type} (compile : Str → Option ρ) (p : ControllerRegistorOf ρ) (pattern : Str)
    (t : ReflectType) (_mappingMethods : List Str) : ControllerRegistorOf ρ :=
  let r := addLoop (Split '/' pattern) [] 0
  let parts := r.1
  let params := r.2.1
  let j := r.2.2
  let methods : List (Str × Str) := []
  if j = 0 then
    let route : controllerInfoOf ρ :=
      { pattern := pattern, regex := none, params := [], controllerType := t,
        methods := methods, hasMethod := decide (methods.length > 0) }
    { p with fixrouters := p.fixrouters ++ [route] }
  else
    let pattern1 := Join "/".toList parts
    match compile pattern1 with
    | none => p
    | some regex =>
      let route : controllerInfoOf ρ :=
        { pattern := pattern1, regex := some regex, params := params, controllerType := t,
          methods := methods, hasMethod := decide (methods.length > 0) }
      { p with routers := p.routers ++ [route] }

/-- Go `ControllerRegistor.Add` with the modelled `regexp.Compile`.  It is
the code's `Add` on every pattern whose rewritten form is an expression of
the modelled syntax; for an expression outside it that Go compiles, the
code appends a route that holds an expression the model has no value for
(`AddWith` covers it). -/
def Add (p : ControllerRegistor) (pattern : Str) (t : ReflectType)
    (mappingMethods : List Str) : ControllerRegistor :=
  AddWith Compile p pattern t mappingMethods

/-- Go `ControllerRegistor.insertFilterRouter`. -/
def insertFilterRouter (p : ControllerRegistor) (pos : Nat) (mr : FilterRouter) :
    ControllerRegistor :=
  { p with filters := mapSet p.filters pos ((mapGet? p.filters pos).getD [] ++ [mr]),
           enableFilter := true }

/-- Go `ControllerRegistor.InsertFilter`.  `mkTree pattern` stands for the
tree `NewTree()` after `AddRouter(pattern, true)`, which is not part of the
sources; `caseSensitive` is the global `RouterCaseSensitive`. -/
def InsertFilter (mkTree : Str → Str → TreeResult × List (Str × Str)) (caseSensitive : Bool)
    (p : ControllerRegistor) (pattern : Str) (pos : Nat) (filter : UserCode)
    (params : List Bool) : ControllerRegistor :=
  let pattern1 := if !caseSensitive then ToLower pattern else pattern
  let mr : FilterRouter :=
    { filterFunc := filter, tree := mkTree pattern1, pattern := pattern,
      returnOnOutput := match params with
        | [] => true
        | b :: _ => b }
  insertFilterRouter p pos mr

/-! ## Requests and dispatch (`ServeHTTP`) -/

/-- Go `url.Values.Get`: the first value of the key, or the empty string. -/
def valuesGet (vs : List (Str × List Str)) (key : Str) : Str :=
  match mapGet? vs key with
  | some (v :: _) => v
  | _ => []

/-- Go `url.Values.Add`: append a value to the key's list. -/
def valuesAdd (vs : List (Str × List Str)) (key value : Str) : List (Str × List Str) :=
  mapSet vs key ((mapGet? vs key).getD [] ++ [value])

/-- An inbound request: `r.Method`, `r.URL.Path`, the query values
`r.URL.Query()`, the parsed form `r.Form` (for a method other than GET and
HEAD the form is parsed at line 474, before any call of `Input.Query`), and
whether the header `Upgrade` is `websocket`. -/
structure Request where
  Method : Str
  Path : Str
  Query : List (Str × List Str)
  Form : List (Str × List Str)
  websocket : Bool
  deriving DecidableEq, Repr

/-- An error handler (`http.HandlerFunc`) of `middleware.ErrorMaps`. -/
inductive Handler where
  | nil
  | SimpleServerError
  | registered (id : Nat)
  deriving DecidableEq, Repr

/-- What dispatch does, in order. -/
inductive Event where
  | sessionStart
  | httpError (code : Nat)
  | readBody
  | filterFunc (pos idx : Nat)
  | serveFile (file : Str)
  | notFound
  | exception (code : Str)
  | redirect (url : Str) (code : Nat)
  | matchString (pattern : Str)
  | logPrint
  | Init (t : ReflectType) (runMethod : Str)
  | XsrfToken
  | CheckXSRFCookie
  | Prepare
  | Filter
  | accessLog
  | call (runMethod : Str)
  | Render
  | Finish
  | recover (v : PanicVal)
  | errorHandler (h : Handler)
  deriving DecidableEq, Repr

/-- The variables of one run of `ServeHTTP`: the response writer's
`started`, the events so far, `context.Input.Params`, the query
values behind `r.URL.RawQuery`, and the locals `findrouter`, `runMethod`,
`runrouter` and `params`. -/
structure Ctx where
  started : Bool
  trace : List Event
  InputParams : List (Str × Str)
  RawQuery : List (Str × List Str)
  findrouter : Bool
  runMethod : Str
  runrouter : Option ReflectType
  params : List (Str × Str)
  deriving DecidableEq, Repr

/-- How a stage of `ServeHTTP` ends: control goes on, `ServeHTTP` returns,
or a panic unwinds. -/
inductive Flow where
  | cont
  | ret
  | panic (v : PanicVal)
  deriving DecidableEq, Repr

/-- The methods of a controller type, as they behave in this request;
`implements` is the outcome of the assertion to `ControllerInterface`, and
`MethodByName name` is `none` when the type has no method of that name. -/
structure Controller where
  implements : Bool
  Init : UserCode
  XsrfToken : UserCode
  CheckXSRFCookie : UserCode
  Prepare : UserCode
  Filter : UserCode
  FilterResult : Bool
  accessLog : UserCode
  Get : UserCode
  Post : UserCode
  Delete : UserCode
  Put : UserCode
  Head : UserCode
  Patch : UserCode
  Options : UserCode
  MethodByName : Str → Option UserCode
  Render : UserCode
  RenderFails : Bool
  Finish : UserCode

/-- The package-level settings `ServeHTTP` reads, the static routes in the
order this run walks them, `os.Stat` (`none` an error, `some d` a file
that is a directory when `d`), `middleware.ErrorMaps` and the controller
types. -/
structure Config where
  RouterCaseSensitive : Bool
  sessionOn : Bool
  runMode : Str
  enableXSRF : Bool
  enableAccessLog : Bool
  autoRender : Bool
  directoryIndex : Bool
  gSRoute : List (Str × Str)
  stat : Str → Option Bool
  ErrorMaps : List (Str × Handler)
  controllers : ReflectType → Controller

/-- Go `ControllerRegistor.getErrorHandler`. -/
def getErrorHandler (errorMaps : List (Str × Handler)) (errorCode : Str) : Handler :=
  if errorCode != [] then
    let r : Handler × Bool :=
      match mapGet? errorMaps errorCode with
      | some h => (h, true)
      | none =>
        match mapGet? errorMaps "500".toList with
        | some h => (h, true)
        | none => (.nil, false)
    if !r.2 || r.1 = .nil then .SimpleServerError else r.1
  else .SimpleServerError

/-- Go `ControllerRegistor.getRunMethod`; `form` is the request's parsed
form, read by `context.Input.Query`. -/
def getRunMethodOf {ρ : Type} (method : Str) (form : List (Str × List Str))
    (router : controllerInfoOf ρ) : Str :=
  let method0 := ToLower method
  let method1 :=
    if method0 = "post".toList && ToLower (valuesGet form "_method".toList) = "put".toList
    then "put".toList else method0
  let method2 :=
    if method1 = "post".toList && ToLower (valuesGet form "_method".toList) = "delete".toList
    then "delete".toList else method1
  if router.hasMethod then
    match mapGet? router.methods method2 with
    | some m => m
    | none =>
      match mapGet? router.methods "*".toList with
      | some m => m
      | none => []
  else Title method2

/-- Go `ControllerRegistor.getRunMethod` on a route of the modelled
`regexp`. -/
def getRunMethod (method : Str) (form : List (Str × List Str)) (router : controllerInfo) : Str :=
  getRunMethodOf method form router

/-- Append an event to the trace. -/
def Ctx.log (c : Ctx) (e : Event) : Ctx := { c with trace := c.trace ++ [e] }

/-- Go `responseWriter.WriteHeader` and `responseWriter.Write`, reached by
the library calls that answer through `w` (`http.Error`, `http.Redirect`,
`http.NotFound`, `http.ServeFile`): the response is started. -/
def Ctx.start (c : Ctx) : Ctx := { c with started := true }

/-- One call of user code: the event is recorded, a write through
`context.ResponseWriter` sets `started` unless the request is a websocket
upgrade (then line 458 has replaced the wrapper by the raw writer), and a
panic unwinds. -/
def runUser (req : Request) (u : UserCode) (e : Event) (c : Ctx) : Ctx × Flow :=
  let c1 := { c.log e with started := c.started || (u.writes && !req.websocket) }
  match u.panics with
  | some v => (c1, .panic v)
  | none => (c1, .cont)

/-- Sequencing of two stages: the second runs when the first goes on. -/
def andThen (a b : Ctx → Ctx × Flow) (c : Ctx) : Ctx × Flow :=
  match a c with
  | (c1, .cont) => b c1
  | r => r

/-- The loop of `doFilter` (lines 442-450) over the filters of stage `pos`,
from index `idx`: `.ret` stands for `return true`. -/
def doFilterLoop (req : Request) (urlPath : Str) (pos : Nat) :
    List FilterRouter → Nat → Ctx → Ctx × Flow
  | [], _, c => (c, .cont)
  | filterR :: rest, idx, c =>
    let v := filterR.ValidRouter urlPath
    if v.1 then
      match runUser req filterR.filterFunc (.filterFunc pos idx) { c with InputParams := v.2 } with
      | (c1, .cont) =>
        if filterR.returnOnOutput && c1.started then (c1, .ret)
        else doFilterLoop req urlPath pos rest (idx + 1) c1
      | r => r
    else doFilterLoop req urlPath pos rest (idx + 1) c

/-- The closure `doFilter` of `ServeHTTP` (lines 439-455), used as
`if doFilter(pos) { return }`: `.ret` when it answers `true`. -/
def doFilter (p : ControllerRegistor) (req : Request) (urlPath : Str) (pos : Nat) (c : Ctx) :
    Ctx × Flow :=
  if p.enableFilter then
    match mapGet? p.filters pos with
    | some l => doFilterLoop req urlPath pos l 0 c
    | none => (c, .cont)
  else (c, .cont)

/-- The panic of a call through a nil pointer or a nil function value. -/
def nilPanic : PanicVal :=
  ⟨false, "runtime error: invalid memory address or nil pointer dereference".toList⟩

/-- Go `middleware.Exception(errcode, rw, r, msg)` (`middleware/error.go`)
on the raw writer `rw`: when `ErrorMaps` has an entry under the code, the
status is written and the entry is called, without a nil test, so that a
nil entry panics; else the plain text is written.  The event records the
call. -/
def Exception (errorMaps : List (Str × Handler)) (errcode : Str) (c : Ctx) : Ctx × Flow :=
  match mapGet? errorMaps errcode with
  | some .nil => (c.log (.exception errcode), .panic nilPanic)
  | _ => (c.log (.exception errcode), .cont)

/-- The loop over the static routes (lines 484-506). -/
def staticLoop (cfg : Config) (req : Request) : List (Str × Str) → Ctx → Ctx × Flow
  | [], c => (c, .cont)
  | (pre, staticDir) :: rest, c =>
    let c1 :=
      if req.Path = "/favicon.ico".toList then (c.log (.serveFile (staticDir ++ req.Path))).start
      else c
    if HasPrefix req.Path pre then
      let file := staticDir ++ req.Path.drop pre.length
      match cfg.stat file with
      | none => staticLoop cfg req rest (c1.log .notFound).start
      | some isDir =>
        if isDir && !cfg.directoryIndex then
          andThen (Exception cfg.ErrorMaps "403".toList) (staticLoop cfg req rest) c1
        else staticLoop cfg req rest (c1.log (.serveFile file)).start
    else staticLoop cfg req rest c1

/-- The panic of the index expression `requestPath[n-1]` on the empty path:
the runtime error, whose text names the index, `-1`. -/
def indexPanic : PanicVal := ⟨false, "runtime error: index out of range [-1]".toList⟩

/-- The scan of the fixed routes (lines 514-538).  `requestPath[n-1]` is
the last character of the path and panics on the empty path. -/
def fixLoop (req : Request) : List controllerInfo → Ctx → Ctx × Flow
  | [], c => (c, .cont)
  | route :: rest, c =>
    let c1 :=
      if req.Path = route.pattern then
        { c with runMethod := getRunMethod req.Method req.Form route }
      else c
    if req.Path = route.pattern && c1.runMethod != [] then
      ({ c1 with runrouter := some route.controllerType, findrouter := true }, .cont)
    else
      match req.Path.getLast? with
      | none => (c1, .panic indexPanic)
      | some last =>
        if last != '/' && req.Path ++ "/".toList = route.pattern then
          fixLoop req rest (c1.log (.redirect (req.Path ++ "/".toList) 301)).start
        else if last = '/' && route.pattern ++ "/".toList = req.Path then
          let c2 := { c1 with runMethod := getRunMethod req.Method req.Form route }
          if c2.runMethod != [] then
            ({ c2 with runrouter := some route.controllerType, findrouter := true }, .cont)
          else fixLoop req rest c2
        else fixLoop req rest c1

/-- The loop of lines 558-561 over `matches[1:]`, from index `i`: the
query values and the local `params` after it. -/
def bindLoop (routeParams : List (Nat × Str)) :
    List Str → Nat → List (Str × List Str) × List (Str × Str) →
      List (Str × List Str) × List (Str × Str)
  | [], _, acc => acc
  | m :: ms, i, acc =>
    bindLoop routeParams ms (i + 1)
      (valuesAdd acc.1 (mapGet routeParams i) m, mapSet acc.2 (mapGet routeParams i) m)

/-- The test of lines 545-553 on one pattern route: the submatches when the
leftmost match is as long as the path. -/
def acceptRoute (re : Regex) (requestPath : Str) : Option (List Str) :=
  if !MatchString re requestPath then none
  else match FindStringSubmatch re requestPath with
    | some (m0 :: groups) => if m0.length != requestPath.length then none else some groups
    | _ => none

/-- What the test of lines 545-553 answers on one pattern route: `continue`,
the submatches `matches[1:]`, or the panic of `matches[0]` on an empty
slice. -/
inductive RouteTest where
  | skip
  | accept (groups : List Str)
  | panics
  deriving DecidableEq, Repr

/-- The panic of the index expression `matches[0]` on an empty slice. -/
def emptyIndexPanic : PanicVal :=
  ⟨false, "runtime error: index out of range [0] with length 0".toList⟩

/-- The test of lines 545-553 on one pattern route, for any library. -/
def acceptRouteWith {ρ : Type} (L : RegexpLib ρ) (re : ρ) (requestPath : Str) : RouteTest :=
  if !L.MatchString re requestPath then .skip
  else match L.FindStringSubmatch re requestPath with
    | [] => .panics
    | m0 :: groups => if m0.length != requestPath.length then .skip else .accept groups

/-- The scan of the pattern routes (lines 542-572), for any library. -/
def patLoopWith {ρ : Type} (L : RegexpLib ρ) (req : Request) :
    List (controllerInfoOf ρ) → Ctx → Ctx × Flow
  | [], c => (c, .cont)
  | route :: rest, c =>
    match route.regex with
    | none => (c, .panic nilPanic)
    | some re =>
      let c0 := c.log (.matchString route.pattern)
      match acceptRouteWith L re req.Path with
      | .skip => patLoopWith L req rest c0
      | .panics => (c0, .panic emptyIndexPanic)
      | .accept groups =>
        let c1 :=
          if route.params.length > 0 then
            let b := bindLoop route.params groups 0 (c0.RawQuery, c0.params)
            { c0 with RawQuery := b.1, params := b.2 }
          else c0
        let c2 := { c1 with runMethod := getRunMethodOf req.Method req.Form route }
        if c2.runMethod != [] then
          ({ c2 with runrouter := some route.controllerType, InputParams := c2.params,
                     findrouter := true }, .cont)
        else patLoopWith L req rest c2

/-- The scan of the pattern routes (lines 542-572) with the modelled
library; `patLoop_cons` gives its iteration in terms of `acceptRoute`. -/
def patLoop (req : Request) (routes : List controllerInfo) (c : Ctx) : Ctx × Flow :=
  patLoopWith modelRegexp req routes c

/-- Route resolution (lines 513-573): the fixed routes, then, when none was
found, the pattern routes. -/
def resolve (p : ControllerRegistor) (req : Request) : Ctx → Ctx × Flow :=
  andThen (fixLoop req p.fixrouters)
    (fun c => if !c.findrouter then patLoop req p.routers c else (c, .cont))

/-- Lines 575-579: no route, `middleware.Exception("404", rw, r, "")` and
`return`. -/
def notFoundStage (cfg : Config) (c : Ctx) : Ctx × Flow :=
  if !c.findrouter then
    andThen (Exception cfg.ErrorMaps "404".toList) (fun c1 => (c1, .ret)) c
  else (c, .cont)

/-- Lines 600-605: the XSRF token and its check. -/
def xsrfStage (cfg : Config) (req : Request) (k : Controller) : Ctx → Ctx × Flow :=
  if cfg.enableXSRF then
    andThen (runUser req k.XsrfToken .XsrfToken)
      (fun c =>
        if req.Method = "POST".toList || req.Method = "DELETE".toList
            || req.Method = "PUT".toList
            || (req.Method = "POST".toList
                && valuesGet req.Form "_method".toList = "put".toList) then
          runUser req k.CheckXSRFCookie .CheckXSRFCookie c
        else (c, .cont))
  else fun c => (c, .cont)

/-- The `switch runMethod` of lines 621-640. -/
def callMethod (req : Request) (k : Controller) (runMethod : Str) : Ctx → Ctx × Flow :=
  if runMethod = "Get".toList then runUser req k.Get (.call runMethod)
  else if runMethod = "Post".toList then runUser req k.Post (.call runMethod)
  else if runMethod = "Delete".toList then runUser req k.Delete (.call runMethod)
  else if runMethod = "Put".toList then runUser req k.Put (.call runMethod)
  else if runMethod = "Head".toList then runUser req k.Head (.call runMethod)
  else if runMethod = "Patch".toList then runUser req k.Patch (.call runMethod)
  else if runMethod = "Options".toList then runUser req k.Options (.call runMethod)
  else match k.MethodByName runMethod with
    | some u => runUser req u (.call runMethod)
    | none => fun c => (c, .panic ⟨false, "reflect: call of reflect.Value.Call on zero Value".toList⟩)

/-- Lines 649-657: auto-render; a failure is logged and `ServeHTTP`
returns. -/
def renderStage (cfg : Config) (req : Request) (k : Controller) (c : Ctx) : Ctx × Flow :=
  if !c.started && !req.websocket then
    if cfg.autoRender then
      match runUser req k.Render .Render c with
      | (c1, .cont) => if k.RenderFails then (c1.log .logPrint, .ret) else (c1, .cont)
      | r => r
    else (c, .cont)
  else (c, .cont)

/-- Lines 619-658: the verb handler, the access log and auto-render, when
the response is not started. -/
def execStage (cfg : Config) (req : Request) (k : Controller) (c : Ctx) : Ctx × Flow :=
  if !c.started then
    andThen (callMethod req k c.runMethod)
      (andThen
        (fun c1 => if cfg.enableAccessLog then runUser req k.accessLog .accessLog c1 else (c1, .cont))
        (renderStage cfg req k)) c
  else (c, .cont)

/-- Lines 607-667: `Prepare`, the controller's `Filter` hook, the handler,
`Finish` and the `AFTER_EXEC` filters. -/
def runController (cfg : Config) (p : ControllerRegistor) (req : Request) (urlPath : Str)
    (k : Controller) : Ctx → Ctx × Flow :=
  andThen (runUser req k.Prepare .Prepare)
    (andThen (runUser req k.Filter .Filter)
      (fun c =>
        if !k.FilterResult then
          andThen (runUser req k.accessLog .accessLog)
            (andThen (runUser req k.Finish .Finish) (fun c1 => (c1, .ret))) c
        else
          andThen (execStage cfg req k)
            (andThen (runUser req k.Finish .Finish) (doFilter p req urlPath AFTER_EXEC)) c))

/-- Lines 582-667: the `BEFORE_EXEC` filters, then the controller. -/
def execRoute (cfg : Config) (p : ControllerRegistor) (req : Request) (urlPath : Str) :
    Ctx → Ctx × Flow :=
  andThen (doFilter p req urlPath BEFORE_EXEC)
    (fun c =>
      match c.runrouter with
      | none => (c, .panic nilPanic)
      | some t =>
        let k := cfg.controllers t
        if !k.implements then (c.log .logPrint, .ret)
        else
          andThen (runUser req k.Init (.Init t c.runMethod))
            (andThen (xsrfStage cfg req k) (runController cfg p req urlPath k)) c)

/-- The path the filters are matched against (lines 431-436). -/
def urlPathOf (cfg : Config) (req : Request) : Str :=
  if !cfg.RouterCaseSensitive then ToLower req.Path else req.Path

/-- Lines 461-507: session start, the method check, the body, the
`BEFORE_STATIC` filters and the static files. -/
def beforeRouter (cfg : Config) (p : ControllerRegistor) (req : Request) : Ctx → Ctx × Flow :=
  andThen
    (fun c =>
      if cfg.sessionOn && cfg.runMode = "web".toList then (c.log .sessionStart, .cont)
      else (c, .cont))
    (andThen
      (fun c =>
        if !InSlice (ToLower req.Method) HTTPMETHOD then ((c.log (.httpError 405)).start, .ret)
        else (c, .cont))
      (andThen
        (fun c =>
          if req.Method != "GET".toList && req.Method != "HEAD".toList then (c.log .readBody, .cont)
          else (c, .cont))
        (andThen (doFilter p req (urlPathOf cfg req) BEFORE_STATIC)
          (fun c =>
            if cfg.runMode = "web".toList then staticLoop cfg req cfg.gSRoute c
            else (c, .cont)))))

/-- Lines 513-667: route resolution and everything after it. -/
def afterRouter (cfg : Config) (p : ControllerRegistor) (req : Request) : Ctx → Ctx × Flow :=
  andThen (resolve p req)
    (andThen (notFoundStage cfg) (execRoute cfg p req (urlPathOf cfg req)))

/-- The body of `ServeHTTP` (lines 406-667). -/
def serveBody (cfg : Config) (p : ControllerRegistor) (req : Request) : Ctx → Ctx × Flow :=
  andThen (beforeRouter cfg p req)
    (andThen (doFilter p req (urlPathOf cfg req) BEFORE_ROUTER) (afterRouter cfg p req))

/-- The deferred function of `ServeHTTP` (lines 391-404). -/
def recoverStage (cfg : Config) (r : Ctx × Flow) : Ctx :=
  match r with
  | (c, .panic v) =>
    if v.isHTTPException then c.log (.recover v)
    else (c.log (.recover v)).log (.errorHandler (getErrorHandler cfg.ErrorMaps v.text))
  | (c, _) => c

/-- The state at the entry of `ServeHTTP`. -/
def initCtx (req : Request) : Ctx :=
  { started := false, trace := [], InputParams := [], RawQuery := req.Query,
    findrouter := false, runMethod := [], runrouter := none, params := [] }

/-- Go `ControllerRegistor.ServeHTTP`: the state when it returns. -/
def ServeHTTP (cfg : Config) (p : ControllerRegistor) (req : Request) : Ctx :=
  recoverStage cfg (serveBody cfg p req (initCtx req))

/-- The registrar after the single call `Add(pattern, c)` on a new one. -/
def single (pattern : Str) (t : ReflectType) : ControllerRegistor :=
  Add NewControllerRegistor pattern t []

/-- A request with method `m` and path `path`, no query and no form. -/
def plainRequest (m path : Str) : Request :=
  { Method := m, Path := path, Query := [], Form := [], websocket := false }

/-- The text that replaces a segment in the rewritten pattern. -/
def segSlot (part : Str) : Str := (addPart part [] 0).slot

/-- The parameter names a segment contributes, in order. -/
def segNames (part : Str) : List Str := (addPart part [] 0).params.map Prod.snd

/-- The parameter names of a pattern: those of its segments, left to right. -/
def paramNames (pattern : Str) : List Str := (Split '/' pattern).flatMap segNames

/-- The pattern rewritten as a regular expression (line 215). -/
def rewritten (pattern : Str) : Str := Join "/".toList ((Split '/' pattern).map segSlot)

/-- Keys `0 .. j-1` in order, and the names of a second run appended. -/
def Grows (params0 : List (Nat × Str)) (j0 : Nat) (params : List (Nat × Str)) (j : Nat)
    (names : List Str) : Prop :=
  params.map Prod.fst = List.range j ∧ j = j0 + names.length ∧
    params.map Prod.snd = params0.map Prod.snd ++ names

/-- Two runs of one iteration of the loop of `Add`, one from `(P, J)` and
one from the empty map, stand in the same place and have added the same
names. -/
def PartSim (P : List (Nat × Str)) (J : Nat) (s s0 : PartSt) : Prop :=
  s.part = s0.part ∧ s.slot = s0.slot ∧
    ∃ N, Grows P J s.params s.j N ∧ Grows [] 0 s0.params s0.j N

/-- The same relation between two runs of the character scan. -/
def ScanSim (P : List (Nat × Str)) (J : Nat) (s s0 : ScanSt) : Prop :=
  s.out = s0.out ∧ s.start = s0.start ∧ s.startexp = s0.startexp ∧ s.param = s0.param ∧
    s.expt = s0.expt ∧ ∃ N, Grows P J s.params s.j N ∧ Grows [] 0 s0.params s0.j N

/-- Capturing groups held by one level of the parser's stack. -/
def Frame.groups (f : Frame) : Nat :=
  (f.alts.map Regex.NumSubexp).sum + (f.cur.map Regex.NumSubexp).sum
    + (if f.cap.isSome then 1 else 0)

/-- Capturing groups held by the parser's stack. -/
def PState.groups (st : PState) : Nat :=
  st.top.groups + (st.below.map Frame.groups).sum

/-- The registrar after the calls `Add(pattern, c)` of the list, in order,
on a new one. -/
def register (adds : List (Str × ReflectType)) : ControllerRegistor :=
  adds.foldl (fun p x => Add p x.1 x.2 []) NewControllerRegistor

/-- The registrar after the calls `Add(pattern, c)` of the list, in order,
on a new one, for any `regexp.Compile`. -/
def registerWith {ρ : Type} (compile : Str → Option ρ) (adds : List (Str × ReflectType)) :
    ControllerRegistorOf ρ :=
  adds.foldl (fun p x => AddWith compile p x.1 x.2 []) NewControllerRegistor

/-- Whether the request method passes the check of line 467. -/
def allowed (m : Str) : Bool := InSlice (ToLower m) HTTPMETHOD

/-- What `Add` stores in a pattern route. -/
def addedRoute {ρ : Type} (x : controllerInfoOf ρ) : Prop :=
  x.hasMethod = false ∧ (∃ re, x.regex = some re) ∧ 0 < x.params.length

/-- User code that writes nothing and returns. -/
def quiet : UserCode := ⟨false, none⟩

/-- A controller type whose methods write nothing and return, and whose
`Filter` hook answers `true`. -/
def plainController : Controller :=
  { implements := true, Init := quiet, XsrfToken := quiet, CheckXSRFCookie := quiet,
    Prepare := quiet, Filter := quiet, FilterResult := true, accessLog := quiet,
    Get := quiet, Post := quiet, Delete := quiet, Put := quiet, Head := quiet, Patch := quiet,
    Options := quiet, MethodByName := fun _ => none, Render := quiet, RenderFails := false,
    Finish := quiet }

/-- The default settings of `config.go`, no static route, no error handler
registered, every controller type a `plainController`. -/
def plainConfig : Config :=
  { RouterCaseSensitive := true, sessionOn := false, runMode := "web".toList,
    enableXSRF := false, enableAccessLog := true, autoRender := true, directoryIndex := false,
    gSRoute := [], stat := fun _ => none, ErrorMaps := [], controllers := fun _ => plainController }

/-- A filter tree that matches every path, without parameters. -/
def matchAll : Str → Str → TreeResult × List (Str × Str) := fun _ _ => (.bool true, [])

/-- The fixed route `/a` and one `BEFORE_ROUTER` filter that matches every
path, registered without a bool argument, whose function writes. -/
def shortCircuitApp : ControllerRegistor :=
  InsertFilter matchAll true (register [("/a".toList, 2)]) "/*".toList BEFORE_ROUTER
    ⟨true, none⟩ []

/-- The same with the filter registered with `returnOnOutput = false`. -/
def fireAndContinueApp : ControllerRegistor :=
  InsertFilter matchAll true (register [("/a".toList, 2)]) "/*".toList BEFORE_ROUTER
    ⟨true, none⟩ [false]

/-! ## Definitions for the statements on dispatch -/

/-- In the words of the specification: the filters of a stage whose matcher
accepts the path, with their positions, in insertion order. -/
def matchingFilters (u : Str) (l : List FilterRouter) (idx : Nat) : List (Nat × FilterRouter) :=
  (l.enumFrom idx).filter (fun e => (e.2.ValidRouter u).1)

/-- In the words of the specification: the positions of the filters that
are invoked, among the matching ones: all of them in order, up to and
including the first one after which the response is started and whose
`returnOnOutput` flag is true (or that panics).  `started` is the flag
before the first of them. -/
def invokedUpTo (websocket : Bool) : Bool → List (Nat × FilterRouter) → List Nat
  | _, [] => []
  | started, e :: rest =>
    if e.2.filterFunc.panics.isSome
        || (e.2.returnOnOutput && (started || (e.2.filterFunc.writes && !websocket))) then [e.1]
    else e.1 :: invokedUpTo websocket (started || (e.2.filterFunc.writes && !websocket)) rest

/-- The filters a registrar holds for a stage. -/
def filtersAt (p : ControllerRegistor) (pos : Nat) : List FilterRouter :=
  (mapGet? p.filters pos).getD []

/-- What `NewControllerRegistor`, `Add` and `InsertFilter` maintain: filters
are registered only with `enableFilter` set. -/
def filtersEnabled (p : ControllerRegistor) : Prop :=
  p.filters ≠ [] → p.enableFilter = true

/-- The verb `getRunMethod` looks up: the lower-cased method, replaced by
`put` or `delete` when it is `post` and the form field `_method` says so
(lines 262-268). -/
def effectiveVerb (method : Str) (form : List (Str × List Str)) : Str :=
  if ToLower method = "post".toList
      ∧ ToLower (valuesGet form "_method".toList) = "put".toList then "put".toList
  else if ToLower method = "post".toList
      ∧ ToLower (valuesGet form "_method".toList) = "delete".toList then "delete".toList
  else ToLower method

/-- The resolution chain of a method map, in the words of the
specification: the entry of the verb, else the entry of `*`, else the empty
string. -/
def chain (methods : List (Str × Str)) (verb : Str) : Str :=
  match mapGet? methods verb with
  | some m => m
  | none =>
    match mapGet? methods "*".toList with
    | some m => m
    | none => []

/-- The registrar after `Add("/api/create", c, "post:CreateFood")` on a new
one. -/
def createFoodApp : ControllerRegistor :=
  Add NewControllerRegistor "/api/create".toList 7 ["post:CreateFood".toList]

/-- Every event a stage adds to the trace satisfies `S`. -/
def Emits (S : Event → Prop) (f : Ctx → Ctx × Flow) : Prop :=
  ∀ c e, e ∈ (f c).1.trace → e ∈ c.trace ∨ S e

/-- An event other than the answer of `http.Error`. -/
def notHttpError (e : Event) : Prop := ∀ code, e ≠ .httpError code

/-- The only route is `/user/:id`; the request is `GET /user/42?:id=7`. -/
def shadowedRequest : Request :=
  { Method := "GET".toList, Path := "/user/42".toList,
    Query := [(":id".toList, ["7".toList])], Form := [], websocket := false }

/-- The fixed route `/a` and one `BEFORE_ROUTER` filter that matches every
path and panics with the `middleware.HTTPException` of status 403. -/
def forbiddenApp : ControllerRegistor :=
  InsertFilter matchAll true (register [("/a".toList, 2)]) "/*".toList BEFORE_ROUTER
    ⟨false, some ⟨true, "{403 Forbidden}".toList⟩⟩ []

/-! ## XSRF check, handler stage and response state (`controllers.go`, `router.go`) -/

/-- Go `Controller.CheckXSRFCookie`.  `formToken` is `c.GetString("_xsrf")`,
`headerXsrftoken` and `headerCsrftoken` are the values of the headers
`X-Xsrftoken` and `X-Csrftoken`, `xsrfToken` is `c._xsrfToken`.  The result
is `ok` and whether `middleware.Exception("403", ...)` was called on
`c.Ctx.ResponseWriter`. -/
def CheckXSRFCookie (formToken headerXsrftoken headerCsrftoken xsrfToken : Str) : Bool × Bool :=
  let token0 := formToken
  let token1 := if token0 = [] then headerXsrftoken else token0
  let token2 := if token1 = [] then headerCsrftoken else token1
  if token2 = [] then (false, true)
  else if xsrfToken ≠ token2 then (false, true)
  else (true, false)

/-- The token a request presents: the form field `_xsrf`, else the header
`X-Xsrftoken`, else the header `X-Csrftoken`. -/
def presentedToken (formToken headerXsrftoken headerCsrftoken : Str) : Str :=
  if formToken ≠ [] then formToken
  else if headerXsrftoken ≠ [] then headerXsrftoken
  else headerCsrftoken

/-- What dispatch observes of a call of `CheckXSRFCookie`: it writes the
403 answer when the check fails, and returns. -/
def checkXSRFCode (formToken headerXsrftoken headerCsrftoken xsrfToken : Str) : UserCode :=
  ⟨(CheckXSRFCookie formToken headerXsrftoken headerCsrftoken xsrfToken).2, none⟩

/-- The settings of `plainConfig` with XSRF enabled, every controller type
being a `plainController` whose established token is `tok` and whose
request presents no token. -/
def xsrfConfig : Config :=
  { plainConfig with
      enableXSRF := true,
      controllers := fun _ =>
        { plainController with CheckXSRFCookie := checkXSRFCode [] [] [] "tok".toList } }

/-- The fixed route `/a` and one `AFTER_EXEC` filter that matches every
path. -/
def afterExecApp : ControllerRegistor :=
  InsertFilter matchAll true (register [("/a".toList, 2)]) "/*".toList AFTER_EXEC quiet []

/-- The method the `switch runMethod` of lines 621-640 calls: one of the
seven verb handlers, or the method found by `MethodByName`. -/
def verbHandler (k : Controller) (runMethod : Str) : Option UserCode :=
  if runMethod = "Get".toList then some k.Get
  else if runMethod = "Post".toList then some k.Post
  else if runMethod = "Delete".toList then some k.Delete
  else if runMethod = "Put".toList then some k.Put
  else if runMethod = "Head".toList then some k.Head
  else if runMethod = "Patch".toList then some k.Patch
  else if runMethod = "Options".toList then some k.Options
  else k.MethodByName runMethod

/-- The stage never adds the event `e` to the trace. -/
def Silent (e : Event) (f : Ctx → Ctx × Flow) : Prop :=
  ∀ c, (f c).1.trace.count e = c.trace.count e

/-- The state `c1` comes after `c` in a request: the trace has only grown
and the flag `started`, once set, is still set. -/
def Ctx.before (c c1 : Ctx) : Prop :=
  c.trace <+: c1.trace ∧ (c.started = true → c1.started = true)

/-- A stage only appends to the trace and never resets `started`. -/
def Keeps (f : Ctx → Ctx × Flow) : Prop := ∀ c : Ctx, c.before (f c).1

/-- The static route `/static` served from `public`, every file present. -/
def staticConfig : Config :=
  { plainConfig with gSRoute := [("/static".toList, "public".toList)], stat := fun _ => some false }

/-- The fixed routes `/a` and `/static/app.css`, and one `BEFORE_ROUTER`
filter that matches every path, writes nothing and is registered without a
bool argument. -/
def quietFilterApp : ControllerRegistor :=
  InsertFilter matchAll true (register [("/a".toList, 2), ("/static/app.css".toList, 3)])
    "/*".toList BEFORE_ROUTER quiet []

/-- The registrar `fireAndContinueApp` with a second `BEFORE_ROUTER` filter,
which writes nothing and is registered without a bool argument. -/
def twoFilterApp : ControllerRegistor :=
  InsertFilter matchAll true fireAndContinueApp "/*".toList BEFORE_ROUTER quiet []

/-! ## Signed cookies (`controllers.go`, `context/output.go`) -/

/-- A byte of a Go `[]byte`. -/
abbrev Byte := Fin 256

/-- Conversion `byte(n)`, on the low eight bits. -/
def toByte (n : Nat) : Byte := ⟨n % 256, Nat.mod_lt _ (by decide)⟩

/-- Go `strings.SplitN(s, sep, n)` for a separator of one character and
`n >= 0`: at most `n` parts, the last one the unsplit remainder. -/
def SplitN (sep : Char) : Str → Nat → List Str
  | _, 0 => []
  | s, 1 => [s]
  | [], _ + 2 => [[]]
  | c :: cs, n + 2 =>
    if c = sep then [] :: SplitN sep cs (n + 1)
    else match SplitN sep cs (n + 2) with
      | [] => [[c]]
      | p :: ps => (c :: p) :: ps

/-- Go `strconv.FormatInt(i, 10)`. -/
def FormatInt (i : Int) : Str :=
  if i < 0 then '-' :: Nat.toDigits 10 i.natAbs else Nat.toDigits 10 i.natAbs

/-- The alphabet of `base64.URLEncoding`. -/
def encodeURL : Str :=
  "ABCDEFGHIJKLMNOPQRSTUVWXYZabcdefghijklmnopqrstuvwxyz0123456789-_".toList

/-- The character of a six-bit value. -/
def b64Char (i : Nat) : Char := encodeURL.getD i '='

/-- The six-bit value of a character of the alphabet (`decodeMap`). -/
def b64Index (c : Char) : Option Nat :=
  if encodeURL.indexOf c < 64 then some (encodeURL.indexOf c) else none

/-- Go `base64.URLEncoding.EncodeToString` (standard library): three bytes
give four characters, and the last group is padded with `=`. -/
def EncodeToString : List Byte → Str
  | [] => []
  | [a] => [b64Char (a.val / 4), b64Char (a.val % 4 * 16), '=', '=']
  | [a, b] =>
    [b64Char (a.val / 4), b64Char (a.val % 4 * 16 + b.val / 16), b64Char (b.val % 16 * 4), '=']
  | a :: b :: c :: rest =>
    b64Char (a.val / 4) :: b64Char (a.val % 4 * 16 + b.val / 16)
      :: b64Char (b.val % 16 * 4 + c.val / 64) :: b64Char (c.val % 64) :: EncodeToString rest

/-- The quanta of four characters of a base64 text, decoded (`decode` of
`encoding/base64`).  Decoding stops at the first malformed quantum, which
yields no byte, and at a padded quantum (`xx==` or `xxx=`), which yields its
one or two bytes whatever follows it: text after the padding only sets the
error result. -/
def decodeQuanta : Str → List Byte
  | c0 :: c1 :: c2 :: c3 :: rest =>
    match b64Index c0, b64Index c1 with
    | some i0, some i1 =>
      if c2 = '=' then
        if c3 = '=' then [toByte (i0 * 4 + i1 / 16)] else []
      else
        match b64Index c2 with
        | none => []
        | some i2 =>
          if c3 = '=' then [toByte (i0 * 4 + i1 / 16), toByte (i1 % 16 * 16 + i2 / 4)]
          else
            match b64Index c3 with
            | none => []
            | some i3 =>
              toByte (i0 * 4 + i1 / 16) :: toByte (i1 % 16 * 16 + i2 / 4)
                :: toByte (i2 % 4 * 64 + i3) :: decodeQuanta rest
    | _, _ => []
  | _ => []

/-- Go `base64.URLEncoding.DecodeString` (standard library), the error
dropped as in `GetSecureCookie`: line breaks are ignored, and the result
holds the bytes decoded before the error, those of the quanta before the
first malformed one, a padded quantum followed by more text included. -/
def DecodeString (s : Str) : List Byte :=
  decodeQuanta (s.filter (fun c => c != '\r' && c != '\n'))

/-- The digit of `fmt`'s verb `%x`. -/
def hexDigit (n : Nat) : Char := "0123456789abcdef".toList.getD n '0'

/-- Go `fmt.Sprintf("%02x", b)` for a byte slice of a digest: two
lower-case hexadecimal digits per byte. -/
def hex (b : List Byte) : Str := b.flatMap (fun x => [hexDigit (x.val / 16), hexDigit (x.val % 16)])

/-- Go `Controller.SetSecureCookie`: the text it passes to `SetCookie`.
`hmacSHA1 key msg` is the digest `hmac.New(sha1.New, key)` gives for `msg`
(standard library), `now` is `time.Now().UnixNano()`. -/
def SetSecureCookie (hmacSHA1 : Str → Str → List Byte) (secret : Str) (value : List Byte)
    (now : Int) : Str :=
  let vs := EncodeToString value
  let timestamp := FormatInt now
  let sig := hex (hmacSHA1 secret (vs ++ timestamp))
  Join "|".toList [vs, timestamp, sig]

/-- Go `Controller.GetSecureCookie`; `val` is `c.Ctx.GetCookie(key)`.  The
result is the bytes of `value` and `ok`. -/
def GetSecureCookie (hmacSHA1 : Str → Str → List Byte) (secret : Str) (val : Str) :
    List Byte × Bool :=
  if val = [] then ([], false)
  else
    let parts := SplitN '|' val 3
    if parts.length ≠ 3 then ([], false)
    else
      let vs := parts.getD 0 []
      let timestamp := parts.getD 1 []
      let sig := parts.getD 2 []
      if hex (hmacSHA1 secret (vs ++ timestamp)) ≠ sig then ([], false)
      else (DecodeString vs, true)

/-- Go `sanitizeValue` (`context/output.go`): the replacer turns line
breaks and semicolons into spaces. -/
def sanitizeValue (v : Str) : Str :=
  v.map (fun c => if c = '\n' ∨ c = '\r' ∨ c = ';' then ' ' else c)

/-- Go `sanitizeName` (`context/output.go`). -/
def sanitizeName (n : Str) : Str :=
  n.map (fun c => if c = '\n' ∨ c = '\r' then '-' else c)

/-- A character that passes through a cookie and is not the separator of
the signed cookie. -/
def plainChar (c : Char) : Prop := c ≠ '|' ∧ c ≠ ';' ∧ c ≠ '\n' ∧ c ≠ '\r'

/-! ## `bdlib/util`: the job queue and `SlicePad` -/

/-- Go `JobQueue` in a sequential run.  A `*Job` is `none` (nil) or
`some a`, the job at address `a`; `next a` is the field `next` of that job.
`size` and `stop` are `int64` counters, taken without wrap-around. -/
structure JobQueue where
  maxSize : Int
  size : Int
  stop : Int
  head : Option Nat
  tail : Option Nat
  next : Nat → Option Nat

/-- How a call on the queue ends in a sequential run: it returns, it waits
on the condition variable for ever (no other goroutine runs), or it
dereferences a nil pointer. -/
inductive Outcome (α : Type) where
  | ret (jq : JobQueue) (a : α)
  | blocks
  | panics

/-- Go `NewJobQueue`. -/
def NewJobQueue (maxSize : Int) : JobQueue :=
  { maxSize := maxSize, size := 0, stop := 0, head := none, tail := none, next := fun _ => none }

/-- Go `JobQueue.Stop`. -/
def JobQueue.Stop (jq : JobQueue) : JobQueue := { jq with stop := 1 }

/-- Go `JobQueue.IsStop`. -/
def JobQueue.IsStop (jq : JobQueue) : Bool := decide (jq.stop > 0)

/-- Go `JobQueue.Size`. -/
def JobQueue.Size (jq : JobQueue) : Int := jq.size

/-- Assignment to the field `next` of the job at `a`. -/
def setNext (next : Nat → Option Nat) (a : Nat) (v : Option Nat) : Nat → Option Nat :=
  fun b => if b = a then v else next b

/-- Go `JobQueue.Push`. -/
def JobQueue.Push (jq : JobQueue) (job : Nat) : Outcome Bool :=
  if jq.IsStop then .ret jq false
  else if jq.maxSize ≠ 0 ∧ jq.size ≥ jq.maxSize then .ret jq false
  else
    let jq1 := { jq with size := jq.size + 1 }
    if jq1.head = none ∧ jq1.tail = none then
      .ret { jq1 with head := some job, tail := some job, next := setNext jq1.next job none } true
    else
      let next1 := setNext jq1.next job none
      match jq1.tail with
      | none => .panics
      | some t => .ret { jq1 with next := setNext next1 t (some job), tail := some job } true

/-- Go `JobQueue.Pop`. -/
def JobQueue.Pop (jq : JobQueue) : Outcome (Option Nat) :=
  if jq.size = 0 ∧ !jq.IsStop then .blocks
  else if jq.size = 0 ∧ jq.IsStop then .ret jq none
  else
    match jq.head with
    | none => .panics
    | some job =>
      let jq1 := { jq with head := jq.next job, size := jq.size - 1 }
      let jq2 := if jq1.head = none then { jq1 with tail := none } else jq1
      .ret jq2 (some job)

/-- The value a call returned, if it returned. -/
def Outcome.value? {α : Type} : Outcome α → Option α
  | .ret _ a => some a
  | _ => none

/-- An operation on a queue. -/
inductive Op where
  | push (job : Nat)
  | pop
  | stop
  deriving DecidableEq, Repr

/-- How a sequence of operations has ended. -/
inductive Status where
  | done
  | blocked
  | panicked
  deriving DecidableEq, Repr

/-- A sequential run: the queue, the jobs whose `Push` returned true, the
jobs returned by `Pop`, and how the run stands. -/
structure Run where
  jq : JobQueue
  pushed : List Nat
  popped : List Nat
  status : Status

/-- The operations of the list, one after the other; the run ends at the
first call that does not return. -/
def run : List Op → Run → Run
  | [], r => r
  | .push job :: ops, r =>
    match r.jq.Push job with
    | .ret jq true => run ops { r with jq := jq, pushed := r.pushed ++ [job] }
    | .ret jq false => run ops { r with jq := jq }
    | .blocks => { r with status := .blocked }
    | .panics => { r with status := .panicked }
  | .pop :: ops, r =>
    match r.jq.Pop with
    | .ret jq (some job) => run ops { r with jq := jq, popped := r.popped ++ [job] }
    | .ret jq none => run ops { r with jq := jq }
    | .blocks => { r with status := .blocked }
    | .panics => { r with status := .panicked }
  | .stop :: ops, r => run ops { r with jq := r.jq.Stop }

/-- The jobs met from `p` along `next`, at most `n` of them. -/
def walk (next : Nat → Option Nat) : Nat → Option Nat → List Nat
  | 0, _ => []
  | _ + 1, none => []
  | n + 1, some a => a :: walk next n (next a)

/-- The jobs in the queue: the first `size` jobs from `head`. -/
def JobQueue.contents (jq : JobQueue) : List Nat := walk jq.next jq.size.toNat jq.head

/-- Whether no `Push` of the sequence is given a job that is in the queue
at that moment. -/
def freshPushes : List Op → JobQueue → Bool
  | [], _ => true
  | .push job :: ops, jq =>
    !jq.contents.contains job &&
      (match jq.Push job with
       | .ret jq1 _ => freshPushes ops jq1
       | _ => true)
  | .pop :: ops, jq =>
    (match jq.Pop with
     | .ret jq1 _ => freshPushes ops jq1
     | _ => true)
  | .stop :: ops, jq => freshPushes ops jq.Stop

/-- The run of the operations on `NewJobQueue(maxSize)`. -/
def runNew (maxSize : Int) (ops : List Op) : Run :=
  run ops { jq := NewJobQueue maxSize, pushed := [], popped := [], status := .done }

/-- The cells of `l` are linked from `p` by `next`, the last one to nil. -/
def Linked (next : Nat → Option Nat) : Option Nat → List Nat → Prop
  | p, [] => p = none
  | p, a :: l => p = some a ∧ Linked next (next a) l

/-- The queue holds the jobs of `l`, first in first. -/
def Holds (jq : JobQueue) (l : List Nat) : Prop :=
  jq.size = l.length ∧ Linked jq.next jq.head l ∧ jq.tail = l.getLast? ∧ l.Nodup

/-- The run of the test: the jobs `0 .. 99` pushed, then `Stop`, then 101
`Pop`s. -/
def testOps : List Op :=
  (List.range 100).map Op.push ++ [Op.stop] ++ List.replicate 101 Op.pop

/-- The loop of `SlicePad` (lines 155-157), with `fuel` bounding the number
of iterations: the condition `i < size - len(slice)` is evaluated anew at
every iteration, on the slice as it has grown.  `none` when the fuel runs
out. -/
def SlicePadLoop {α : Type} (size : Int) (val : α) : Nat → Nat → List α → Option (List α)
  | 0, _, _ => none
  | fuel + 1, i, slice =>
    if (i : Int) < size - (slice.length : Int) then
      SlicePadLoop size val fuel (i + 1) (slice ++ [val])
    else some slice

/-- Go `util.SlicePad`. -/
def SlicePad {α : Type} (slice : List α) (size : Int) (val : α) : Option (List α) :=
  if size ≤ (slice.length : Int) then some slice
  else SlicePadLoop size val (size.toNat + 1) 0 slice

/-- The registrar with the fixed routes `/x`, `/a/` and `/a`, in this order. -/
def slashApp : ControllerRegistor :=
  register [("/x".toList, 0), ("/a/".toList, 1), ("/a".toList, 2)]

/-- The registrar `slashApp` with one `BEFORE_EXEC` filter that matches every
path, writes nothing and is registered without a bool argument. -/
def slashExecFilterApp : ControllerRegistor :=
  InsertFilter matchAll true slashApp "/*".toList BEFORE_EXEC quiet []

/-- The registrar `fireAndContinueApp` with one `BEFORE_EXEC` filter that
matches every path, writes nothing and is registered without a bool
argument. -/
def fireExecFilterApp : ControllerRegistor :=
  InsertFilter matchAll true fireAndContinueApp "/*".toList BEFORE_EXEC quiet []

/-- In the words of the specification: what a registration contributes to
the ordered collection of pattern routes: nothing when the pattern has no
parameter token or its rewritten form is rejected, and else the one route
with the compiled expression. -/
def patternRoute {ρ : Type} (compile : Str → Option ρ) (x : Str × ReflectType) :
    Option (controllerInfoOf ρ) :=
  if (paramNames x.1).length = 0 then none
  else (compile (rewritten x.1)).map
    (fun re => ⟨rewritten x.1, some re, (addLoop (Split '/' x.1) [] 0).2.1, x.2, [], false⟩)

/-! ## The pattern mini-language, in the words of the specification -/

/-- A segment of a pattern, in the words of the specification (sections 4.1
and 6): literal text, `:name`, `:name:int`, `:name:string`, `:name(expr)`,
`*`, `*.*`, or literal text around one embedded `:name(expr)`.  The names and
expressions are held without their delimiters. -/
inductive Segment where
  | literal (text : Str)
  | param (name : Str)
  | paramInt (name : Str)
  | paramString (name : Str)
  | paramExpr (name expr : Str)
  | splat
  | pathExt
  | mixed (pre name expr suf : Str)
  deriving DecidableEq, Repr

/-- The segment as it is written in a pattern. -/
def Segment.text : Segment → Str
  | .literal t => t
  | .param n => ':' :: n
  | .paramInt n => ':' :: n ++ ":int".toList
  | .paramString n => ':' :: n ++ ":string".toList
  | .paramExpr n e => ':' :: n ++ '(' :: e ++ [')']
  | .splat => "*".toList
  | .pathExt => "*.*".toList
  | .mixed pre n e suf => pre ++ ':' :: n ++ '(' :: e ++ ')' :: suf

/-- The parameter names of a segment, in the words of the specification:
the name with its colon, the synthetic `:splat`, or `:path` and `:ext`. -/
def Segment.names : Segment → List Str
  | .literal _ => []
  | .param n => [':' :: n]
  | .paramInt n => [':' :: n]
  | .paramString n => [':' :: n]
  | .paramExpr n _ => [':' :: n]
  | .splat => [":splat".toList]
  | .pathExt => [":path".toList, ":ext".toList]
  | .mixed _ n _ _ => [':' :: n]

/-- The regular-expression fragment that stands for a segment, in the words
of the specification. -/
def Segment.fragment : Segment → Str
  | .literal t => t
  | .param _ => "(.*)".toList
  | .paramInt _ => "([0-9]+)".toList
  | .paramString _ => "([\\w]+)".toList
  | .paramExpr _ e => '(' :: e ++ [')']
  | .splat => "(.*)".toList
  | .pathExt => "([^.]+).([^.]+)".toList
  | .mixed pre _ e suf => pre ++ '(' :: e ++ ')' :: suf

/-- A parameter name: no `/`, no `:` and no `(`. -/
def nameOk (n : Str) : Bool := n.all (fun c => c != '/' && c != ':' && c != '(')

/-- Literal text around an embedded parameter: no `/`, `:`, `(` or `)`. -/
def affixOk (s : Str) : Bool := s.all (fun c => c != '/' && c != ':' && c != '(' && c != ')')

/-- The segment is one of the forms of the mini-language: a literal segment
holds no `/`, does not start with `:` or `*` and is not of the mixed form; a
name holds no `/`, `:` or `(`; an expression holds no `/`; and around an
embedded parameter the prefix is not empty, prefix and suffix hold no `/`,
`:`, `(` or `)`, and the expression holds no `)`. -/
def Segment.wellFormed : Segment → Bool
  | .literal t =>
    t.all (fun c => c != '/') && !HasPrefix t ":".toList && !HasPrefix t "*".toList
      && !(Contains ':' t && Contains '(' t && Contains ')' t)
  | .param n => nameOk n
  | .paramInt n => nameOk n
  | .paramString n => nameOk n
  | .paramExpr n e => nameOk n && e.all (fun c => c != '/')
  | .splat => true
  | .pathExt => true
  | .mixed pre n e suf =>
    pre != [] && !HasPrefix pre "*".toList && affixOk pre && nameOk n
      && e.all (fun c => c != '/' && c != ')') && affixOk suf

/-- The pattern made of the segments. -/
def patternOf (segs : List Segment) : Str := Join "/".toList (segs.map Segment.text)

/-- The parameter names of the segments, left to right. -/
def namesOf (segs : List Segment) : List Str := segs.flatMap Segment.names

/-- The regular expression of the segments: their fragments joined by `/`. -/
def exprOf (segs : List Segment) : Str := Join "/".toList (segs.map Segment.fragment)

/-- Number of capturing groups of a regular-expression text of the modelled
syntax, read on its own: its capturing parentheses. -/
def groupsOf (text : Str) : Option Nat :=
  (lexRun .norm text).map (fun ts => ts.count .lparen)

/-- The text the user wrote in a segment brings no capturing group of its
own: literal text has none, and an expression `(expr)` has its one pair of
capturing parentheses. -/
def Segment.plain : Segment → Bool
  | .literal t => groupsOf t == some 0
  | .paramExpr _ e => groupsOf ('(' :: e ++ [')']) == some 1
  | .mixed pre _ e suf =>
    groupsOf pre == some 0 && groupsOf ('(' :: e ++ [')']) == some 1 && groupsOf suf == some 0
  | _ => true

/-! ## Theorems -/

/-! ### Strings, maps and the method name -/

/-- On the modelled library the test of lines 545-553 is `acceptRoute`. -/
theorem acceptRouteWith_model (re : Regex) (path : Str) :
    acceptRouteWith modelRegexp re path =
      match acceptRoute re path with
      | none => .skip
      | some groups => .accept groups := by
  simp only [acceptRouteWith, acceptRoute, modelRegexp, MatchString, FindStringSubmatch]
  generalize search re path = o
  cases o with
  | none => rfl
  | some r =>
    simp only [Option.isSome_some, Bool.not_true, Bool.false_eq_true, if_false, Option.map_some',
      Option.getD_some]
    split_ifs <;> rfl

theorem patLoop_nil (req : Request) (c : Ctx) : patLoop req [] c = (c, .cont) := rfl

/-- One iteration of the scan of the pattern routes with the modelled
library. -/
theorem patLoop_cons (req : Request) (route : controllerInfo) (rest : List controllerInfo)
    (c : Ctx) :
    patLoop req (route :: rest) c =
      match route.regex with
      | none => (c, .panic nilPanic)
      | some re =>
        let c0 := c.log (.matchString route.pattern)
        match acceptRoute re req.Path with
        | none => patLoop req rest c0
        | some groups =>
          let c1 :=
            if route.params.length > 0 then
              let b := bindLoop route.params groups 0 (c0.RawQuery, c0.params)
              { c0 with RawQuery := b.1, params := b.2 }
            else c0
          let c2 := { c1 with runMethod := getRunMethod req.Method req.Form route }
          if c2.runMethod != [] then
            ({ c2 with runrouter := some route.controllerType, InputParams := c2.params,
                       findrouter := true }, .cont)
          else patLoop req rest c2 := by
  unfold patLoop
  cases hre : route.regex with
  | none => simp only [patLoopWith, hre]
  | some re =>
    simp only [patLoopWith, hre, acceptRouteWith_model]
    cases acceptRoute re req.Path with
    | none => rfl
    | some groups => rfl

theorem inSlice_iff (x : Str) (l : List Str) : InSlice x l = true ↔ x ∈ l := by
  induction l with
  | nil => simp [InSlice]
  | cons a l ih =>
    by_cases h : a = x
    · simp [InSlice, h]
    · have h1 : ¬ x = a := fun e => h e.symm
      simp [InSlice, h, h1, ih]

theorem titleFrom_eq_nil (prev : Char) (s : Str) : titleFrom prev s = [] ↔ s = [] := by
  cases s <;> simp [titleFrom]

theorem title_eq_nil (s : Str) : Title s = [] ↔ s = [] := titleFrom_eq_nil _ s

/-- A route without a method map answers every allowed verb with a
non-empty method name. -/
theorem getRunMethod_ne_nil (m : Str) (form : List (Str × List Str)) (r : controllerInfo)
    (hr : r.hasMethod = false) (hm : InSlice (ToLower m) HTTPMETHOD = true) :
    getRunMethod m form r ≠ [] := by
  have h0 : ToLower m ≠ [] := by
    intro h
    rw [h] at hm
    exact absurd hm (by decide)
  simp only [getRunMethod, getRunMethodOf, hr]
  simp only [Bool.false_eq_true, if_false]
  split_ifs <;> simp [title_eq_nil, h0]

/-! ### The loop of `Add` -/

theorem mapSet_fresh {κ ν : Type} [DecidableEq κ] (m : List (κ × ν)) (k : κ) (v : ν)
    (h : k ∉ m.map Prod.fst) : mapSet m k v = m ++ [(k, v)] := by
  induction m with
  | nil => rfl
  | cons e m ih =>
    obtain ⟨k1, v1⟩ := e
    simp only [List.map_cons, List.mem_cons, not_or] at h
    have h1 : ¬ k1 = k := fun e => h.1 e.symm
    simp [mapSet, h1, ih h.2]

theorem grows_set {params0 : List (Nat × Str)} {j0 : Nat} {params : List (Nat × Str)} {j : Nat}
    {names : List Str} (h : Grows params0 j0 params j names) (v : Str) :
    Grows params0 j0 (mapSet params j v) (j + 1) (names ++ [v]) := by
  obtain ⟨h1, h2, h3⟩ := h
  have hf : j ∉ params.map Prod.fst := by simp [h1]
  rw [mapSet_fresh _ _ _ hf]
  refine ⟨?_, ?_, ?_⟩
  · simp [h1, List.range_succ]
  · simp [h2]; omega
  · simp [h3]

theorem addColon_sim {P : List (Nat × Str)} {J : Nat} {s s0 : PartSt} (h : PartSim P J s s0) :
    PartSim P J (addColon s) (addColon s0) := by
  obtain ⟨hp, hs, N, g, g0⟩ := h
  unfold addColon
  rw [hp]
  by_cases hc : HasPrefix s0.part ":".toList = true
  · simp only [hc, if_true]
    exact ⟨rfl, rfl, _, grows_set g _, grows_set g0 _⟩
  · simp only [hc]
    exact ⟨hp, hs, N, g, g0⟩

theorem addStar_sim {P : List (Nat × Str)} {J : Nat} {s s0 : PartSt} (h : PartSim P J s s0) :
    PartSim P J (addStar s) (addStar s0) := by
  obtain ⟨hp, hs, N, g, g0⟩ := h
  unfold addStar
  rw [hp]
  by_cases hc : HasPrefix s0.part "*".toList = true
  · simp only [hc, if_true]
    by_cases hd : s0.part = "*.*".toList
    · simp only [hd, if_true]
      exact ⟨rfl, rfl, _, grows_set (grows_set g _) _, grows_set (grows_set g0 _) _⟩
    · simp only [hd, if_false]
      exact ⟨rfl, rfl, _, grows_set g _, grows_set g0 _⟩
  · simp only [hc]
    exact ⟨hp, hs, N, g, g0⟩

theorem scanStep_sim {P : List (Nat × Str)} {J : Nat} {s s0 : ScanSt} (h : ScanSim P J s s0)
    (v : Char) : ScanSim P J (scanStep s v) (scanStep s0 v) := by
  obtain ⟨h1, h2, h3, h4, h5, N, g, g0⟩ := h
  unfold scanStep
  rw [h1, h2, h3, h4, h5]
  split_ifs
  · exact ⟨rfl, rfl, rfl, rfl, rfl, N, g, g0⟩
  · exact ⟨rfl, rfl, rfl, rfl, rfl, N, g, g0⟩
  · exact ⟨rfl, rfl, rfl, rfl, rfl, N, g, g0⟩
  · exact ⟨rfl, rfl, rfl, rfl, rfl, _, grows_set g _, grows_set g0 _⟩
  · exact ⟨rfl, rfl, rfl, rfl, rfl, N, g, g0⟩
  · exact ⟨rfl, rfl, rfl, rfl, rfl, N, g, g0⟩

theorem scanFold_sim {P : List (Nat × Str)} {J : Nat} (l : Str) :
    ∀ {s s0 : ScanSt}, ScanSim P J s s0 → ScanSim P J (l.foldl scanStep s) (l.foldl scanStep s0) := by
  induction l with
  | nil => intro s s0 h; exact h
  | cons v l ih => intro s s0 h; exact ih (scanStep_sim h v)

theorem addMixed_sim {P : List (Nat × Str)} {J : Nat} {s s0 : PartSt} (h : PartSim P J s s0) :
    PartSim P J (addMixed s) (addMixed s0) := by
  obtain ⟨hp, hs, N, g, g0⟩ := h
  unfold addMixed
  rw [hp]
  split_ifs
  · have hsim : ScanSim P J ⟨[], false, false, [], [], s.params, s.j⟩
        ⟨[], false, false, [], [], s0.params, s0.j⟩ := ⟨rfl, rfl, rfl, rfl, rfl, N, g, g0⟩
    obtain ⟨k1, _, _, _, _, N1, k2, k3⟩ := scanFold_sim s0.part hsim
    exact ⟨rfl, k1, N1, k2, k3⟩
  · exact ⟨hp, hs, N, g, g0⟩

theorem addPart_sim (part : Str) (P : List (Nat × Str)) (J : Nat)
    (h : P.map Prod.fst = List.range J) :
    PartSim P J (addPart part P J) (addPart part [] 0) := by
  unfold addPart
  apply addMixed_sim
  apply addStar_sim
  apply addColon_sim
  exact ⟨rfl, rfl, [], ⟨h, by simp, by simp⟩, ⟨rfl, by simp, by simp⟩⟩

theorem addLoop_spec (parts : List Str) :
    ∀ (P : List (Nat × Str)) (J : Nat), P.map Prod.fst = List.range J →
      (addLoop parts P J).1 = parts.map segSlot ∧
      (addLoop parts P J).2.1.map Prod.fst = List.range (addLoop parts P J).2.2 ∧
      (addLoop parts P J).2.2 = J + (parts.flatMap segNames).length ∧
      (addLoop parts P J).2.1.map Prod.snd = P.map Prod.snd ++ parts.flatMap segNames := by
  induction parts with
  | nil => intro P J h; simp [addLoop, h]
  | cons part rest ih =>
    intro P J h
    obtain ⟨_, hs, N, ⟨g1, g2, g3⟩, ⟨_, _, k3⟩⟩ := addPart_sim part P J h
    have hN : N = segNames part := by simpa [segNames] using k3.symm
    subst hN
    obtain ⟨i1, i2, i3, i4⟩ := ih _ _ g1
    simp only [addLoop, List.map_cons, List.flatMap_cons, List.length_append]
    refine ⟨?_, i2, ?_, ?_⟩
    · rw [i1]; simp [segSlot, hs]
    · rw [i3, g2]; omega
    · rw [i4, g3]; simp

theorem mapGet?_range (names : List Str) :
    ∀ (m : List (Nat × Str)) (a : Nat), m.map Prod.fst = List.range' a names.length →
      m.map Prod.snd = names → ∀ i, mapGet? m (a + i) = names[i]? := by
  induction names with
  | nil =>
    intro m a h1 _ i
    have : m = [] := by simpa using h1
    subst this
    simp [mapGet?]
  | cons n ns ih =>
    intro m a h1 h2 i
    cases m with
    | nil => simp at h2
    | cons e m =>
      obtain ⟨k, v⟩ := e
      simp only [List.map_cons, List.length_cons, List.range'_succ, List.cons.injEq] at h1 h2
      obtain ⟨hk, h1⟩ := h1
      obtain ⟨hv, h2⟩ := h2
      subst hk hv
      cases i with
      | zero => simp [mapGet?]
      | succ i =>
        have hne : ¬ k = k + (i + 1) := by omega
        simp only [mapGet?, hne, if_false, List.getElem?_cons_succ]
        have := ih m (k + 1) h1 h2 i
        rw [← this]
        congr 1
        omega

/-! ### The lexer and the parser -/

theorem lexRun_append (a : Str) :
    ∀ (m : LexMode) (ta : List Tok), lexRun m a = some ta →
      ∀ b : Str, lexRun m (a ++ b) = (lexRun .norm b).map (ta ++ ·) := by
  induction a with
  | nil =>
    intro m ta h b
    simp only [lexRun] at h
    split_ifs at h with hm
    cases h
    subst hm
    simp
  | cons c cs ih =>
    intro m ta h b
    rw [List.cons_append]
    simp only [lexRun] at h ⊢
    cases hs : lexStep m c with
    | none => simp [hs] at h
    | some r =>
      obtain ⟨m1, ts⟩ := r
      simp only [hs] at h ⊢
      cases hr : lexRun m1 cs with
      | none => simp [hr] at h
      | some rest =>
        simp only [hr, Option.some.injEq] at h
        subst h
        rw [ih m1 rest hr b]
        cases lexRun .norm b <;> simp

theorem lexRun_slash (b : Str) :
    lexRun .norm ('/' :: b) = (lexRun .norm b).map (Tok.chr '/' :: ·) := by
  have h : lexStep .norm '/' = some (.norm, [.chr '/']) := by decide
  simp only [lexRun, h]
  cases lexRun .norm b <;> simp

theorem lexRun_join (slot : Str → Str) (cnt : Str → Nat) (parts : List Str) :
    (∀ x ∈ parts, (lexRun .norm (slot x)).map (fun ts => ts.count .lparen) = some (cnt x)) →
      ∃ ts, lexRun .norm (Join "/".toList (parts.map slot)) = some ts ∧
        ts.count .lparen = (parts.map cnt).sum := by
  induction parts with
  | nil => intro _; exact ⟨[], rfl, rfl⟩
  | cons p ps ih =>
    intro h
    have hp := h p (List.mem_cons_self _ _)
    cases hlp : lexRun .norm (slot p) with
    | none => simp [hlp] at hp
    | some tp =>
      simp only [hlp, Option.map_some', Option.some.injEq] at hp
      cases ps with
      | nil => exact ⟨tp, by simpa [Join] using hlp, by simpa using hp⟩
      | cons q qs =>
        obtain ⟨tr, hr, hcr⟩ := ih (fun s hs => h s (List.mem_cons_of_mem _ hs))
        refine ⟨tp ++ (Tok.chr '/' :: tr), ?_, ?_⟩
        · have : Join "/".toList ((p :: q :: qs).map slot)
              = slot p ++ ('/' :: Join "/".toList ((q :: qs).map slot)) := by
            simp [Join]
          rw [this, lexRun_append (slot p) _ tp hlp, lexRun_slash, hr]
          simp
        · simp [List.count_append, List.count_cons, hp, hcr]

theorem numSubexp_catList (l : List Regex) :
    (catList l).NumSubexp = (l.map Regex.NumSubexp).sum := by
  induction l with
  | nil => rfl
  | cons x xs ih =>
    cases xs with
    | nil => simp [catList]
    | cons y ys => simp only [catList, Regex.NumSubexp, ih, List.map_cons, List.sum_cons]

theorem numSubexp_altList (l : List Regex) :
    (altList l).NumSubexp = (l.map Regex.NumSubexp).sum := by
  induction l with
  | nil => rfl
  | cons x xs ih =>
    cases xs with
    | nil => simp [altList]
    | cons y ys => simp only [altList, Regex.NumSubexp, ih, List.map_cons, List.sum_cons]

theorem numSubexp_close (f : Frame) : f.close.NumSubexp = f.groups := by
  obtain ⟨cap, alts, cur⟩ := f
  cases cap <;>
    simp [Frame.close, Frame.groups, Regex.NumSubexp, numSubexp_altList, numSubexp_catList,
      List.sum_reverse, List.map_reverse]

theorem pRepeat_groups (st st1 : PState) (op : Regex → Regex) (b : Bool)
    (hop : ∀ x, (op x).NumSubexp = x.NumSubexp) (h : pRepeat st op b = some st1) :
    st1.groups = st.groups ∧ st1.ncap = st.ncap := by
  unfold pRepeat at h
  split_ifs at h
  split at h
  · cases h
  · rename_i x xs hx
    split_ifs at h
    cases h
    simp [PState.groups, Frame.groups, hx, hop]

theorem pStep_groups (st st1 : PState) (t : Tok) (h : pStep st t = some st1) :
    st1.groups = st.groups + (if t = .lparen then 1 else 0) ∧
    st1.ncap = st.ncap + (if t = .lparen then 1 else 0) := by
  cases t with
  | chr c => simp only [pStep, pAtom, Option.some.injEq] at h; subst h; simp [PState.groups, Frame.groups, Regex.NumSubexp]
  | dot => simp only [pStep, pAtom, Option.some.injEq] at h; subst h; simp [PState.groups, Frame.groups, Regex.NumSubexp]
  | set neg rs => simp only [pStep, pAtom, Option.some.injEq] at h; subst h; simp [PState.groups, Frame.groups, Regex.NumSubexp]
  | star => simpa using pRepeat_groups st st1 Regex.star true (fun _ => rfl) h
  | plus => simpa using pRepeat_groups st st1 Regex.plus true (fun _ => rfl) h
  | quest => simpa using pRepeat_groups st st1 Regex.quest false (fun _ => rfl) h
  | lparen =>
    simp only [pStep, Option.some.injEq] at h; subst h
    simp [PState.groups, Frame.groups]; omega
  | lparenNC =>
    simp only [pStep, Option.some.injEq] at h; subst h
    simp [PState.groups, Frame.groups]
  | bar =>
    simp only [pStep, Option.some.injEq] at h; subst h
    simp [PState.groups, Frame.groups, numSubexp_catList, List.sum_reverse, List.map_reverse]; omega
  | rparen =>
    simp only [pStep] at h
    split at h
    · cases h
    · rename_i f fs hb
      simp only [Option.some.injEq] at h; subst h
      have := numSubexp_close st.top
      simp [PState.groups, hb, Frame.groups, this] at *
      omega

theorem pRun_groups (ts : List Tok) :
    ∀ (st : PState) (re : Regex), pRun st ts = some re →
      re.NumSubexp = st.groups + ts.count .lparen := by
  induction ts with
  | nil =>
    intro st re h
    simp only [pRun] at h
    split_ifs at h with hb
    cases h
    simp [numSubexp_close, PState.groups, hb]
  | cons t ts ih =>
    intro st re h
    simp only [pRun] at h
    cases hs : pStep st t with
    | none => simp [hs] at h
    | some st1 =>
      simp only [hs] at h
      rw [ih st1 re h, (pStep_groups st st1 t hs).1, List.count_cons]
      by_cases ht : t = .lparen
      · subst ht; simp; omega
      · have : (t == .lparen) = false := by simpa using ht
        simp [ht, this]

/-- A compiled expression has as many capturing groups as its pattern has
capturing parentheses. -/
theorem compile_numSubexp (expr : Str) (re : Regex) (ts : List Tok)
    (hl : lexRun .norm expr = some ts) (h : Compile expr = some re) :
    re.NumSubexp = ts.count .lparen := by
  simp only [Compile, hl] at h
  simpa [PState.groups, Frame.groups] using pRun_groups ts _ re h

/-! ### The matcher -/

theorem starLoop_length (step : Str → List (Nat × Str) → List (Str × List (Nat × Str))) :
    ∀ (n : Nat) (s : Str) (caps : List (Nat × Str)) (r : Str × List (Nat × Str)),
      r ∈ starLoop step n s caps → r.1.length ≤ s.length := by
  intro n
  induction n with
  | zero =>
    intro s caps r h
    simp only [starLoop, List.mem_singleton] at h
    subst h; exact le_refl _
  | succ n ih =>
    intro s caps r h
    simp only [starLoop, List.mem_append, List.mem_flatMap, List.mem_filter,
      List.mem_singleton, decide_eq_true_eq] at h
    rcases h with ⟨x, ⟨_, hx2⟩, hr⟩ | h
    · have := ih x.1 x.2 r hr
      omega
    · subst h; exact le_refl _

/-- What remains after a match is never longer than the input. -/
theorem matchR_length (re : Regex) :
    ∀ (s : Str) (caps : List (Nat × Str)) (r : Str × List (Nat × Str)),
      r ∈ matchR re s caps → r.1.length ≤ s.length := by
  induction re with
  | empty => intro s caps r h; simp only [matchR, List.mem_singleton] at h; subst h; exact le_refl _
  | chr c =>
    intro s caps r h
    cases s with
    | nil => simp [matchR] at h
    | cons d ds =>
      simp only [matchR] at h
      split_ifs at h
      · simp only [List.mem_singleton] at h; subst h; simp
      · simp at h
  | dot =>
    intro s caps r h
    cases s with
    | nil => simp [matchR] at h
    | cons d ds =>
      simp only [matchR] at h
      split_ifs at h
      · simp at h
      · simp only [List.mem_singleton] at h; subst h; simp
  | set neg rs =>
    intro s caps r h
    cases s with
    | nil => simp [matchR] at h
    | cons d ds =>
      simp only [matchR] at h
      split_ifs at h
      · simp only [List.mem_singleton] at h; subst h; simp
      · simp at h
  | cat a b iha ihb =>
    intro s caps r h
    simp only [matchR, List.mem_flatMap] at h
    obtain ⟨x, hx, hr⟩ := h
    have h1 := iha s caps x hx
    have h2 := ihb x.1 x.2 r hr
    omega
  | alt a b iha ihb =>
    intro s caps r h
    simp only [matchR, List.mem_append] at h
    rcases h with h | h
    · exact iha s caps r h
    · exact ihb s caps r h
  | star a iha =>
    intro s caps r h
    simp only [matchR] at h
    exact starLoop_length _ _ s caps r h
  | plus a iha =>
    intro s caps r h
    simp only [matchR, List.mem_flatMap] at h
    obtain ⟨x, hx, hr⟩ := h
    have h1 := iha s caps x hx
    have h2 := starLoop_length _ _ x.1 x.2 r hr
    omega
  | quest a iha =>
    intro s caps r h
    simp only [matchR, List.mem_append, List.mem_singleton] at h
    rcases h with h | h
    · exact iha s caps r h
    · subst h; exact le_refl _
  | group i a iha =>
    intro s caps r h
    simp only [matchR, List.mem_map] at h
    obtain ⟨x, hx, hr⟩ := h
    subst hr
    exact iha s caps x hx

theorem consumed_length (s rest : Str) : (consumed s rest).length = s.length - rest.length := by
  simp [consumed]

/-- The leftmost match is never longer than the text. -/
theorem search_length (re : Regex) :
    ∀ (s : Str) (m : Str) (caps : List (Nat × Str)), search re s = some (m, caps) →
      m.length ≤ s.length := by
  intro s
  induction s with
  | nil =>
    intro m caps h
    simp only [search, Option.map_eq_some'] at h
    obtain ⟨r, _, hr⟩ := h
    cases hr
    simp [consumed]
  | cons c cs ih =>
    intro m caps h
    simp only [search] at h
    split at h
    · cases h
      rw [consumed_length]; omega
    · have := ih m caps h
      simp only [List.length_cons]; omega

theorem findStringSubmatch_length (re : Regex) (path : Str) (ms : List Str)
    (h : FindStringSubmatch re path = some ms) : ms.length = re.NumSubexp + 1 := by
  unfold FindStringSubmatch at h
  cases hs : search re path with
  | none => simp [hs] at h
  | some r =>
    simp only [hs, Option.map_some', Option.some.injEq] at h
    subst h
    simp

/-- The test of lines 545-553 accepts a route exactly when the preferred
match at the first position of the path consumes the whole path. -/
theorem acceptRoute_iff (re : Regex) (p : Str) (gs : List Str) :
    acceptRoute re p = some gs ↔
      ∃ caps, (matchR re p []).head? = some ([], caps) ∧
        gs = (List.range re.NumSubexp).map (fun i => capText caps (i + 1)) := by
  unfold acceptRoute MatchString FindStringSubmatch
  cases p with
  | nil =>
    cases hh : (matchR re [] []).head? with
    | none => simp [search, hh]
    | some r =>
      obtain ⟨r1, caps⟩ := r
      have hr : r1 = [] := by
        have := matchR_length re [] [] (r1, caps) (List.mem_of_mem_head? hh)
        simpa using this
      subst hr
      simp [search, hh, consumed, eq_comm]
  | cons c cs =>
    cases hh : (matchR re (c :: cs) []).head? with
    | none =>
      cases hs : search re cs with
      | none => simp [search, hh, hs]
      | some r =>
        have := search_length re cs r.1 r.2 hs
        have hne : ¬ r.1.length = cs.length + 1 := by omega
        simp [search, hh, hs, hne]
    | some r =>
      obtain ⟨r1, caps⟩ := r
      have hle := matchR_length re (c :: cs) [] (r1, caps) (List.mem_of_mem_head? hh)
      simp only [List.length_cons] at hle
      by_cases hr : r1 = []
      · subst hr
        simp [search, hh, consumed, eq_comm]
      · have hpos : 0 < r1.length := List.length_pos.mpr hr
        have hne : ¬ cs.length + 1 - r1.length = cs.length + 1 := by omega
        simp [search, hh, consumed, hr, hne]

theorem inRanges_perlD (c : Char) : inRanges perlD c = c.isDigit := by
  simp only [inRanges, perlD, List.any_cons, List.any_nil, Bool.or_false, Char.isDigit]
  rfl

theorem matchR_chr_cat (c : Char) (r : Regex) (s : Str) (caps : List (Nat × Str)) :
    matchR (.cat (.chr c) r) s caps =
      match s with
      | [] => []
      | d :: ds => if d = c then matchR r ds caps else [] := by
  cases s with
  | nil => simp [matchR]
  | cons d ds =>
    simp only [matchR]
    split_ifs <;> simp

theorem head_chr_cat (c : Char) (r : Regex) (s : Str) (caps : List (Nat × Str))
    (x : Str × List (Nat × Str)) :
    (matchR (.cat (.chr c) r) s caps).head? = some x ↔
      ∃ t, s = c :: t ∧ (matchR r t caps).head? = some x := by
  rw [matchR_chr_cat]
  cases s with
  | nil => simp
  | cons d ds =>
    by_cases h : d = c
    · subst h; simp
    · simp [h]

theorem starLoop_digits_head (step : Str → List (Nat × Str) → List (Str × List (Nat × Str)))
    (hstep : ∀ d ds caps, step (d :: ds) caps = if d.isDigit then [(ds, caps)] else []) :
    ∀ (s : Str) (n : Nat) (caps : List (Nat × Str)), s.length ≤ n →
      (starLoop step n s caps).head? = some (s.dropWhile Char.isDigit, caps) := by
  intro s
  induction s with
  | nil =>
    intro n caps _
    cases n with
    | zero => simp [starLoop]
    | succ n => simp [starLoop]
  | cons d ds ih =>
    intro n caps hn
    cases n with
    | zero => simp at hn
    | succ n =>
      simp only [List.length_cons, Nat.add_le_add_iff_right] at hn
      have := ih n caps hn
      by_cases hd : d.isDigit = true
      · simp only [starLoop, hstep, hd, if_true, List.filter_cons, List.length_cons,
          Nat.lt_succ_self, decide_True, List.filter_nil, List.flatMap_cons, List.flatMap_nil,
          List.append_nil, List.dropWhile_cons]
        rw [List.head?_append_of_ne_nil]
        · exact this
        · intro h; simp [h] at this
      · simp [starLoop, hstep, hd, List.dropWhile_cons]

theorem matchR_plus_digits_head (s : Str) (caps : List (Nat × Str)) :
    (matchR (.plus (.set false perlD)) s caps).head? =
      match s with
      | [] => none
      | d :: ds => if d.isDigit then some (ds.dropWhile Char.isDigit, caps) else none := by
  cases s with
  | nil => simp [matchR]
  | cons d ds =>
    by_cases hd : d.isDigit = true
    · simp only [matchR, inRanges_perlD, hd, bne_self_eq_false, Bool.true_bne, Bool.not_false,
        if_true, List.flatMap_cons, List.flatMap_nil, List.append_nil]
      refine starLoop_digits_head _ ?_ ds _ caps (le_refl _)
      intro e es c
      simp only [matchR, inRanges_perlD]
      cases e.isDigit <;> simp
    · simp [matchR, inRanges_perlD, hd]

/-- What the expression of `/user/:id:int` matches at the first position:
`/user/`, then the longest run of digits, which must not be empty. -/
theorem matchR_user_int_head (p : Str) (r : Str × List (Nat × Str)) :
    (matchR (.cat (.chr '/') (.cat (.chr 'u') (.cat (.chr 's')
      (.cat (.chr 'e') (.cat (.chr 'r') (.cat (.chr '/')
        (.group 1 (.plus (.set false [('0', '9')])))))))) ) p []).head? = some r ↔
      ∃ d ds, p = "/user/".toList ++ d :: ds ∧ d.isDigit = true ∧
        r = (ds.dropWhile Char.isDigit,
             [(1, consumed (d :: ds) (ds.dropWhile Char.isDigit))]) := by
  simp only [head_chr_cat]
  have hg : ∀ t : Str, (matchR (.group 1 (.plus (.set false [('0', '9')]))) t []).head? =
      ((matchR (.plus (.set false perlD)) t []).head?).map
        (fun r => (r.1, (1, consumed t r.1) :: r.2)) := by
    intro t
    simp only [matchR, List.head?_map, perlD]
  simp only [hg, matchR_plus_digits_head]
  constructor
  · rintro ⟨t1, rfl, t2, rfl, t3, rfl, t4, rfl, t5, rfl, t6, rfl, h⟩
    cases t6 with
    | nil => simp at h
    | cons d ds =>
      by_cases hd : d.isDigit = true
      · simp only [hd, if_true, Option.map_some', Option.some.injEq] at h
        exact ⟨d, ds, rfl, hd, h.symm⟩
      · simp [hd] at h
  · rintro ⟨d, ds, rfl, hd, rfl⟩
    exact ⟨_, rfl, _, rfl, _, rfl, _, rfl, _, rfl, _, rfl, by simp [hd]⟩

/-- The route `/user/:id:int` accepts exactly the paths `/user/` followed by
one or more digits, and its only submatch is the digit string. -/
theorem acceptRoute_user_int (p : Str) (gs : List Str) :
    acceptRoute (.cat (.chr '/') (.cat (.chr 'u') (.cat (.chr 's')
      (.cat (.chr 'e') (.cat (.chr 'r') (.cat (.chr '/')
        (.group 1 (.plus (.set false [('0', '9')])))))))) ) p = some gs ↔
      ∃ ds, ds ≠ [] ∧ (∀ c ∈ ds, c.isDigit = true) ∧ p = "/user/".toList ++ ds ∧ gs = [ds] := by
  rw [acceptRoute_iff]
  simp only [matchR_user_int_head]
  constructor
  · rintro ⟨caps, ⟨d, ds, rfl, hd, hr⟩, rfl⟩
    simp only [Prod.mk.injEq] at hr
    obtain ⟨h1, h2⟩ := hr
    have hall : ∀ c ∈ ds, c.isDigit = true := by
      have := h1.symm
      rw [List.dropWhile_eq_nil_iff] at this
      exact this
    refine ⟨d :: ds, by simp, ?_, rfl, ?_⟩
    · intro c hc
      rcases List.mem_cons.mp hc with h | h
      · subst h; exact hd
      · exact hall c h
    · subst h2
      rw [← h1]
      simp [Regex.NumSubexp, capText, consumed, List.range_succ]
  · rintro ⟨ds, hne, hall, rfl, rfl⟩
    cases ds with
    | nil => exact absurd rfl hne
    | cons d ds =>
      have hd : d.isDigit = true := hall d (List.mem_cons_self _ _)
      have hds : ds.dropWhile Char.isDigit = [] := by
        rw [List.dropWhile_eq_nil_iff]
        intro c hc
        exact hall c (List.mem_cons_of_mem _ hc)
      refine ⟨[(1, d :: ds)], ⟨d, ds, rfl, hd, ?_⟩, ?_⟩
      · simp [hds, consumed]
      · simp [Regex.NumSubexp, capText, List.range_succ]

/-! ### C2 -/

theorem acceptRoute_user_42 (re : Regex) (h : Compile "/user/(.*)".toList = some re) :
    acceptRoute re "/user/42".toList = some ["42".toList] ∧
    acceptRoute re "/user/42/x".toList = some ["42/x".toList] := by
  have h1 : re = .cat (.chr '/') (.cat (.chr 'u') (.cat (.chr 's') (.cat (.chr 'e')
      (.cat (.chr 'r') (.cat (.chr '/') (.group 1 (.star .dot))))))) :=
    Option.some.inj (h.symm.trans (by decide))
  subst h1
  constructor <;> decide

theorem single_user_id (t : ReflectType) :
    ∃ re, Compile "/user/(.*)".toList = some re ∧
      single "/user/:id".toList t =
        { routers := [⟨"/user/(.*)".toList, some re, [(0, ":id".toList)], t, [], false⟩],
          fixrouters := [], enableFilter := false, filters := [] } :=
  ⟨_, rfl, rfl⟩

/-- C2 (amended): with the single route `Add("/user/:id", c)` registered,
resolution of the path `/user/42` finds the route and binds `:id` to `42`;
resolution of `/user/42/x` finds the route as well and binds `:id` to
`42/x`, because the default fragment `(.*)` matches across `/`. -/
theorem C2_user_id (t : ReflectType) (m : Str) (q form : List (Str × List Str)) (ws : Bool)
    (hm : InSlice (ToLower m) HTTPMETHOD = true) :
    ((resolve (single "/user/:id".toList t) ⟨m, "/user/42".toList, q, form, ws⟩
        (initCtx ⟨m, "/user/42".toList, q, form, ws⟩)).2 = .cont ∧
      (resolve (single "/user/:id".toList t) ⟨m, "/user/42".toList, q, form, ws⟩
        (initCtx ⟨m, "/user/42".toList, q, form, ws⟩)).1.findrouter = true ∧
      (resolve (single "/user/:id".toList t) ⟨m, "/user/42".toList, q, form, ws⟩
        (initCtx ⟨m, "/user/42".toList, q, form, ws⟩)).1.runrouter = some t ∧
      (resolve (single "/user/:id".toList t) ⟨m, "/user/42".toList, q, form, ws⟩
        (initCtx ⟨m, "/user/42".toList, q, form, ws⟩)).1.InputParams
        = [(":id".toList, "42".toList)]) ∧
    ((resolve (single "/user/:id".toList t) ⟨m, "/user/42/x".toList, q, form, ws⟩
        (initCtx ⟨m, "/user/42/x".toList, q, form, ws⟩)).2 = .cont ∧
      (resolve (single "/user/:id".toList t) ⟨m, "/user/42/x".toList, q, form, ws⟩
        (initCtx ⟨m, "/user/42/x".toList, q, form, ws⟩)).1.findrouter = true ∧
      (resolve (single "/user/:id".toList t) ⟨m, "/user/42/x".toList, q, form, ws⟩
        (initCtx ⟨m, "/user/42/x".toList, q, form, ws⟩)).1.runrouter = some t ∧
      (resolve (single "/user/:id".toList t) ⟨m, "/user/42/x".toList, q, form, ws⟩
        (initCtx ⟨m, "/user/42/x".toList, q, form, ws⟩)).1.InputParams
        = [(":id".toList, "42/x".toList)]) := by
  obtain ⟨re, hre, hs⟩ := single_user_id t
  obtain ⟨a1, a2⟩ := acceptRoute_user_42 re hre
  have hrun := getRunMethod_ne_nil m form
    ⟨"/user/(.*)".toList, some re, [(0, ":id".toList)], t, [], false⟩ rfl hm
  simp only [String.toList] at hrun
  rw [hs]
  constructor
  · simp only [resolve, andThen, fixLoop, patLoop_nil, patLoop_cons, initCtx, a1]
    simp [hrun, bindLoop, mapGet, mapGet?, mapSet, Ctx.log]
  · simp only [resolve, andThen, fixLoop, patLoop_nil, patLoop_cons, initCtx, a2]
    simp [hrun, bindLoop, mapGet, mapGet?, mapSet, Ctx.log]

/-- Witness of `C2_user_id`: a GET request. -/
theorem C2_user_id_witness :
    InSlice (ToLower "GET".toList) HTTPMETHOD = true ∧
    (resolve (single "/user/:id".toList 7) (plainRequest "GET".toList "/user/42/x".toList)
        (initCtx (plainRequest "GET".toList "/user/42/x".toList))).1.InputParams
      = [(":id".toList, "42/x".toList)] :=
  ⟨by decide, (C2_user_id 7 "GET".toList [] [] false (by decide)).2.2.2.2⟩

/-- C2 (counterexample): with the single route `Add("/user/:id", c)`
registered, a GET request for `/user/42/x` does find a route. -/
theorem C2_longer_path_is_found :
    (resolve (single "/user/:id".toList 7) (plainRequest "GET".toList "/user/42/x".toList)
        (initCtx (plainRequest "GET".toList "/user/42/x".toList))).1.findrouter = true ∧
    (resolve (single "/user/:id".toList 7) (plainRequest "GET".toList "/user/42/x".toList)
        (initCtx (plainRequest "GET".toList "/user/42/x".toList))).1.InputParams
      = [(":id".toList, "42/x".toList)] := by
  decide

/-! ### C3 -/

theorem single_user_int (t : ReflectType) :
    single "/user/:id:int".toList t =
      { routers := [⟨"/user/([0-9]+)".toList, some (.cat (.chr '/') (.cat (.chr 'u')
          (.cat (.chr 's') (.cat (.chr 'e') (.cat (.chr 'r') (.cat (.chr '/')
            (.group 1 (.plus (.set false [('0', '9')])))))))) ),
          [(0, ":id".toList)], t, [], false⟩],
        fixrouters := [], enableFilter := false, filters := [] } := rfl

/-- C3: with the single route `Add("/user/:id:int", c)` registered, a
request (of an allowed method) resolves to the route if and only if its
path is `/user/` followed by one or more ASCII digits, and then the
parameter `:id` (the token without its `:int` suffix) is bound to the digit
string. -/
theorem C3_int_route (t : ReflectType) (m path : Str) (q form : List (Str × List Str))
    (ws : Bool) (hm : InSlice (ToLower m) HTTPMETHOD = true) :
    (resolve (single "/user/:id:int".toList t) ⟨m, path, q, form, ws⟩
        (initCtx ⟨m, path, q, form, ws⟩)).2 = .cont ∧
    ((resolve (single "/user/:id:int".toList t) ⟨m, path, q, form, ws⟩
        (initCtx ⟨m, path, q, form, ws⟩)).1.findrouter = true ↔
      ∃ ds, ds ≠ [] ∧ (∀ c ∈ ds, c.isDigit = true) ∧ path = "/user/".toList ++ ds) ∧
    (∀ ds, path = "/user/".toList ++ ds →
      (resolve (single "/user/:id:int".toList t) ⟨m, path, q, form, ws⟩
        (initCtx ⟨m, path, q, form, ws⟩)).1.findrouter = true →
      (resolve (single "/user/:id:int".toList t) ⟨m, path, q, form, ws⟩
        (initCtx ⟨m, path, q, form, ws⟩)).1.runrouter = some t ∧
      (resolve (single "/user/:id:int".toList t) ⟨m, path, q, form, ws⟩
        (initCtx ⟨m, path, q, form, ws⟩)).1.InputParams = [(":id".toList, ds)]) := by
  have hrun := getRunMethod_ne_nil m form
    ⟨"/user/([0-9]+)".toList, some (.cat (.chr '/') (.cat (.chr 'u')
          (.cat (.chr 's') (.cat (.chr 'e') (.cat (.chr 'r') (.cat (.chr '/')
            (.group 1 (.plus (.set false [('0', '9')])))))))) ),
          [(0, ":id".toList)], t, [], false⟩ rfl hm
  simp only [String.toList] at hrun
  rw [single_user_int]
  cases ha : acceptRoute (.cat (.chr '/') (.cat (.chr 'u')
          (.cat (.chr 's') (.cat (.chr 'e') (.cat (.chr 'r') (.cat (.chr '/')
            (.group 1 (.plus (.set false [('0', '9')])))))))) ) path with
  | none =>
    have hno : ¬ ∃ ds, ds ≠ [] ∧ (∀ c ∈ ds, c.isDigit = true) ∧ path = "/user/".toList ++ ds := by
      rintro ⟨ds, h1, h2, h3⟩
      have := (acceptRoute_user_int path [ds]).mpr ⟨ds, h1, h2, h3, rfl⟩
      rw [ha] at this
      cases this
    simp only [resolve, andThen, fixLoop, patLoop_nil, patLoop_cons, initCtx, ha]
    simp [Ctx.log]
    intro x hx1 hx2 hx3
    exact hno ⟨x, hx1, hx2, by simpa using hx3⟩
  | some gs =>
    obtain ⟨ds, h1, h2, h3, h4⟩ := (acceptRoute_user_int path gs).mp ha
    subst h4
    have hyes : ∃ ds, ds ≠ [] ∧ (∀ c ∈ ds, c.isDigit = true) ∧ path = "/user/".toList ++ ds :=
      ⟨ds, h1, h2, h3⟩
    simp only [resolve, andThen, fixLoop, patLoop_nil, patLoop_cons, initCtx, ha]
    simp only [String.toList] at h3 hyes
    simp [Ctx.log, hrun, bindLoop, mapGet, mapGet?, mapSet]
    refine ⟨⟨ds, h1, h2, by simpa using h3⟩, ?_⟩
    intro ds' hp
    rw [h3] at hp
    simpa using hp

/-- Witness of `C3_int_route`: a GET request for `/user/42`. -/
theorem C3_int_route_witness :
    InSlice (ToLower "GET".toList) HTTPMETHOD = true ∧
    ((resolve (single "/user/:id:int".toList 7) ⟨"GET".toList, "/user/42".toList, [], [], false⟩
        (initCtx ⟨"GET".toList, "/user/42".toList, [], [], false⟩)).1.findrouter = true ↔
      ∃ ds, ds ≠ [] ∧ (∀ c ∈ ds, c.isDigit = true) ∧
        "/user/42".toList = "/user/".toList ++ ds) :=
  ⟨by decide, (C3_int_route 7 "GET".toList "/user/42".toList [] [] false (by decide)).2.1⟩

/-- The paths named by the claim: `/user/42` resolves, `/user/abc`,
`/user/42abc` and `/x/user/42` do not. -/
theorem int_route_examples :
    (resolve (single "/user/:id:int".toList 7) (plainRequest "GET".toList "/user/42".toList)
        (initCtx (plainRequest "GET".toList "/user/42".toList))).1.InputParams
      = [(":id".toList, "42".toList)] ∧
    (resolve (single "/user/:id:int".toList 7) (plainRequest "GET".toList "/user/abc".toList)
        (initCtx (plainRequest "GET".toList "/user/abc".toList))).1.findrouter = false ∧
    (resolve (single "/user/:id:int".toList 7) (plainRequest "GET".toList "/user/42abc".toList)
        (initCtx (plainRequest "GET".toList "/user/42abc".toList))).1.findrouter = false ∧
    (resolve (single "/user/:id:int".toList 7) (plainRequest "GET".toList "/x/user/42".toList)
        (initCtx (plainRequest "GET".toList "/x/user/42".toList))).1.findrouter = false := by
  decide

/-! ### C4 -/

/-- C4 (the code at the failing input): for the route `Add("/:id(a|ab)", c)`
and the path `/ab`, the expression anchored at both ends matches the whole
path, but the leftmost-first match is `/a`, one character short, so the scan
of lines 545-553 skips the route and resolution finds nothing. -/
theorem C4_alternation_rejected :
    ∃ route re, (single "/:id(a|ab)".toList 7).routers = [route] ∧
      route.regex = some re ∧
      fullMatch re "/ab".toList = true ∧
      FindStringSubmatch re "/ab".toList = some ["/a".toList, "a".toList] ∧
      acceptRoute re "/ab".toList = none ∧
      (resolve (single "/:id(a|ab)".toList 7) (plainRequest "GET".toList "/ab".toList)
        (initCtx (plainRequest "GET".toList "/ab".toList))).1.findrouter = false :=
  ⟨_, _, rfl, rfl, by decide, by decide, by decide, by decide⟩

/-! ### Registration -/

theorem addLoop_count (pattern : Str) :
    (addLoop (Split '/' pattern) [] 0).2.2 = (paramNames pattern).length := by
  simpa [paramNames] using (addLoop_spec (Split '/' pattern) [] 0 rfl).2.2.1

theorem add_fixed (p : ControllerRegistor) (pattern : Str) (t : ReflectType) (mm : List Str)
    (h : (paramNames pattern).length = 0) :
    Add p pattern t mm =
      { p with fixrouters := p.fixrouters ++ [⟨pattern, none, [], t, [], false⟩] } := by
  have hj : (addLoop (Split '/' pattern) [] 0).2.2 = 0 := by rw [addLoop_count, h]
  simp [Add, AddWith, hj]

theorem add_pattern_fixrouters (p : ControllerRegistor) (pattern : Str) (t : ReflectType)
    (mm : List Str) (h : 1 ≤ (paramNames pattern).length) :
    (Add p pattern t mm).fixrouters = p.fixrouters := by
  have hj : ¬ (addLoop (Split '/' pattern) [] 0).2.2 = 0 := by rw [addLoop_count]; omega
  simp only [Add, AddWith, hj, if_false]
  split <;> rfl

theorem foldl_add_fixrouters (adds : List (Str × ReflectType)) :
    ∀ p : ControllerRegistor, (∀ x ∈ adds, 1 ≤ (paramNames x.1).length) →
      (adds.foldl (fun p x => Add p x.1 x.2 []) p).fixrouters = p.fixrouters := by
  induction adds with
  | nil => intro p _; rfl
  | cons a adds ih =>
    intro p h
    simp only [List.foldl_cons]
    rw [ih _ (fun x hx => h x (List.mem_cons_of_mem _ hx)),
      add_pattern_fixrouters _ _ _ _ (h a (List.mem_cons_self _ _))]

theorem register_fixrouters (before after : List (Str × ReflectType)) (P : Str)
    (t : ReflectType) (hP : (paramNames P).length = 0)
    (hothers : ∀ x ∈ before ++ after, 1 ≤ (paramNames x.1).length) :
    (register (before ++ (P, t) :: after)).fixrouters = [⟨P, none, [], t, [], false⟩] := by
  unfold register
  rw [List.foldl_append, List.foldl_cons,
    foldl_add_fixrouters after _ (fun x hx => hothers x (List.mem_append_right _ hx)),
    add_fixed _ _ _ _ hP]
  simp only
  rw [foldl_add_fixrouters before _ (fun x hx => hothers x (List.mem_append_left _ hx))]
  rfl

/-! ### The scans of the routes -/

/-- The scan of the fixed routes only adds to the trace and never resets
`started`. -/
theorem fixLoop_mono (req : Request) (l : List controllerInfo) :
    ∀ c : Ctx, (∀ e ∈ c.trace, e ∈ (fixLoop req l c).1.trace) ∧
      (c.started = true → (fixLoop req l c).1.started = true) := by
  induction l with
  | nil => intro c; simp [fixLoop]
  | cons x l ih =>
    intro c
    have key : ∀ c1 : Ctx, (∀ e ∈ c.trace, e ∈ c1.trace) → (c.started = true → c1.started = true) →
        (∀ e ∈ c.trace, e ∈ (fixLoop req l c1).1.trace) ∧
          (c.started = true → (fixLoop req l c1).1.started = true) :=
      fun c1 h1 h2 => ⟨fun e he => (ih c1).1 e (h1 e he), fun hs => (ih c1).2 (h2 hs)⟩
    simp only [fixLoop]
    repeat' split
    all_goals first
      | exact ⟨fun e he => he, fun hs => hs⟩
      | exact key _ (fun e he => by simp [Ctx.log, Ctx.start, he])
          (fun hs => by simp [Ctx.log, Ctx.start, hs])

/-- One iteration of the scan of the fixed routes finds the route, panics,
or goes on with the next route, whatever the routes that follow. -/
theorem fixLoop_cons (req : Request) (x : controllerInfo) (c : Ctx) :
    (∃ c1, c1.findrouter = true ∧ ∀ l, fixLoop req (x :: l) c = (c1, .cont)) ∨
    (∃ c1 v, ∀ l, fixLoop req (x :: l) c = (c1, .panic v)) ∨
    (∃ c1, c1.findrouter = c.findrouter ∧ ∀ l, fixLoop req (x :: l) c = fixLoop req l c1) := by
  simp only [fixLoop]
  repeat' split
  all_goals first
    | (refine Or.inl ⟨_, ?_, fun _ => rfl⟩; rfl)
    | exact Or.inr (Or.inl ⟨_, _, fun _ => rfl⟩)
    | (refine Or.inr (Or.inr ⟨_, ?_, fun _ => rfl⟩); rfl)

/-- While no route is found and nothing panics, the scan of the fixed
routes goes on with the routes that follow. -/
theorem fixLoop_append (req : Request) (pre rest : List controllerInfo) :
    ∀ c c1 : Ctx, c.findrouter = false → fixLoop req pre c = (c1, .cont) →
      c1.findrouter = false → fixLoop req (pre ++ rest) c = fixLoop req rest c1 := by
  induction pre with
  | nil =>
    intro c c1 _ h _
    simp only [fixLoop, Prod.mk.injEq, and_true] at h
    subst h; rfl
  | cons x pre ih =>
    intro c c1 hc h hn
    rw [List.cons_append]
    rcases fixLoop_cons req x c with ⟨c2, h2, hl⟩ | ⟨c2, v, hl⟩ | ⟨c2, h2, hl⟩
    · rw [hl] at h
      simp only [Prod.mk.injEq, and_true] at h
      subst h
      rw [h2] at hn; cases hn
    · rw [hl] at h
      simp at h
    · rw [hl] at h ⊢
      exact ih c2 c1 (h2.trans hc) h hn

theorem getLast?_append_slash (P : Str) : (P ++ "/".toList).getLast? = some '/' := by
  simp [String.toList]

theorem append_slash_ne (P : Str) : P ++ "/".toList ≠ P := by
  intro h
  have := congrArg List.length h
  simp at this

/-- On a path that ends in `/`, the scan of the fixed routes issues no
redirect: the trace and `started` are as before. -/
theorem fixLoop_slash_quiet (req : Request) (P : Str) (hp : req.Path = P ++ "/".toList)
    (l : List controllerInfo) :
    ∀ c : Ctx, (fixLoop req l c).1.trace = c.trace ∧ (fixLoop req l c).1.started = c.started := by
  induction l with
  | nil => intro c; simp [fixLoop]
  | cons x l ih =>
    intro c
    simp only [fixLoop, hp, getLast?_append_slash]
    simp only [bne_self_eq_false, Bool.false_and, Bool.false_eq_true, if_false]
    repeat' split
    all_goals first
      | exact ⟨rfl, rfl⟩
      | exact ih _

/-- On a path that ends in `/`, the scan passes over the fixed routes whose
pattern is neither the path nor the path without its last `/`. -/
theorem fixLoop_slash_skip (req : Request) (P : Str) (hp : req.Path = P ++ "/".toList)
    (pre rest : List controllerInfo) :
    ∀ c : Ctx, (∀ x ∈ pre, x.pattern ≠ P ++ "/".toList ∧ x.pattern ≠ P) →
      fixLoop req (pre ++ rest) c = fixLoop req rest c := by
  induction pre with
  | nil => intro c _; rfl
  | cons x pre ih =>
    intro c h
    obtain ⟨h1, h2⟩ := h x (List.mem_cons_self _ _)
    have h1' : ¬ P ++ "/".toList = x.pattern := fun e => h1 e.symm
    have h2' : ¬ x.pattern ++ "/".toList = P ++ "/".toList := by
      intro e
      exact h2 (List.append_cancel_right e)
    rw [List.cons_append]
    simp only [fixLoop, hp, getLast?_append_slash, h1', h2']
    simp only [decide_False, Bool.false_and, Bool.and_false, Bool.false_eq_true, if_false]
    exact ih c (fun y hy => h y (List.mem_cons_of_mem _ hy))

/-- On a non-empty path that does not end in `/`, the scan passes the fixed
routes whose pattern is not the path, keeping what the trace holds. -/
theorem fixLoop_noslash_skip (req : Request) (last : Char) (hl : req.Path.getLast? = some last)
    (hs : last ≠ '/') (pre : List controllerInfo) :
    ∀ c : Ctx, (∀ x ∈ pre, x.pattern ≠ req.Path) →
      ∃ c1, (∀ e ∈ c.trace, e ∈ c1.trace) ∧ (c.started = true → c1.started = true) ∧
        ∀ rest, fixLoop req (pre ++ rest) c = fixLoop req rest c1 := by
  induction pre with
  | nil => intro c _; exact ⟨c, fun _ h => h, fun h => h, fun _ => rfl⟩
  | cons x pre ih =>
    intro c h
    have h1 : ¬ req.Path = x.pattern := fun e => h x (List.mem_cons_self _ _) e.symm
    by_cases h2 : req.Path ++ "/".toList = x.pattern
    · obtain ⟨c1, k1, k2, k3⟩ := ih (c.log (.redirect (req.Path ++ "/".toList) 301)).start
        (fun y hy => h y (List.mem_cons_of_mem _ hy))
      refine ⟨c1, fun e he => k1 e (by simp [Ctx.log, Ctx.start, he]), fun _ => k2 rfl, ?_⟩
      intro rest
      have h2' : req.Path ++ ['/'] = x.pattern := h2
      rw [List.cons_append, ← k3 rest]
      simp [fixLoop, h1, hl, hs, h2']
    · obtain ⟨c1, k1, k2, k3⟩ := ih c (fun y hy => h y (List.mem_cons_of_mem _ hy))
      refine ⟨c1, k1, k2, ?_⟩
      intro rest
      have h2' : ¬ req.Path ++ ['/'] = x.pattern := h2
      rw [List.cons_append, ← k3 rest]
      simp [fixLoop, h1, hl, hs, h2']

/-! ### C5 -/

/-- C5: however one fixed route with pattern `P` and any number of pattern
routes are registered, a request (of an allowed method) whose path equals
`P` resolves to the fixed route's controller type; the state is otherwise
untouched: no pattern route is consulted (no `matchString` event), and no
route parameter is extracted (`params`, `Input.Params` and the query are
as before). -/
theorem C5_fixed_route_precedence (before after : List (Str × ReflectType)) (P : Str)
    (t : ReflectType) (req : Request) (c : Ctx)
    (hP : (paramNames P).length = 0)
    (hothers : ∀ x ∈ before ++ after, 1 ≤ (paramNames x.1).length)
    (hm : allowed req.Method = true) (hpath : req.Path = P) :
    resolve (register (before ++ (P, t) :: after)) req c =
      ({ c with runMethod := getRunMethod req.Method req.Form ⟨P, none, [], t, [], false⟩,
                runrouter := some t, findrouter := true }, .cont) ∧
    getRunMethod req.Method req.Form ⟨P, none, [], t, [], false⟩ ≠ [] := by
  have hrun := getRunMethod_ne_nil req.Method req.Form ⟨P, none, [], t, [], false⟩ rfl hm
  refine ⟨?_, hrun⟩
  simp only [resolve, andThen, register_fixrouters before after P t hP hothers, fixLoop, hpath]
  simp [hrun]

/-- Witness of `C5_fixed_route_precedence`: the fixed route `/a` registered
after the pattern route `/:x`, and a GET request for `/a`. -/
theorem C5_fixed_route_precedence_witness :
    (resolve (register [("/:x".toList, 1), ("/a".toList, 2)]) (plainRequest "GET".toList "/a".toList)
      (initCtx (plainRequest "GET".toList "/a".toList))).1.runrouter = some 2 ∧
    (resolve (register [("/:x".toList, 1), ("/a".toList, 2)]) (plainRequest "GET".toList "/a".toList)
      (initCtx (plainRequest "GET".toList "/a".toList))).1.trace = [] := by
  have h := (C5_fixed_route_precedence [("/:x".toList, 1)] [] "/a".toList 2
    (plainRequest "GET".toList "/a".toList) (initCtx (plainRequest "GET".toList "/a".toList))
    (by decide) (by decide) (by decide) rfl).1
  simp only [List.cons_append, List.nil_append] at h
  rw [h]
  exact ⟨rfl, rfl⟩

/-! ### C7 -/

/-- C7: for a fixed route with pattern `P + "/"` (`P` non-empty and not
ending in `/`) such that no earlier fixed route has pattern `P`, the scan
of the fixed routes on a request for `P` issues a 301 redirect to `P + "/"`
through the response writer, which starts the response.  On a request for
`P + "/"` the scan issues no redirect, whatever the table; and when no
earlier fixed route matches that request (none has pattern `P + "/"` or
`P`), the scan finds the route by the exact comparison of line 516. -/
theorem C7_trailing_slash_redirect (req : Request) (pre post : List controllerInfo)
    (r : controllerInfo) (P : Str) (c : Ctx)
    (hP : P ≠ []) (hlast : P.getLast? ≠ some '/')
    (hr : r.pattern = P ++ "/".toList)
    (hpre : ∀ x ∈ pre, x.pattern ≠ P)
    (hrm : r.hasMethod = false) (hm : allowed req.Method = true) :
    (Event.redirect (P ++ "/".toList) 301
        ∈ (fixLoop { req with Path := P } (pre ++ r :: post) c).1.trace ∧
      (fixLoop { req with Path := P } (pre ++ r :: post) c).1.started = true) ∧
    (∀ l, (fixLoop { req with Path := P ++ "/".toList } l c).1.trace = c.trace ∧
      (fixLoop { req with Path := P ++ "/".toList } l c).1.started = c.started) ∧
    ((∀ x ∈ pre, x.pattern ≠ P ++ "/".toList) →
      fixLoop { req with Path := P ++ "/".toList } (pre ++ r :: post) c =
        ({ c with runMethod := getRunMethod req.Method req.Form r,
                  runrouter := some r.controllerType, findrouter := true }, .cont)) := by
  have hrun := getRunMethod_ne_nil req.Method req.Form r hrm hm
  refine ⟨?_, ?_, ?_⟩
  · obtain ⟨last, hl⟩ : ∃ last, P.getLast? = some last := by
      cases h : P.getLast? with
      | none => exact absurd (List.getLast?_eq_none_iff.mp h) hP
      | some last => exact ⟨last, rfl⟩
    have hs : last ≠ '/' := by
      intro e; rw [e] at hl; exact hlast hl
    obtain ⟨c1, k1, _, k3⟩ := fixLoop_noslash_skip { req with Path := P } last hl hs pre c hpre
    rw [k3]
    have hne : ¬ P = r.pattern := by rw [hr]; exact fun e => append_slash_ne P e.symm
    have hstep : fixLoop { req with Path := P } (r :: post) c1 =
        fixLoop { req with Path := P } post (c1.log (.redirect (P ++ "/".toList) 301)).start := by
      have hr' : P ++ ['/'] = r.pattern := hr.symm
      simp [fixLoop, hne, hl, hs, hr']
    rw [hstep]
    obtain ⟨m1, m2⟩ := fixLoop_mono { req with Path := P } post
      (c1.log (.redirect (P ++ "/".toList) 301)).start
    exact ⟨m1 _ (by simp [Ctx.log, Ctx.start]), m2 rfl⟩
  · intro l
    exact fixLoop_slash_quiet { req with Path := P ++ "/".toList } P rfl l c
  · intro hpre2
    rw [fixLoop_slash_skip { req with Path := P ++ "/".toList } P rfl pre (r :: post) c
      (fun x hx => ⟨hpre2 x hx, hpre x hx⟩)]
    simp only [fixLoop, hr]
    simp [hrun, hr]

/-- Witness of `C7_trailing_slash_redirect`: the route `/admin/` and a GET
request for `/admin`. -/
theorem C7_trailing_slash_redirect_witness :
    Event.redirect "/admin/".toList 301
      ∈ (fixLoop (plainRequest "GET".toList "/admin".toList)
          [⟨"/admin/".toList, none, [], 5, [], false⟩]
          (initCtx (plainRequest "GET".toList "/admin".toList))).1.trace ∧
    fixLoop (plainRequest "GET".toList "/admin/".toList)
        [⟨"/admin/".toList, none, [], 5, [], false⟩]
        (initCtx (plainRequest "GET".toList "/admin/".toList)) =
      ({ initCtx (plainRequest "GET".toList "/admin/".toList) with
          runMethod := "Get".toList, runrouter := some 5, findrouter := true }, .cont) := by
  have h := C7_trailing_slash_redirect (plainRequest "GET".toList "/admin".toList) [] []
    ⟨"/admin/".toList, none, [], 5, [], false⟩ "/admin".toList
    (initCtx (plainRequest "GET".toList "/admin".toList))
    (by decide) (by decide) rfl (by simp) rfl (by decide)
  exact ⟨h.1.1, h.2.2 (by simp)⟩

/-! ### C8 -/

/-- C8: for a fixed route with pattern `P` (registered by `Add`, so without
a method map) and a request of an allowed method for `P + "/"`, when the
scan of the earlier fixed routes found nothing, the scan treats the request
as a match for the route: it selects the route's controller type and run
method, the same as a request for `P` reaching the route. -/
theorem C8_trailing_slash_match (req : Request) (pre post : List controllerInfo)
    (r : controllerInfo) (P : Str) (c c1 : Ctx)
    (hm : allowed req.Method = true) (hrm : r.hasMethod = false) (hr : r.pattern = P)
    (hc : c.findrouter = false)
    (hpre : fixLoop { req with Path := P ++ "/".toList } pre c = (c1, .cont))
    (hnf : c1.findrouter = false) :
    fixLoop { req with Path := P ++ "/".toList } (pre ++ r :: post) c =
      ({ c1 with runMethod := getRunMethod req.Method req.Form r,
                 runrouter := some r.controllerType, findrouter := true }, .cont) ∧
    fixLoop { req with Path := P } (r :: post) c1 =
      ({ c1 with runMethod := getRunMethod req.Method req.Form r,
                 runrouter := some r.controllerType, findrouter := true }, .cont) := by
  have hrun := getRunMethod_ne_nil req.Method req.Form r hrm hm
  constructor
  · rw [fixLoop_append _ pre (r :: post) c c1 hc hpre hnf]
    have hne : ¬ P ++ "/".toList = r.pattern := by rw [hr]; exact append_slash_ne P
    simp only [fixLoop, hne, getLast?_append_slash]
    simp [hrun, hr]
  · simp only [fixLoop, hr]
    simp [hrun]

/-- Witness of `C8_trailing_slash_match`: the route `/admin` and a GET
request for `/admin/`. -/
theorem C8_trailing_slash_match_witness :
    fixLoop (plainRequest "GET".toList "/admin/".toList)
        [⟨"/admin".toList, none, [], 5, [], false⟩]
        (initCtx (plainRequest "GET".toList "/admin/".toList)) =
      ({ initCtx (plainRequest "GET".toList "/admin/".toList) with
          runMethod := "Get".toList, runrouter := some 5, findrouter := true }, .cont) :=
  (C8_trailing_slash_match (plainRequest "GET".toList "/admin".toList) [] []
    ⟨"/admin".toList, none, [], 5, [], false⟩ "/admin".toList
    (initCtx (plainRequest "GET".toList "/admin".toList))
    (initCtx (plainRequest "GET".toList "/admin".toList))
    (by decide) rfl rfl rfl rfl rfl).1

/-! ### The filters -/

theorem mapGet?_mapSet_self {κ ν : Type} [DecidableEq κ] (m : List (κ × ν)) (k : κ) (v : ν) :
    mapGet? (mapSet m k v) k = some v := by
  induction m with
  | nil => simp [mapSet, mapGet?]
  | cons e m ih =>
    obtain ⟨k1, v1⟩ := e
    by_cases h : k1 = k
    · simp [mapSet, mapGet?, h]
    · simp [mapSet, mapGet?, h, ih]

/-- One iteration of the loop of `doFilter`, on a filter that matches the
path and does not panic. -/
theorem doFilterLoop_cons_match (req : Request) (u : Str) (pos : Nat) (f : FilterRouter)
    (rest : List FilterRouter) (idx : Nat) (c : Ctx)
    (hv : (f.ValidRouter u).1 = true) (hp : f.filterFunc.panics = none) :
    doFilterLoop req u pos (f :: rest) idx c =
      if f.returnOnOutput && (c.started || (f.filterFunc.writes && !req.websocket)) then
        ({ c with InputParams := (f.ValidRouter u).2,
                  trace := c.trace ++ [.filterFunc pos idx],
                  started := c.started || (f.filterFunc.writes && !req.websocket) }, .ret)
      else
        doFilterLoop req u pos rest (idx + 1)
          { c with InputParams := (f.ValidRouter u).2,
                   trace := c.trace ++ [.filterFunc pos idx],
                   started := c.started || (f.filterFunc.writes && !req.websocket) } := by
  simp only [doFilterLoop, hv, if_true, runUser, hp, Ctx.log]

/-- One iteration of the loop of `doFilter`, on a filter that matches the
path and panics. -/
theorem doFilterLoop_cons_panic (req : Request) (u : Str) (pos : Nat) (f : FilterRouter)
    (rest : List FilterRouter) (idx : Nat) (c : Ctx) (v : PanicVal)
    (hv : (f.ValidRouter u).1 = true) (hp : f.filterFunc.panics = some v) :
    doFilterLoop req u pos (f :: rest) idx c =
      ({ c with InputParams := (f.ValidRouter u).2,
                trace := c.trace ++ [.filterFunc pos idx],
                started := c.started || (f.filterFunc.writes && !req.websocket) }, .panic v) := by
  simp only [doFilterLoop, hv, if_true, runUser, hp, Ctx.log]

/-- One iteration of the loop of `doFilter`, on a filter that does not match
the path. -/
theorem doFilterLoop_cons_skip (req : Request) (u : Str) (pos : Nat) (f : FilterRouter)
    (rest : List FilterRouter) (idx : Nat) (c : Ctx)
    (hv : (f.ValidRouter u).1 = false) :
    doFilterLoop req u pos (f :: rest) idx c = doFilterLoop req u pos rest (idx + 1) c := by
  simp [doFilterLoop, hv]

/-- The loop of `doFilter` goes on with the filters that follow when the
earlier ones did not make it return. -/
theorem doFilterLoop_append (req : Request) (u : Str) (pos : Nat) (pre rest : List FilterRouter) :
    ∀ (idx : Nat) (c c1 : Ctx), doFilterLoop req u pos pre idx c = (c1, .cont) →
      doFilterLoop req u pos (pre ++ rest) idx c
        = doFilterLoop req u pos rest (idx + pre.length) c1 := by
  induction pre with
  | nil =>
    intro idx c c1 h
    simp only [doFilterLoop, Prod.mk.injEq, and_true] at h
    subst h; rfl
  | cons f pre ih =>
    intro idx c c1 h
    have e : idx + (f :: pre).length = idx + 1 + pre.length := by simp; omega
    rw [List.cons_append, e]
    cases hv : (f.ValidRouter u).1 with
    | false =>
      rw [doFilterLoop_cons_skip _ _ _ _ _ _ _ hv] at h ⊢
      exact ih _ _ _ h
    | true =>
      cases hp : f.filterFunc.panics with
      | some v =>
        rw [doFilterLoop_cons_panic _ _ _ _ _ _ _ v hv hp] at h
        simp at h
      | none =>
        rw [doFilterLoop_cons_match _ _ _ _ _ _ _ hv hp] at h ⊢
        split_ifs at h ⊢ with hc
        · simp at h
        · exact ih _ _ _ h

/-- The body of `ServeHTTP` from the `BEFORE_ROUTER` stage on, when dispatch
reaches that stage and the filters of the stage before `f` do not stop. -/
theorem serveBody_at_filter (cfg : Config) (p : ControllerRegistor) (req : Request)
    (c0 c1 : Ctx) (pre post : List FilterRouter) (f : FilterRouter)
    (hen : p.enableFilter = true)
    (hl : mapGet? p.filters BEFORE_ROUTER = some (pre ++ f :: post))
    (hb : beforeRouter cfg p req (initCtx req) = (c0, .cont))
    (hpre : doFilterLoop req (urlPathOf cfg req) BEFORE_ROUTER pre 0 c0 = (c1, .cont)) :
    serveBody cfg p req (initCtx req) =
      andThen (doFilterLoop req (urlPathOf cfg req) BEFORE_ROUTER (f :: post) pre.length)
        (afterRouter cfg p req) c1 := by
  have h := doFilterLoop_append req (urlPathOf cfg req) BEFORE_ROUTER pre (f :: post) 0 c0 c1 hpre
  simp only [Nat.zero_add] at h
  simp only [serveBody, andThen, hb, doFilter, hen, if_true, hl, h]

/-! ### C9 -/

/-- C9 (amended): on a request that is not a websocket upgrade, when
dispatch reaches a `BEFORE_ROUTER` filter with `returnOnOutput = true` (the
value `InsertFilter` stores when it gets no bool argument) that matches the
path and writes a status or body, `ServeHTTP` returns right after that
filter: the state it returns is the state after the filter's call, to which
only the deferred function adds (the recovery of a panic of the filter), so
that no later filter of any stage runs, no route is resolved and no
controller method is invoked. -/
theorem C9_short_circuit (cfg : Config) (p : ControllerRegistor) (req : Request)
    (c0 c1 : Ctx) (pre post : List FilterRouter) (f : FilterRouter)
    (hws : req.websocket = false)
    (hen : p.enableFilter = true)
    (hl : mapGet? p.filters BEFORE_ROUTER = some (pre ++ f :: post))
    (hb : beforeRouter cfg p req (initCtx req) = (c0, .cont))
    (hpre : doFilterLoop req (urlPathOf cfg req) BEFORE_ROUTER pre 0 c0 = (c1, .cont))
    (hv : (f.ValidRouter (urlPathOf cfg req)).1 = true)
    (hret : f.returnOnOutput = true) (hw : f.filterFunc.writes = true) :
    ServeHTTP cfg p req =
      recoverStage cfg
        ({ c1 with InputParams := (f.ValidRouter (urlPathOf cfg req)).2,
                   trace := c1.trace ++ [.filterFunc BEFORE_ROUTER pre.length],
                   started := true },
         match f.filterFunc.panics with
         | none => .ret
         | some v => .panic v) ∧
    (∀ e ∈ (ServeHTTP cfg p req).trace,
      e ∈ c1.trace ∨ e = .filterFunc BEFORE_ROUTER pre.length ∨
        (∃ v, e = .recover v) ∨ (∃ h, e = .errorHandler h)) ∧
    (∀ (mkTree : Str → Str → TreeResult × List (Str × Str)) (cs : Bool) (q : ControllerRegistor)
        (pattern : Str) (u : UserCode),
      ∃ mr, mapGet? (InsertFilter mkTree cs q pattern BEFORE_ROUTER u []).filters BEFORE_ROUTER
          = some ((mapGet? q.filters BEFORE_ROUTER).getD [] ++ [mr]) ∧
        mr.returnOnOutput = true ∧ mr.filterFunc = u ∧
        (InsertFilter mkTree cs q pattern BEFORE_ROUTER u []).enableFilter = true) := by
  have hs := serveBody_at_filter cfg p req c0 c1 pre post f hen hl hb hpre
  have hmain : ServeHTTP cfg p req =
      recoverStage cfg
        ({ c1 with InputParams := (f.ValidRouter (urlPathOf cfg req)).2,
                   trace := c1.trace ++ [.filterFunc BEFORE_ROUTER pre.length],
                   started := true },
         match f.filterFunc.panics with
         | none => .ret
         | some v => .panic v) := by
    unfold ServeHTTP
    rw [hs]
    cases hp : f.filterFunc.panics with
    | none =>
      simp only [andThen, doFilterLoop_cons_match _ _ _ _ _ _ _ hv hp, hret, hw, hws]
      simp
    | some v =>
      simp only [andThen, doFilterLoop_cons_panic _ _ _ _ _ _ _ v hv hp, hw, hws]
      simp
  refine ⟨hmain, ?_, ?_⟩
  · rw [hmain]
    intro e he
    cases hp : f.filterFunc.panics with
    | none =>
      simp only [hp, recoverStage, List.mem_append, List.mem_singleton] at he
      rcases he with he | he
      · exact Or.inl he
      · exact Or.inr (Or.inl he)
    | some v =>
      simp only [hp, recoverStage] at he
      split_ifs at he
      · simp only [Ctx.log, List.mem_append, List.mem_singleton] at he
        rcases he with (he | he) | he
        · exact Or.inl he
        · exact Or.inr (Or.inl he)
        · exact Or.inr (Or.inr (Or.inl ⟨_, he⟩))
      · simp only [Ctx.log, List.mem_append, List.mem_singleton] at he
        rcases he with ((he | he) | he) | he
        · exact Or.inl he
        · exact Or.inr (Or.inl he)
        · exact Or.inr (Or.inr (Or.inl ⟨_, he⟩))
        · exact Or.inr (Or.inr (Or.inr ⟨_, he⟩))
  · intro mkTree cs q pattern u
    exact ⟨_, mapGet?_mapSet_self _ _ _, rfl, rfl, rfl⟩

/-- Witness of `C9_short_circuit`: the same request without the upgrade
header ends after the filter. -/
theorem C9_short_circuit_witness :
    (ServeHTTP plainConfig shortCircuitApp (plainRequest "GET".toList "/a".toList)).trace =
      [.filterFunc BEFORE_ROUTER 0] := by
  have h := (C9_short_circuit plainConfig shortCircuitApp (plainRequest "GET".toList "/a".toList)
    (initCtx (plainRequest "GET".toList "/a".toList))
    (initCtx (plainRequest "GET".toList "/a".toList)) [] []
    ⟨⟨true, none⟩, matchAll "/*".toList, "/*".toList, true⟩
    rfl rfl rfl rfl rfl rfl rfl rfl).1
  rw [h]
  rfl

/-- C9 (counterexample): on a websocket upgrade request the filter's write
goes to the raw writer (line 458), `w.started` stays false, and dispatch
goes on after the `BEFORE_ROUTER` filter with `returnOnOutput = true`: the
route is resolved and the controller's `Get` runs. -/
theorem C9_websocket_filter_does_not_stop :
    (ServeHTTP plainConfig shortCircuitApp ⟨"GET".toList, "/a".toList, [], [], true⟩).trace =
      [.filterFunc BEFORE_ROUTER 0, .Init 2 "Get".toList, .Prepare, .Filter,
       .call "Get".toList, .accessLog, .Finish] := by
  decide

/-! ### C11 -/

theorem doFilterLoop_trace (req : Request) (u : Str) (pos : Nat) (l : List FilterRouter) :
    ∀ (idx : Nat) (c : Ctx),
      (doFilterLoop req u pos l idx c).1.trace =
        c.trace ++ (invokedUpTo req.websocket c.started (matchingFilters u l idx)).map
          (fun i => Event.filterFunc pos i) := by
  induction l with
  | nil => intro idx c; simp [doFilterLoop, matchingFilters, invokedUpTo]
  | cons f l ih =>
    intro idx c
    cases hv : (f.ValidRouter u).1 with
    | false =>
      rw [doFilterLoop_cons_skip _ _ _ _ _ _ _ hv, ih]
      simp [matchingFilters, List.enumFrom, hv]
    | true =>
      have hm : matchingFilters u (f :: l) idx = (idx, f) :: matchingFilters u l (idx + 1) := by
        simp [matchingFilters, List.enumFrom, hv]
      rw [hm]
      cases hp : f.filterFunc.panics with
      | some v =>
        rw [doFilterLoop_cons_panic _ _ _ _ _ _ _ v hv hp]
        simp [invokedUpTo, hp]
      | none =>
        rw [doFilterLoop_cons_match _ _ _ _ _ _ _ hv hp]
        by_cases hs : (f.returnOnOutput && (c.started || (f.filterFunc.writes && !req.websocket)))
            = true
        · simp only [hs, if_true, invokedUpTo, hp, Option.isSome_none, Bool.false_or]
          simp
        · simp only [hs, invokedUpTo, hp, Option.isSome_none, Bool.false_or,
            Bool.false_eq_true, if_false]
          rw [ih]
          simp

theorem invokedUpTo_initial (ws : Bool) (l : List (Nat × FilterRouter)) :
    ∀ started, invokedUpTo ws started l <+: l.map Prod.fst := by
  induction l with
  | nil => intro s; simp [invokedUpTo]
  | cons e l ih =>
    intro s
    simp only [invokedUpTo, List.map_cons]
    split_ifs
    · exact ⟨l.map Prod.fst, rfl⟩
    · exact (List.prefix_cons_inj e.1).mpr (ih _)

theorem add_filters (q : ControllerRegistor) (pattern : Str) (t : ReflectType) (mm : List Str) :
    (Add q pattern t mm).filters = q.filters ∧
      (Add q pattern t mm).enableFilter = q.enableFilter := by
  unfold Add AddWith
  simp only
  split_ifs
  · exact ⟨rfl, rfl⟩
  · split <;> exact ⟨rfl, rfl⟩

/-- C11: for every stage and path, on a registrar built by
`NewControllerRegistor`, `Add` and `InsertFilter`, the filter functions
`doFilter` invokes are exactly the filters registered at the stage whose
matcher accepts the path, in insertion order, up to and including the first
of them after which the response is started and whose `returnOnOutput` flag
is true (a filter that panics ends the loop as well); a filter whose
matcher rejects the path is never invoked. -/
theorem C11_filter_order (p : ControllerRegistor) (req : Request) (u : Str) (pos : Nat)
    (c : Ctx) (hreg : filtersEnabled p) :
    (doFilter p req u pos c).1.trace =
      c.trace ++ (invokedUpTo req.websocket c.started
        (matchingFilters u (filtersAt p pos) 0)).map (fun i => Event.filterFunc pos i) ∧
    invokedUpTo req.websocket c.started (matchingFilters u (filtersAt p pos) 0)
      <+: (matchingFilters u (filtersAt p pos) 0).map Prod.fst ∧
    (∀ i ∈ invokedUpTo req.websocket c.started (matchingFilters u (filtersAt p pos) 0),
      ∃ f, (filtersAt p pos)[i]? = some f ∧ (f.ValidRouter u).1 = true) ∧
    (∀ i f, (i, f) ∈ matchingFilters u (filtersAt p pos) 0 ↔
      (filtersAt p pos)[i]? = some f ∧ (f.ValidRouter u).1 = true) ∧
    (filtersEnabled NewControllerRegistor ∧
      (∀ q pattern t mm, filtersEnabled q → filtersEnabled (Add q pattern t mm)) ∧
      (∀ mkTree cs q pattern stage f params,
        filtersEnabled (InsertFilter mkTree cs q pattern stage f params))) := by
  have hmem : ∀ i f, (i, f) ∈ matchingFilters u (filtersAt p pos) 0 ↔
      (filtersAt p pos)[i]? = some f ∧ (f.ValidRouter u).1 = true := by
    intro i f
    simp only [matchingFilters, List.mem_filter]
    rw [← List.enum, List.mk_mem_enum_iff_getElem?]
  refine ⟨?_, invokedUpTo_initial _ _ _, ?_, hmem, ?_, ?_, ?_⟩
  · unfold doFilter filtersAt
    by_cases he : p.enableFilter = true
    · simp only [he, if_true]
      cases hl : mapGet? p.filters pos with
      | none => simp [matchingFilters, invokedUpTo]
      | some l => simpa using doFilterLoop_trace req u pos l 0 c
    · have hf : p.filters = [] := by
        by_contra hne
        exact he (hreg hne)
      simp [he, hf, mapGet?, matchingFilters, invokedUpTo]
  · intro i hi
    have h1 := (invokedUpTo_initial req.websocket (matchingFilters u (filtersAt p pos) 0)
      c.started).subset hi
    obtain ⟨e, he, rfl⟩ := List.mem_map.mp h1
    exact ⟨e.2, (hmem e.1 e.2).mp he⟩
  · intro h
    exact absurd rfl h
  · intro q pattern t mm hq h
    obtain ⟨h1, h2⟩ := add_filters q pattern t mm
    rw [h2]
    rw [h1] at h
    exact hq h
  · intro mkTree cs q pattern stage f params _
    rfl

/-- Witness of `C11_filter_order`: four `BEFORE_ROUTER` filters that all
match but the second; the third writes and has `returnOnOutput`, so that
the fourth is not invoked. -/
theorem C11_filter_order_witness :
    (doFilter
      (InsertFilter matchAll true
        (InsertFilter matchAll true
          (InsertFilter (fun _ _ => (.bool false, [])) true
            (InsertFilter matchAll true NewControllerRegistor "/*".toList BEFORE_ROUTER quiet
              [false])
            "/b".toList BEFORE_ROUTER quiet [])
          "/*".toList BEFORE_ROUTER ⟨true, none⟩ [])
        "/*".toList BEFORE_ROUTER quiet [])
      (plainRequest "GET".toList "/a".toList) "/a".toList BEFORE_ROUTER
      (initCtx (plainRequest "GET".toList "/a".toList))).1.trace
      = [.filterFunc BEFORE_ROUTER 0, .filterFunc BEFORE_ROUTER 2] := by
  have h := (C11_filter_order
      (InsertFilter matchAll true
        (InsertFilter matchAll true
          (InsertFilter (fun _ _ => (.bool false, [])) true
            (InsertFilter matchAll true NewControllerRegistor "/*".toList BEFORE_ROUTER quiet
              [false])
            "/b".toList BEFORE_ROUTER quiet [])
          "/*".toList BEFORE_ROUTER ⟨true, none⟩ [])
        "/*".toList BEFORE_ROUTER quiet [])
      (plainRequest "GET".toList "/a".toList) "/a".toList BEFORE_ROUTER
      (initCtx (plainRequest "GET".toList "/a".toList)) (fun _ => rfl)).1
  rw [h]
  decide

/-! ### What a stage adds to the trace -/

theorem emits_andThen {S : Event → Prop} {a b : Ctx → Ctx × Flow} (ha : Emits S a)
    (hb : Emits S b) : Emits S (andThen a b) := by
  intro c e he
  unfold andThen at he
  cases h : a c with
  | mk c1 fl =>
    have h1 := ha c
    rw [h] at he h1
    cases fl with
    | cont =>
      rcases hb c1 e he with h2 | h2
      · exact h1 e h2
      · exact Or.inr h2
    | ret => exact h1 e he
    | panic v => exact h1 e he

theorem emits_id {S : Event → Prop} : Emits S (fun c => (c, .cont)) :=
  fun _ _ he => Or.inl he

theorem emits_runUser {S : Event → Prop} (req : Request) (u : UserCode) (ev : Event)
    (hev : S ev) : Emits S (runUser req u ev) := by
  intro c e he
  unfold runUser at he
  cases hp : u.panics <;> simp only [hp, Ctx.log, List.mem_append, List.mem_singleton] at he <;>
    rcases he with he | he
  · exact Or.inl he
  · exact Or.inr (he ▸ hev)
  · exact Or.inl he
  · exact Or.inr (he ▸ hev)

theorem emits_doFilterLoop {S : Event → Prop} (req : Request) (u : Str) (pos : Nat)
    (hS : ∀ idx, S (.filterFunc pos idx)) (l : List FilterRouter) :
    ∀ idx, Emits S (doFilterLoop req u pos l idx) := by
  induction l with
  | nil => intro idx c e he; exact Or.inl he
  | cons f l ih =>
    intro idx c e he
    cases hv : (f.ValidRouter u).1 with
    | false =>
      rw [doFilterLoop_cons_skip _ _ _ _ _ _ _ hv] at he
      exact ih _ c e he
    | true =>
      cases hp : f.filterFunc.panics with
      | some v =>
        rw [doFilterLoop_cons_panic _ _ _ _ _ _ _ v hv hp] at he
        simp only [List.mem_append, List.mem_singleton] at he
        rcases he with he | he
        · exact Or.inl he
        · exact Or.inr (he ▸ hS idx)
      | none =>
        rw [doFilterLoop_cons_match _ _ _ _ _ _ _ hv hp] at he
        split_ifs at he
        · simp only [List.mem_append, List.mem_singleton] at he
          rcases he with he | he
          · exact Or.inl he
          · exact Or.inr (he ▸ hS idx)
        · rcases ih _ _ e he with h | h
          · simp only [List.mem_append, List.mem_singleton] at h
            rcases h with h | h
            · exact Or.inl h
            · exact Or.inr (h ▸ hS idx)
          · exact Or.inr h

theorem emits_doFilter {S : Event → Prop} (p : ControllerRegistor) (req : Request) (u : Str)
    (pos : Nat) (hS : ∀ idx, S (.filterFunc pos idx)) : Emits S (doFilter p req u pos) := by
  intro c e he
  unfold doFilter at he
  split_ifs at he
  · split at he
    · exact emits_doFilterLoop req u pos hS _ 0 c e he
    · exact Or.inl he
  · exact Or.inl he

theorem emits_Exception {S : Event → Prop} (em : List (Str × Handler)) (code : Str)
    (hev : S (.exception code)) : Emits S (Exception em code) := by
  intro c e he
  unfold Exception at he
  have hl : e ∈ (c.log (.exception code)).trace := by
    split at he <;> exact he
  simp only [Ctx.log, List.mem_append, List.mem_singleton] at hl
  rcases hl with hl | hl
  · exact Or.inl hl
  · exact Or.inr (hl ▸ hev)

theorem emits_staticLoop (cfg : Config) (req : Request) (l : List (Str × Str)) :
    Emits notHttpError (staticLoop cfg req l) := by
  induction l with
  | nil => intro c e he; exact Or.inl he
  | cons x l ih =>
    obtain ⟨pre, dir⟩ := x
    have hfav : ∀ c : Ctx, ∀ e,
        e ∈ (if req.Path = "/favicon.ico".toList then (c.log (.serveFile (dir ++ req.Path))).start
              else c).trace → e ∈ c.trace ∨ notHttpError e := by
      intro c e he
      split_ifs at he
      · simp only [Ctx.log, Ctx.start, List.mem_append, List.mem_singleton] at he
        rcases he with he | he
        · exact Or.inl he
        · exact Or.inr (by subst he; intro n hh; cases hh)
      · exact Or.inl he
    have hstep : ∀ (c1 : Ctx) (ev : Event), notHttpError ev → ∀ e,
        e ∈ (staticLoop cfg req l (c1.log ev).start).1.trace → e ∈ c1.trace ∨ notHttpError e := by
      intro c1 ev hev e he
      rcases ih _ e he with h | h
      · simp only [Ctx.log, Ctx.start, List.mem_append, List.mem_singleton] at h
        rcases h with h | h
        · exact Or.inl h
        · exact Or.inr (h ▸ hev)
      · exact Or.inr h
    intro c e he
    simp only [staticLoop] at he
    have key : e ∈ (if req.Path = "/favicon.ico".toList then
        (c.log (.serveFile (dir ++ req.Path))).start else c).trace ∨ notHttpError e := by
      split at he
      · split at he
        · exact hstep _ _ (fun n hh => by cases hh) e he
        · split at he
          · exact emits_andThen (emits_Exception _ _ (fun n hh => by cases hh)) ih _ e he
          · exact hstep _ _ (fun n hh => by cases hh) e he
      · exact ih _ e he
    rcases key with h | h
    · exact hfav c e h
    · exact Or.inr h

theorem emits_fixLoop (req : Request) (l : List controllerInfo) :
    Emits notHttpError (fixLoop req l) := by
  induction l with
  | nil => intro c e he; exact Or.inl he
  | cons x l ih =>
    intro c e he
    simp only [fixLoop] at he
    repeat' split at he
    all_goals first
      | exact Or.inl he
      | (rcases ih _ e he with h | h
         · try simp only [Ctx.log, Ctx.start, List.mem_append, List.mem_singleton] at h
           first
             | exact Or.inl h
             | (rcases h with h | h
                · exact Or.inl h
                · exact Or.inr (by subst h; intro n hh; cases hh))
         · exact Or.inr h)

theorem emits_patLoop (req : Request) (l : List controllerInfo) :
    Emits notHttpError (patLoop req l) := by
  induction l with
  | nil => intro c e he; exact Or.inl he
  | cons x l ih =>
    intro c e he
    have hlog : ∀ e, e ∈ (c.log (.matchString x.pattern)).trace → e ∈ c.trace ∨ notHttpError e := by
      intro e h
      simp only [Ctx.log, List.mem_append, List.mem_singleton] at h
      rcases h with h | h
      · exact Or.inl h
      · exact Or.inr (by subst h; intro n hh; cases hh)
    simp only [patLoop_cons] at he
    repeat' split at he
    all_goals first
      | exact Or.inl he
      | exact hlog e he
      | (rcases ih _ e he with h | h
         · exact hlog e h
         · exact Or.inr h)

theorem emits_ite {S : Event → Prop} (b : Ctx → Bool) {f g : Ctx → Ctx × Flow}
    (hf : Emits S f) (hg : Emits S g) : Emits S (fun c => if b c then f c else g c) := by
  intro c e he
  dsimp only at he
  split_ifs at he
  · exact hf c e he
  · exact hg c e he

theorem emits_log {S : Event → Prop} (ev : Event) (fl : Flow) (hev : S ev) :
    Emits S (fun c => (c.log ev, fl)) := by
  intro c e he
  simp only [Ctx.log, List.mem_append, List.mem_singleton] at he
  rcases he with he | he
  · exact Or.inl he
  · exact Or.inr (he ▸ hev)

theorem emits_resolve (p : ControllerRegistor) (req : Request) :
    Emits notHttpError (resolve p req) :=
  emits_andThen (emits_fixLoop req _)
    (emits_ite (fun c => !c.findrouter) (emits_patLoop req _) emits_id)

theorem emits_ret {S : Event → Prop} : Emits S (fun c => (c, .ret)) :=
  fun _ _ he => Or.inl he

theorem emits_notFoundStage (cfg : Config) : Emits notHttpError (notFoundStage cfg) :=
  emits_ite (fun c => !c.findrouter)
    (emits_andThen (emits_Exception _ _ (fun n hh => by cases hh)) emits_ret) emits_id

theorem emits_xsrfStage (cfg : Config) (req : Request) (k : Controller) :
    Emits notHttpError (xsrfStage cfg req k) := by
  unfold xsrfStage
  by_cases hx : cfg.enableXSRF = true
  · simp only [hx, if_true]
    refine emits_andThen (emits_runUser _ _ _ (fun n hh => by cases hh)) ?_
    by_cases hm : (decide (req.Method = "POST".toList) || decide (req.Method = "DELETE".toList)
        || decide (req.Method = "PUT".toList)
        || decide (req.Method = "POST".toList)
          && decide (valuesGet req.Form "_method".toList = "put".toList)) = true
    · simp only [hm, if_true]
      exact emits_runUser _ _ _ (fun n hh => by cases hh)
    · simp only [hm, if_false]
      exact emits_id
  · simp only [hx]
    exact emits_id

theorem emits_callMethod (req : Request) (k : Controller) (runMethod : Str) :
    Emits notHttpError (callMethod req k runMethod) := by
  unfold callMethod
  repeat' split
  all_goals first
    | exact emits_runUser _ _ _ (fun n hh => by cases hh)
    | exact fun c e he => Or.inl he

theorem emits_renderStage (cfg : Config) (req : Request) (k : Controller) :
    Emits notHttpError (renderStage cfg req k) := by
  intro c e he
  unfold renderStage at he
  have hr := emits_runUser (S := notHttpError) req k.Render .Render (fun n hh => by cases hh) c e
  by_cases h1 : (!c.started && !req.websocket) = true
  · by_cases h2 : cfg.autoRender = true
    · simp only [h1, h2, if_true] at he
      cases hu : runUser req k.Render .Render c with
      | mk c1 fl =>
        rw [hu] at he hr
        cases fl with
        | cont =>
          by_cases h3 : k.RenderFails = true
          · simp only [h3, if_true, Ctx.log, List.mem_append, List.mem_singleton] at he
            rcases he with he | he
            · exact hr he
            · exact Or.inr (by subst he; intro n hh; cases hh)
          · simp only [h3] at he
            exact hr he
        | ret => exact hr he
        | panic v => exact hr he
    · simp only [h1, h2, if_true] at he
      exact Or.inl he
  · simp only [h1] at he
    exact Or.inl he

theorem emits_execStage (cfg : Config) (req : Request) (k : Controller) :
    Emits notHttpError (execStage cfg req k) := by
  intro c e he
  unfold execStage at he
  by_cases hs : (!c.started) = true
  · simp only [hs, if_true] at he
    refine emits_andThen (emits_callMethod req k c.runMethod)
      (emits_andThen ?_ (emits_renderStage cfg req k)) c e he
    by_cases ha : cfg.enableAccessLog = true
    · simp only [ha, if_true]
      exact emits_runUser _ _ _ (fun n hh => by cases hh)
    · simp only [ha, if_false]
      exact emits_id
  · simp only [hs] at he
    exact Or.inl he

theorem emits_runController (cfg : Config) (p : ControllerRegistor) (req : Request) (u : Str)
    (k : Controller) : Emits notHttpError (runController cfg p req u k) := by
  unfold runController
  refine emits_andThen (emits_runUser _ _ _ (fun n hh => by cases hh))
    (emits_andThen (emits_runUser _ _ _ (fun n hh => by cases hh)) ?_)
  by_cases hf : k.FilterResult = true
  · simp only [hf, Bool.not_true, Bool.false_eq_true, if_false]
    exact emits_andThen (emits_execStage cfg req k)
      (emits_andThen (emits_runUser _ _ _ (fun n hh => by cases hh))
        (emits_doFilter p req u AFTER_EXEC (fun idx n hh => by cases hh)))
  · simp only [hf, Bool.not_false, if_true]
    exact emits_andThen (emits_runUser _ _ _ (fun n hh => by cases hh))
      (emits_andThen (emits_runUser _ _ _ (fun n hh => by cases hh)) emits_ret)

theorem emits_execRoute (cfg : Config) (p : ControllerRegistor) (req : Request) (u : Str) :
    Emits notHttpError (execRoute cfg p req u) := by
  unfold execRoute
  refine emits_andThen (emits_doFilter p req u BEFORE_EXEC (fun idx n hh => by cases hh)) ?_
  intro c e he
  dsimp only at he
  split at he
  · exact Or.inl he
  · rename_i t ht
    split_ifs at he
    · exact emits_log .logPrint .ret (fun n hh => by cases hh) c e he
    · exact emits_andThen (emits_runUser _ _ _ (fun n hh => by cases hh))
        (emits_andThen (emits_xsrfStage cfg req _) (emits_runController cfg p req u _)) c e he

theorem emits_afterRouter (cfg : Config) (p : ControllerRegistor) (req : Request) :
    Emits notHttpError (afterRouter cfg p req) :=
  emits_andThen (emits_resolve p req)
    (emits_andThen (emits_notFoundStage cfg) (emits_execRoute cfg p req _))

theorem emits_beforeRouter (cfg : Config) (p : ControllerRegistor) (req : Request)
    (hm : allowed req.Method = true) : Emits notHttpError (beforeRouter cfg p req) := by
  have hm1 : InSlice (ToLower req.Method) HTTPMETHOD = true := hm
  unfold beforeRouter
  simp only [hm1, Bool.not_true, Bool.false_eq_true, if_false]
  refine emits_andThen ?_ (emits_andThen emits_id (emits_andThen ?_
    (emits_andThen (emits_doFilter p req _ BEFORE_STATIC (fun idx n hh => by cases hh)) ?_)))
  · exact emits_ite (fun _ => cfg.sessionOn && decide (cfg.runMode = "web".toList))
      (emits_log _ _ (fun n hh => by cases hh)) emits_id
  · exact emits_ite (fun _ => req.Method != "GET".toList && req.Method != "HEAD".toList)
      (emits_log _ _ (fun n hh => by cases hh)) emits_id
  · intro c e he
    dsimp only at he
    split_ifs at he
    · exact emits_staticLoop cfg req _ c e he
    · exact Or.inl he

/-- For an allowed method no stage of `ServeHTTP` answers through
`http.Error`. -/
theorem serveHTTP_no_httpError (cfg : Config) (p : ControllerRegistor) (req : Request)
    (hm : allowed req.Method = true) :
    ∀ e ∈ (ServeHTTP cfg p req).trace, notHttpError e := by
  have hb : Emits notHttpError (serveBody cfg p req) :=
    emits_andThen (emits_beforeRouter cfg p req hm)
      (emits_andThen (emits_doFilter p req _ BEFORE_ROUTER (fun idx n hh => by cases hh))
        (emits_afterRouter cfg p req))
  have hinit : ∀ e ∈ (serveBody cfg p req (initCtx req)).1.trace, notHttpError e := by
    intro e he
    rcases hb _ e he with h | h
    · simp [initCtx] at h
    · exact h
  intro e he
  unfold ServeHTTP recoverStage at he
  split at he
  · rename_i c v hs
    rw [hs] at hinit
    split_ifs at he
    · simp only [Ctx.log, List.mem_append, List.mem_singleton] at he
      rcases he with he | he
      · exact hinit e he
      · subst he; intro n hh; cases hh
    · simp only [Ctx.log, List.mem_append, List.mem_singleton] at he
      rcases he with (he | he) | he
      · exact hinit e he
      · subst he; intro n hh; cases hh
      · subst he; intro n hh; cases hh
  · rename_i c fl hs
    rw [hs] at hinit
    exact hinit e he

/-- For a method outside the allow-list `ServeHTTP` answers 405 and returns
right after the session start. -/
theorem serveHTTP_not_allowed (cfg : Config) (p : ControllerRegistor) (req : Request)
    (hm : allowed req.Method = false) :
    ServeHTTP cfg p req =
      { initCtx req with
          started := true,
          trace := (if cfg.sessionOn && decide (cfg.runMode = "web".toList)
                    then [Event.sessionStart] else []) ++ [.httpError 405] } := by
  have hm1 : InSlice (ToLower req.Method) HTTPMETHOD = false := hm
  unfold ServeHTTP serveBody beforeRouter
  by_cases hs : cfg.sessionOn = true ∧ cfg.runMode = ['w', 'e', 'b']
  · simp [andThen, hs, hm1, recoverStage, Ctx.log, Ctx.start, initCtx]
  · simp [andThen, hs, hm1, recoverStage, Ctx.log, Ctx.start, initCtx]

/-! ### C12 -/

theorem getRunMethod_eq (method : Str) (form : List (Str × List Str)) (r : controllerInfo) :
    getRunMethod method form r =
      if r.hasMethod then chain r.methods (effectiveVerb method form)
      else Title (effectiveVerb method form) := by
  unfold getRunMethod getRunMethodOf effectiveVerb chain
  by_cases h1 : ToLower method = "post".toList
  · by_cases h2 : ToLower (valuesGet form "_method".toList) = "put".toList
    · simp only [String.toList] at h1 h2
      simp [h1, h2]
    · by_cases h3 : ToLower (valuesGet form "_method".toList) = "delete".toList
      · simp only [String.toList] at h1 h2 h3
        simp [h1, h2, h3]
      · simp only [String.toList] at h1 h2 h3
        simp [h1, h2, h3]
  · simp only [String.toList] at h1
    simp [h1]

/-- C12: for every route with a method map, a method that lower-cases to
`post` with a form field `_method` that lower-cases to `put` is resolved as
the verb `put` (the map's entry for `put` when there is one), and likewise
for `delete`; for a method that does not lower-case to `post` the form has
no effect.  The allow-list check of line 467 reads `r.Method` only: a
request whose method lower-cases to `post` is never answered 405, whatever
its form, and the answer to a method outside the list does not depend on
the form. -/
theorem C12_method_override (r : controllerInfo) (method : Str) (form : List (Str × List Str))
    (hr : r.hasMethod = true) :
    (ToLower method = "post".toList →
      ToLower (valuesGet form "_method".toList) = "put".toList →
        getRunMethod method form r = chain r.methods "put".toList ∧
        ∀ m, mapGet? r.methods "put".toList = some m → getRunMethod method form r = m) ∧
    (ToLower method = "post".toList →
      ToLower (valuesGet form "_method".toList) = "delete".toList →
        getRunMethod method form r = chain r.methods "delete".toList ∧
        ∀ m, mapGet? r.methods "delete".toList = some m → getRunMethod method form r = m) ∧
    (ToLower method ≠ "post".toList →
      ∀ form1, getRunMethod method form1 r = getRunMethod method form r) ∧
    (ToLower method = "post".toList →
      allowed method = true ∧
      ∀ (cfg : Config) (p : ControllerRegistor) (req : Request), req.Method = method →
        ∀ code, Event.httpError code ∉ (ServeHTTP cfg p req).trace) ∧
    (∀ (cfg : Config) (p : ControllerRegistor) (req : Request) (form1 : List (Str × List Str)),
      allowed req.Method = false →
        ServeHTTP cfg p { req with Form := form1 } = ServeHTTP cfg p req) := by
  have hdp : ¬ "delete".toList = "put".toList := by decide
  refine ⟨?_, ?_, ?_, ?_, ?_⟩
  · intro h1 h2
    have he : effectiveVerb method form = "put".toList := by
      simp only [effectiveVerb, h1, h2, and_self, if_true]
    have hg : getRunMethod method form r = chain r.methods "put".toList := by
      rw [getRunMethod_eq, he, hr]; rfl
    refine ⟨hg, fun m hm => ?_⟩
    rw [hg]
    simp only [chain, hm]
  · intro h1 h2
    have h3 : ¬ ToLower (valuesGet form "_method".toList) = "put".toList := by
      rw [h2]; exact hdp
    have he : effectiveVerb method form = "delete".toList := by
      simp only [effectiveVerb, h1, h2, hdp, and_self, and_false, if_true, if_false]
    have hg : getRunMethod method form r = chain r.methods "delete".toList := by
      rw [getRunMethod_eq, he, hr]; rfl
    refine ⟨hg, fun m hm => ?_⟩
    rw [hg]
    simp only [chain, hm]
  · intro h1 form1
    have e : ∀ f, effectiveVerb method f = ToLower method := by
      intro f
      simp only [effectiveVerb, h1, false_and, if_false]
    rw [getRunMethod_eq, getRunMethod_eq, e, e]
  · intro h1
    have ha : allowed method = true := by
      simp only [allowed, h1]
      decide
    refine ⟨ha, ?_⟩
    intro cfg p req hreq code hmem
    exact serveHTTP_no_httpError cfg p req (hreq ▸ ha) _ hmem code rfl
  · intro cfg p req form1 hm
    have e1 := serveHTTP_not_allowed cfg p { req with Form := form1 } hm
    have e2 := serveHTTP_not_allowed cfg p req hm
    rw [e1, e2]
    rfl

/-- Witness of `C12_method_override`: a method map with entries for `put`
and `delete`, and a POST whose `_method` is `PUT`. -/
theorem C12_method_override_witness :
    getRunMethod "POST".toList [("_method".toList, ["PUT".toList])]
      ⟨"/api".toList, none, [], 7,
        [("put".toList, "UpdateFood".toList), ("delete".toList, "DeleteFood".toList)], true⟩
      = "UpdateFood".toList :=
  ((C12_method_override
      ⟨"/api".toList, none, [], 7,
        [("put".toList, "UpdateFood".toList), ("delete".toList, "DeleteFood".toList)], true⟩
      "POST".toList [("_method".toList, ["PUT".toList])] rfl).1 (by decide) (by decide)).2
    "UpdateFood".toList (by decide)

/-! ### C13 -/

/-- C13 (code): `Add` never reads its mapping arguments.  The call
`Add("/api/create", c, "post:CreateFood")` stores the same route as
`Add("/api/create", c)`: an empty method map and `hasMethod = false`, so
that a POST resolves to `Post`, not to `CreateFood`, and a GET, which the
mapping does not list, resolves to `Get`. -/
theorem C13_mapping_ignored :
    (∀ (p : ControllerRegistor) (pattern : Str) (t : ReflectType) (mm : List Str),
      Add p pattern t mm = Add p pattern t []) ∧
    createFoodApp.fixrouters = [⟨"/api/create".toList, none, [], 7, [], false⟩] ∧
    createFoodApp.routers = [] ∧
    getRunMethod "POST".toList [] ⟨"/api/create".toList, none, [], 7, [], false⟩
      = "Post".toList ∧
    getRunMethod "GET".toList [] ⟨"/api/create".toList, none, [], 7, [], false⟩
      = "Get".toList ∧
    (resolve createFoodApp (plainRequest "POST".toList "/api/create".toList)
        (initCtx (plainRequest "POST".toList "/api/create".toList))).1.runMethod
      = "Post".toList ∧
    (resolve createFoodApp (plainRequest "GET".toList "/api/create".toList)
        (initCtx (plainRequest "GET".toList "/api/create".toList))).1.findrouter = true :=
  ⟨fun _ _ _ _ => rfl, by decide, by decide, by decide, by decide, by decide, by decide⟩

/-! ### C14 -/

/-- C14: for every route, method and form, with `e` the verb looked up (the
lower-cased method, but for the override of a `post`): when the route has
a method map, `getRunMethod` returns the map's entry for `e` when there is
one, else the entry for `*` when there is one, else the empty string; when
it has none, it returns `e` title-cased, which for an allowed method is one
of `Get`, `Post`, `Put`, `Delete`, `Patch`, `Options`, `Head`.  Without a
form field `_method`, or for a method other than `post`, `e` is the
lower-cased method. -/
theorem C14_method_chain (r : controllerInfo) (method : Str) (form : List (Str × List Str)) :
    (r.hasMethod = true → ∀ m, mapGet? r.methods (effectiveVerb method form) = some m →
      getRunMethod method form r = m) ∧
    (r.hasMethod = true → mapGet? r.methods (effectiveVerb method form) = none →
      ∀ m, mapGet? r.methods "*".toList = some m → getRunMethod method form r = m) ∧
    (r.hasMethod = true → mapGet? r.methods (effectiveVerb method form) = none →
      mapGet? r.methods "*".toList = none → getRunMethod method form r = []) ∧
    (r.hasMethod = false → getRunMethod method form r = Title (effectiveVerb method form)) ∧
    (valuesGet form "_method".toList = [] ∨ ToLower method ≠ "post".toList →
      effectiveVerb method form = ToLower method) ∧
    (allowed method = true →
      Title (effectiveVerb method form) ∈
        ["Get".toList, "Post".toList, "Put".toList, "Delete".toList, "Patch".toList,
         "Options".toList, "Head".toList]) := by
  refine ⟨?_, ?_, ?_, ?_, ?_, ?_⟩
  · intro hr m hm
    rw [getRunMethod_eq, hr]
    simp only [if_true, chain, hm]
  · intro hr hn m hm
    rw [getRunMethod_eq, hr]
    simp only [if_true, chain, hn, hm]
  · intro hr hn hs
    rw [getRunMethod_eq, hr]
    simp only [if_true, chain, hn, hs]
  · intro hr
    rw [getRunMethod_eq, hr]
    simp
  · intro h
    rcases h with h | h
    · have h1 : ¬ ToLower ([] : Str) = "put".toList := by decide
      have h2 : ¬ ToLower ([] : Str) = "delete".toList := by decide
      simp only [effectiveVerb, h, h1, h2, and_false, if_false]
    · simp only [effectiveVerb, h, false_and, if_false]
  · intro ha
    have hmem : ToLower method ∈ HTTPMETHOD := (inSlice_iff _ _).mp ha
    unfold effectiveVerb
    split_ifs
    · decide
    · decide
    · simp only [HTTPMETHOD, List.mem_cons, List.mem_singleton, List.not_mem_nil, or_false] at hmem
      rcases hmem with h | h | h | h | h | h | h <;> rw [h] <;> decide

/-- Witness of `C14_method_chain`: a GET on a route with the map
`post -> CreateFood`, `* -> Any` falls back to the entry for `*`. -/
theorem C14_method_chain_witness :
    getRunMethod "GET".toList []
      ⟨"/api".toList, none, [], 7,
        [("post".toList, "CreateFood".toList), ("*".toList, "Any".toList)], true⟩
      = "Any".toList :=
  (C14_method_chain
      ⟨"/api".toList, none, [], 7,
        [("post".toList, "CreateFood".toList), ("*".toList, "Any".toList)], true⟩
      "GET".toList []).2.1 rfl (by decide) "Any".toList (by decide)

/-! ### C15 -/

/-- C15: for every request whose lower-cased method is not in `HTTPMETHOD`,
`ServeHTTP` answers 405 through `http.Error` and returns: apart from the
session start of lines 462-464 nothing else happens (no filter of any stage
runs, no route is resolved, no controller is instantiated).  For every
method in the list no stage answers through `http.Error`: the 405 branch is
not taken. -/
theorem C15_method_allow_list (cfg : Config) (p : ControllerRegistor) (req : Request) :
    (allowed req.Method = false →
      ServeHTTP cfg p req =
        { initCtx req with
            started := true,
            trace := (if cfg.sessionOn && decide (cfg.runMode = "web".toList)
                      then [Event.sessionStart] else []) ++ [.httpError 405] }) ∧
    (allowed req.Method = true →
      ∀ code, Event.httpError code ∉ (ServeHTTP cfg p req).trace) ∧
    (allowed req.Method = true ↔
      ToLower req.Method ∈ ["get".toList, "post".toList, "put".toList, "delete".toList,
        "patch".toList, "options".toList, "head".toList]) := by
  refine ⟨serveHTTP_not_allowed cfg p req, ?_, ?_⟩
  · intro hm code hmem
    exact serveHTTP_no_httpError cfg p req hm _ hmem code rfl
  · exact inSlice_iff _ _

/-- Witness of `C15_method_allow_list`: a `TRACE` request to an application
with a filter and a route. -/
theorem C15_method_allow_list_witness :
    (ServeHTTP plainConfig shortCircuitApp (plainRequest "TRACE".toList "/a".toList)).trace
      = [.httpError 405] ∧
    Event.httpError 405
      ∉ (ServeHTTP plainConfig shortCircuitApp (plainRequest "GET".toList "/a".toList)).trace := by
  have h := C15_method_allow_list plainConfig shortCircuitApp
    (plainRequest "TRACE".toList "/a".toList)
  have h2 := C15_method_allow_list plainConfig shortCircuitApp
    (plainRequest "GET".toList "/a".toList)
  refine ⟨?_, h2.2.1 (by decide) 405⟩
  rw [h.1 (by decide)]
  rfl

/-! ### C16 -/

theorem mapGet?_mapSet {κ ν : Type} [DecidableEq κ] (m : List (κ × ν)) (k k1 : κ) (v : ν) :
    mapGet? (mapSet m k v) k1 = if k1 = k then some v else mapGet? m k1 := by
  induction m with
  | nil =>
    by_cases h : k = k1
    · subst h; simp [mapSet, mapGet?]
    · have h1 : ¬ k1 = k := fun e => h e.symm
      simp [mapSet, mapGet?, h, h1]
  | cons e m ih =>
    obtain ⟨k2, v2⟩ := e
    by_cases h2 : k2 = k
    · subst h2
      by_cases h : k2 = k1
      · subst h; simp [mapSet, mapGet?]
      · have h1 : ¬ k1 = k2 := fun e => h e.symm
        simp [mapSet, mapGet?, h, h1]
    · by_cases h : k2 = k1
      · subst h
        have h1 : ¬ k2 = k := h2
        simp [mapSet, mapGet?, h2]
      · simp [mapSet, mapGet?, h2, h, ih]

/-- `url.Values.Add` keeps the first value of a key that has one. -/
theorem valuesAdd_head (q : List (Str × List Str)) (k v n x : Str) (xs : List Str)
    (h : mapGet? q n = some (x :: xs)) :
    ∃ ys, mapGet? (valuesAdd q k v) n = some (x :: ys) := by
  unfold valuesAdd
  rw [mapGet?_mapSet]
  by_cases hk : n = k
  · subst hk
    simp [h]
  · simp [hk, h]

theorem bindLoop_head (rp : List (Nat × Str)) (gs : List Str) :
    ∀ (i : Nat) (acc : List (Str × List Str) × List (Str × Str)) (n x : Str) (xs : List Str),
      mapGet? acc.1 n = some (x :: xs) →
        ∃ ys, mapGet? (bindLoop rp gs i acc).1 n = some (x :: ys) := by
  induction gs with
  | nil => intro i acc n x xs h; exact ⟨xs, h⟩
  | cons m ms ih =>
    intro i acc n x xs h
    obtain ⟨ys, hy⟩ := valuesAdd_head acc.1 (mapGet rp i) m n x xs h
    exact ih (i + 1) _ n x ys hy

theorem valuesGet_of_head (q : List (Str × List Str)) (n x : Str) (ys : List Str)
    (h : mapGet? q n = some (x :: ys)) : valuesGet q n = x := by
  simp [valuesGet, h]

theorem bindLoop_params_keep (rp : List (Nat × Str)) (gs : List Str) :
    ∀ (i : Nat) (acc : List (Str × List Str) × List (Str × Str)) (n : Str),
      (∀ a, i ≤ a → a < i + gs.length → mapGet rp a ≠ n) →
        mapGet? (bindLoop rp gs i acc).2 n = mapGet? acc.2 n := by
  induction gs with
  | nil => intro i acc n _; rfl
  | cons m ms ih =>
    intro i acc n hn
    simp only [bindLoop]
    rw [ih (i + 1) _ n (fun a h1 h2 => hn a (by omega) (by simp only [List.length_cons]; omega))]
    simp only [mapGet?_mapSet]
    have h0 : ¬ n = mapGet rp i :=
      fun e => hn i (le_refl _) (by simp only [List.length_cons]; omega) e.symm
    simp [h0]

/-- With distinct names, the loop of lines 558-561 leaves group `j` as
the first query value of its name when the query had none, and binds the
name to it in `params`. -/
theorem bindLoop_fresh (rp : List (Nat × Str)) (gs : List Str) :
    ∀ (i : Nat) (acc : List (Str × List Str) × List (Str × Str)),
      (∀ a b, i ≤ a → a < b → b < i + gs.length → mapGet rp a ≠ mapGet rp b) →
      ∀ (j : Nat) (hj : j < gs.length),
        ((mapGet? acc.1 (mapGet rp (i + j)) = none ∨ mapGet? acc.1 (mapGet rp (i + j)) = some []) →
          valuesGet (bindLoop rp gs i acc).1 (mapGet rp (i + j)) = gs[j]) ∧
        mapGet? (bindLoop rp gs i acc).2 (mapGet rp (i + j)) = some gs[j] := by
  induction gs with
  | nil => intro i acc _ j hj; simp at hj
  | cons m ms ih =>
    intro i acc hnd j hj
    cases j with
    | zero =>
      simp only [bindLoop, Nat.add_zero, List.getElem_cons_zero]
      constructor
      · intro h0
        have h1 : mapGet? (valuesAdd acc.1 (mapGet rp i) m) (mapGet rp i) = some (m :: []) := by
          unfold valuesAdd
          rw [mapGet?_mapSet]
          rcases h0 with h0 | h0 <;> simp [h0]
        obtain ⟨ys, hy⟩ := bindLoop_head rp ms (i + 1)
          (valuesAdd acc.1 (mapGet rp i) m, mapSet acc.2 (mapGet rp i) m) (mapGet rp i) m [] h1
        exact valuesGet_of_head _ _ _ ys hy
      · rw [bindLoop_params_keep rp ms (i + 1) _ (mapGet rp i)
          (fun a h1 h2 => (hnd i a (le_refl _) (by omega)
            (by simp only [List.length_cons]; omega)).symm)]
        simp [mapGet?_mapSet]
    | succ j =>
      have hj1 : j < ms.length := by simpa using hj
      have hne : ¬ mapGet rp (i + (j + 1)) = mapGet rp i :=
        fun e => hnd i (i + (j + 1)) (le_refl _) (by omega)
          (by simp only [List.length_cons]; omega) e.symm
      have step := ih (i + 1) (valuesAdd acc.1 (mapGet rp i) m, mapSet acc.2 (mapGet rp i) m)
        (fun a b h1 h2 h3 => hnd a b (by omega) h2 (by simp only [List.length_cons]; omega)) j hj1
      have e : i + 1 + j = i + (j + 1) := by omega
      rw [e] at step
      simp only [bindLoop, List.getElem_cons_succ]
      refine ⟨fun h0 => step.1 ?_, step.2⟩
      unfold valuesAdd
      simp only [mapGet?_mapSet, hne, if_false]
      exact h0

/-- C16 (amended): when a pattern route with distinct parameter names
accepts the path and yields a run method, the route is found and each
name `n` with captured value `v` is bound to `v` in `Input.Params`; a
lookup of `n` in the query values returns `v` when the original query
carried no value for `n`, and the original first value when it carried
one (`values.Add` appends after it). -/
theorem C16_route_params_merge (req : Request) (r : controllerInfo) (rest : List controllerInfo)
    (re : Regex) (gs : List Str) (c : Ctx)
    (hre : r.regex = some re) (hacc : acceptRoute re req.Path = some gs)
    (hpar : 0 < r.params.length) (hrun : getRunMethod req.Method req.Form r ≠ [])
    (hnd : ∀ a b, a < b → b < gs.length → mapGet r.params a ≠ mapGet r.params b)
    (j : Nat) (hj : j < gs.length) :
    (patLoop req (r :: rest) c).1.findrouter = true ∧
    mapGet? (patLoop req (r :: rest) c).1.InputParams (mapGet r.params j) = some gs[j] ∧
    ((mapGet? c.RawQuery (mapGet r.params j) = none
        ∨ mapGet? c.RawQuery (mapGet r.params j) = some []) →
      valuesGet (patLoop req (r :: rest) c).1.RawQuery (mapGet r.params j) = gs[j]) ∧
    (∀ x xs, mapGet? c.RawQuery (mapGet r.params j) = some (x :: xs) →
      valuesGet (patLoop req (r :: rest) c).1.RawQuery (mapGet r.params j) = x) := by
  have fresh := bindLoop_fresh r.params gs 0 (c.RawQuery, c.params)
    (fun a b _ h2 h3 => hnd a b h2 (by omega)) j hj
  simp only [Nat.zero_add] at fresh
  have e : patLoop req (r :: rest) c =
      ({ c with trace := c.trace ++ [.matchString r.pattern],
                RawQuery := (bindLoop r.params gs 0 (c.RawQuery, c.params)).1,
                params := (bindLoop r.params gs 0 (c.RawQuery, c.params)).2,
                runMethod := getRunMethod req.Method req.Form r,
                runrouter := some r.controllerType,
                InputParams := (bindLoop r.params gs 0 (c.RawQuery, c.params)).2,
                findrouter := true }, .cont) := by
    simp [patLoop_cons, hre, hacc, hpar, hrun, Ctx.log]
  rw [e]
  refine ⟨rfl, fresh.2, fresh.1, ?_⟩
  intro x xs hx
  obtain ⟨ys, hy⟩ := bindLoop_head r.params gs 0 (c.RawQuery, c.params) _ x xs hx
  exact valuesGet_of_head _ _ _ ys hy

/-- Witness of `C16_route_params_merge`: `GET /user/42` on the route
stored by `Add("/user/:id", c)`, without a query string. -/
theorem C16_route_params_merge_witness :
    (single "/user/:id".toList 7).routers =
      [⟨"/user/(.*)".toList, some (.cat (.chr '/') (.cat (.chr 'u') (.cat (.chr 's')
          (.cat (.chr 'e') (.cat (.chr 'r') (.cat (.chr '/') (.group 1 (.star .dot)))))))),
        [(0, ":id".toList)], 7, [], false⟩] ∧
    valuesGet (patLoop (plainRequest "GET".toList "/user/42".toList)
        [⟨"/user/(.*)".toList, some (.cat (.chr '/') (.cat (.chr 'u') (.cat (.chr 's')
            (.cat (.chr 'e') (.cat (.chr 'r') (.cat (.chr '/') (.group 1 (.star .dot)))))))),
          [(0, ":id".toList)], 7, [], false⟩]
        (initCtx (plainRequest "GET".toList "/user/42".toList))).1.RawQuery ":id".toList
      = "42".toList :=
  ⟨by decide,
   (C16_route_params_merge (plainRequest "GET".toList "/user/42".toList)
    ⟨"/user/(.*)".toList, some (.cat (.chr '/') (.cat (.chr 'u') (.cat (.chr 's')
        (.cat (.chr 'e') (.cat (.chr 'r') (.cat (.chr '/') (.group 1 (.star .dot)))))))),
      [(0, ":id".toList)], 7, [], false⟩ []
    (.cat (.chr '/') (.cat (.chr 'u') (.cat (.chr 's')
        (.cat (.chr 'e') (.cat (.chr 'r') (.cat (.chr '/') (.group 1 (.star .dot))))))))
    ["42".toList] (initCtx (plainRequest "GET".toList "/user/42".toList))
    rfl (by decide) (by decide) (by decide)
    (fun a b h1 h2 => absurd h2 (by simp only [List.length_singleton]; omega))
    0 (by decide)).2.2.1 (Or.inl (by decide))⟩

/-- C16 (counterexample): with the single route `/user/:id`, the request
`GET /user/42?:id=7` is routed with `:id` bound to `42`, and a lookup of
`:id` in its query values returns `7`, the value of the original query
string. -/
theorem C16_query_value_is_not_overwritten :
    (resolve (single "/user/:id".toList 7) shadowedRequest (initCtx shadowedRequest)).1.findrouter
      = true ∧
    (resolve (single "/user/:id".toList 7) shadowedRequest (initCtx shadowedRequest)).1.InputParams
      = [(":id".toList, "42".toList)] ∧
    (resolve (single "/user/:id".toList 7) shadowedRequest (initCtx shadowedRequest)).1.RawQuery
      = [(":id".toList, ["7".toList, "42".toList])] ∧
    valuesGet (resolve (single "/user/:id".toList 7) shadowedRequest
        (initCtx shadowedRequest)).1.RawQuery ":id".toList = "7".toList := by
  decide

/-! ### C17 -/

/-- C17 (code): the fragment stored for a segment `*.*` is
`([^.]+).([^.]+)`, whose separator is the regular-expression dot.  With the
single route `Add("/*.*", c)`, the path `/aXb`, which holds no dot, is
routed with `:path = a` and `:ext = b`, as is `/a.b`. -/
theorem C17_separator_is_any_character :
    (single "/*.*".toList 7).routers =
      [⟨"/([^.]+).([^.]+)".toList,
        some (.cat (.chr '/') (.cat (.group 1 (.plus (.set true [('.', '.')])))
          (.cat .dot (.group 2 (.plus (.set true [('.', '.')])))))),
        [(0, ":path".toList), (1, ":ext".toList)], 7, [], false⟩] ∧
    (resolve (single "/*.*".toList 7) (plainRequest "GET".toList "/aXb".toList)
        (initCtx (plainRequest "GET".toList "/aXb".toList))).1.findrouter = true ∧
    (resolve (single "/*.*".toList 7) (plainRequest "GET".toList "/aXb".toList)
        (initCtx (plainRequest "GET".toList "/aXb".toList))).1.InputParams
      = [(":path".toList, "a".toList), (":ext".toList, "b".toList)] ∧
    (resolve (single "/*.*".toList 7) (plainRequest "GET".toList "/a.b".toList)
        (initCtx (plainRequest "GET".toList "/a.b".toList))).1.InputParams
      = [(":path".toList, "a".toList), (":ext".toList, "b".toList)] := by
  decide

/-! ### C18 -/

/-- The effect of `Add` for a pattern without parameter token, for any
`regexp.Compile`. -/
theorem addWith_fixed {ρ : Type} (compile : Str → Option ρ) (p : ControllerRegistorOf ρ)
    (pattern : Str) (t : ReflectType) (mm : List Str) (h : (paramNames pattern).length = 0) :
    AddWith compile p pattern t mm =
      { p with fixrouters := p.fixrouters ++ [⟨pattern, none, [], t, [], false⟩] } := by
  have hj : (addLoop (Split '/' pattern) [] 0).2.2 = 0 := by rw [addLoop_count, h]
  simp [AddWith, hj]

/-- C18: the effect of `Add` on the route table, whatever `regexp.Compile`
(the parameter `compile`, `none` being its error result) makes of the
rewritten pattern.  A pattern without parameter token appends one fixed
route, with the pattern as written and no regex, at the end of
`fixrouters`; a pattern with a token whose rewritten form compiles appends
one route, holding the compiled expression, at the end of `routers`; a
pattern with a token whose rewritten form `regexp.Compile` rejects leaves
the registrar unchanged, and a later `Add` then behaves as on the registrar
before.  In every case the former entries are a prefix of the new
collections, at most one entry is added in all, and the filters are
untouched. -/
theorem C18_add_effect {ρ : Type} (compile : Str → Option ρ) (p : ControllerRegistorOf ρ)
    (pattern : Str) (t : ReflectType) (mm : List Str) :
    ((paramNames pattern).length = 0 →
      AddWith compile p pattern t mm =
        { p with fixrouters := p.fixrouters ++ [⟨pattern, none, [], t, [], false⟩] }) ∧
    (1 ≤ (paramNames pattern).length → ∀ re, compile (rewritten pattern) = some re →
      AddWith compile p pattern t mm =
        { p with routers := p.routers ++
            [⟨rewritten pattern, some re, (addLoop (Split '/' pattern) [] 0).2.1, t, [],
              false⟩] }) ∧
    (1 ≤ (paramNames pattern).length → compile (rewritten pattern) = none →
      AddWith compile p pattern t mm = p ∧
      ∀ pattern2 t2 mm2,
        AddWith compile (AddWith compile p pattern t mm) pattern2 t2 mm2
          = AddWith compile p pattern2 t2 mm2) ∧
    p.fixrouters <+: (AddWith compile p pattern t mm).fixrouters ∧
    p.routers <+: (AddWith compile p pattern t mm).routers ∧
    (AddWith compile p pattern t mm).fixrouters.length
        + (AddWith compile p pattern t mm).routers.length
      ≤ p.fixrouters.length + p.routers.length + 1 ∧
    (AddWith compile p pattern t mm).filters = p.filters ∧
    (AddWith compile p pattern t mm).enableFilter = p.enableFilter := by
  have hrw : Join "/".toList (addLoop (Split '/' pattern) [] 0).1 = rewritten pattern := by
    rw [(addLoop_spec (Split '/' pattern) [] 0 rfl).1]; rfl
  have hb : 1 ≤ (paramNames pattern).length → ∀ re, compile (rewritten pattern) = some re →
      AddWith compile p pattern t mm =
        { p with routers := p.routers ++
            [⟨rewritten pattern, some re, (addLoop (Split '/' pattern) [] 0).2.1, t, [],
              false⟩] } := by
    intro h re hc
    have hj : ¬ (addLoop (Split '/' pattern) [] 0).2.2 = 0 := by rw [addLoop_count]; omega
    simp only [AddWith, hj, if_false, hrw, hc]
    simp
  have hc : 1 ≤ (paramNames pattern).length → compile (rewritten pattern) = none →
      AddWith compile p pattern t mm = p := by
    intro h hc
    have hj : ¬ (addLoop (Split '/' pattern) [] 0).2.2 = 0 := by rw [addLoop_count]; omega
    simp only [AddWith, hj, if_false, hrw, hc]
  refine ⟨addWith_fixed compile p pattern t mm, hb,
    fun h hn => ⟨hc h hn, fun _ _ _ => by rw [hc h hn]⟩, ?_, ?_, ?_, ?_, ?_⟩ <;>
  · rcases Nat.eq_zero_or_pos (paramNames pattern).length with h0 | h1
    · rw [addWith_fixed compile p pattern t mm h0] <;> first | (simp; done) | (simp only [List.length_append, List.length_singleton]; omega)
    · cases hre : compile (rewritten pattern) with
      | none => rw [hc h1 hre] <;> omega
      | some re =>
        rw [hb h1 re hre] <;> first | (simp; done) | (simp only [List.length_append, List.length_singleton]; omega)

/-- Witness of `C18_add_effect`, with the modelled `regexp.Compile`: `/a` has
no token, the rewritten form `/([0-9]+)` of `/:id:int` compiles, the
rewritten form `/(a` of `/:id(a` lacks its closing parenthesis and is
rejected, and `/b` added after it is registered as on a new registrar. -/
theorem C18_add_effect_witness :
    single "/a".toList 1
      = { NewControllerRegistor with fixrouters := [⟨"/a".toList, none, [], 1, [], false⟩] } ∧
    single "/:id:int".toList 2
      = { NewControllerRegistor with
          routers := [⟨"/([0-9]+)".toList,
            some (.cat (.chr '/') (.group 1 (.plus (.set false [('0', '9')])))),
            [(0, ":id".toList)], 2, [], false⟩] } ∧
    (rewritten "/:id(a".toList = "/(a".toList ∧
      single "/:id(a".toList 3 = NewControllerRegistor ∧
      Add (single "/:id(a".toList 3) "/b".toList 4 [] = single "/b".toList 4) :=
  ⟨(C18_add_effect Compile NewControllerRegistor "/a".toList 1 []).1 (by decide),
   (C18_add_effect Compile NewControllerRegistor "/:id:int".toList 2 []).2.1 (by decide) _
     (by decide),
   ⟨by decide,
    ((C18_add_effect Compile NewControllerRegistor "/:id(a".toList 3 []).2.2.1 (by decide)
       (by decide)).1,
    ((C18_add_effect Compile NewControllerRegistor "/:id(a".toList 3 []).2.2.1 (by decide)
       (by decide)).2 "/b".toList 4 []⟩⟩

/-! ### C19 -/

theorem getErrorHandler_ne_nil (em : List (Str × Handler)) (code : Str) :
    getErrorHandler em code ≠ .nil := by
  by_cases hc : code = []
  · simp [getErrorHandler, hc]
  · cases hm : mapGet? em code with
    | some h => cases h <;> simp [getErrorHandler, hc, hm]
    | none =>
      cases h5 : mapGet? em ['5', '0', '0'] with
      | some h => cases h <;> simp [getErrorHandler, hc, hm, h5]
      | none => simp [getErrorHandler, hc, hm, h5]

/-- C19 (amended): for a non-empty code, `getErrorHandler` returns the
handler stored in `ErrorMaps` under the code when that handler is not nil;
when the code has no entry, the non-nil handler stored under `500`; and
`SimpleServerError` when neither entry exists, or when the entry consulted
holds nil.  For the empty code it returns `SimpleServerError` whatever is
registered.  It never returns nil. -/
theorem C19_error_handler_lookup (em : List (Str × Handler)) (code : Str) :
    (code ≠ [] → ∀ h, mapGet? em code = some h → h ≠ .nil → getErrorHandler em code = h) ∧
    (code ≠ [] → mapGet? em code = none → ∀ h, mapGet? em "500".toList = some h → h ≠ .nil →
      getErrorHandler em code = h) ∧
    (code ≠ [] → mapGet? em code = none → mapGet? em "500".toList = none →
      getErrorHandler em code = .SimpleServerError) ∧
    (code ≠ [] → mapGet? em code = some .nil → getErrorHandler em code = .SimpleServerError) ∧
    (code ≠ [] → mapGet? em code = none → mapGet? em "500".toList = some .nil →
      getErrorHandler em code = .SimpleServerError) ∧
    getErrorHandler em [] = .SimpleServerError ∧
    getErrorHandler em code ≠ .nil := by
  refine ⟨?_, ?_, ?_, ?_, ?_, ?_, ?_⟩
  · intro hc h hm hn
    simp [getErrorHandler, hc, hm, hn]
  · intro hc hm h h5 hn
    have h5' : mapGet? em ['5', '0', '0'] = some h := h5
    simp [getErrorHandler, hc, hm, h5', hn]
  · intro hc hm h5
    have h5' : mapGet? em ['5', '0', '0'] = none := h5
    simp [getErrorHandler, hc, hm, h5']
  · intro hc hm
    simp [getErrorHandler, hc, hm]
  · intro hc hm h5
    have h5' : mapGet? em ['5', '0', '0'] = some .nil := h5
    simp [getErrorHandler, hc, hm, h5']
  · simp [getErrorHandler]
  · exact getErrorHandler_ne_nil em code

/-- Witness of `C19_error_handler_lookup`: with handlers registered under
`404` and `500`, the code `404` gets its own handler and the code `418` the
one of `500`. -/
theorem C19_error_handler_lookup_witness :
    getErrorHandler [("404".toList, .registered 1), ("500".toList, .registered 2)] "404".toList
      = .registered 1 ∧
    getErrorHandler [("404".toList, .registered 1), ("500".toList, .registered 2)] "418".toList
      = .registered 2 :=
  ⟨(C19_error_handler_lookup [("404".toList, .registered 1), ("500".toList, .registered 2)]
      "404".toList).1 (by decide) _ (by decide) (by decide),
   (C19_error_handler_lookup [("404".toList, .registered 1), ("500".toList, .registered 2)]
      "418".toList).2.1 (by decide) (by decide) _ (by decide) (by decide)⟩

/-- C19 (counterexample): with a handler registered under `500`, the empty
code gets `SimpleServerError`, not that handler. -/
theorem C19_empty_code_skips_500 :
    mapGet? [("500".toList, Handler.registered 2)] ([] : Str) = none ∧
    mapGet? [("500".toList, Handler.registered 2)] "500".toList = some (.registered 2) ∧
    getErrorHandler [("500".toList, .registered 2)] [] = .SimpleServerError := by
  decide

/-! ### C20 -/

/-- C20 (amended): when the body of `ServeHTTP` panics with the value `v`,
the deferred function recovers it; when `v` is not a
`middleware.HTTPException` it then calls the handler
`getErrorHandler (fmt.Sprint v)`, which is not nil, and that call is the
last thing the request does; when `v` is a `middleware.HTTPException` it
calls no handler and the recovery is the last thing the request does.  When
the body does not panic, nothing is recovered. -/
theorem C20_panic_guard (cfg : Config) (p : ControllerRegistor) (req : Request) (c : Ctx)
    (fl : Flow) (h : serveBody cfg p req (initCtx req) = (c, fl)) :
    (∀ v, fl = .panic v → v.isHTTPException = false →
      ServeHTTP cfg p req =
        { c with trace := c.trace ++
            [.recover v, .errorHandler (getErrorHandler cfg.ErrorMaps v.text)] } ∧
      getErrorHandler cfg.ErrorMaps v.text ≠ .nil) ∧
    (∀ v, fl = .panic v → v.isHTTPException = true →
      ServeHTTP cfg p req = { c with trace := c.trace ++ [.recover v] }) ∧
    ((∀ v, fl ≠ .panic v) → ServeHTTP cfg p req = c) := by
  refine ⟨?_, ?_, ?_⟩
  · intro v hv hx
    subst hv
    refine ⟨?_, ?_⟩
    · simp [ServeHTTP, h, recoverStage, hx, Ctx.log]
    · exact getErrorHandler_ne_nil _ _
  · intro v hv hx
    subst hv
    simp [ServeHTTP, h, recoverStage, hx, Ctx.log]
  · intro hv
    cases fl with
    | cont => simp [ServeHTTP, h, recoverStage]
    | ret => simp [ServeHTTP, h, recoverStage]
    | panic v => exact absurd rfl (hv v)

/-- Witness of `C20_panic_guard`: with the fixed route `/a` registered, a
GET request with the empty path panics at `requestPath[n-1]`; the panic is
recovered and `SimpleServerError` is called. -/
theorem C20_panic_guard_witness :
    (ServeHTTP plainConfig (register [("/a".toList, 2)]) (plainRequest "GET".toList [])).trace
      = [.recover indexPanic, .errorHandler .SimpleServerError] :=
  congrArg Ctx.trace
    ((C20_panic_guard plainConfig (register [("/a".toList, 2)]) (plainRequest "GET".toList [])
      (initCtx (plainRequest "GET".toList [])) (.panic indexPanic) (by decide)).1
        indexPanic rfl rfl).1

/-- C20 (counterexample): a filter that panics with a
`middleware.HTTPException` ends the request; the panic is recovered and no
error handler is called. -/
theorem C20_http_exception_has_no_handler :
    (serveBody plainConfig forbiddenApp (plainRequest "GET".toList "/a".toList)
        (initCtx (plainRequest "GET".toList "/a".toList))).2
      = .panic ⟨true, "{403 Forbidden}".toList⟩ ∧
    (ServeHTTP plainConfig forbiddenApp (plainRequest "GET".toList "/a".toList)).trace
      = [.filterFunc BEFORE_ROUTER 0, .recover ⟨true, "{403 Forbidden}".toList⟩] := by
  decide

/-! ### C21 -/

theorem checkXSRFCookie_eq (f hx hc tok : Str) :
    CheckXSRFCookie f hx hc tok =
      if presentedToken f hx hc = [] then (false, true)
      else if tok ≠ presentedToken f hx hc then (false, true)
      else (true, false) := by
  unfold CheckXSRFCookie presentedToken
  by_cases h1 : f = []
  · by_cases h2 : hx = []
    · simp [h1, h2]
    · simp [h1, h2]
  · simp [h1]

theorem checkXSRFCookie_spec (f hx hc tok : Str) :
    ((CheckXSRFCookie f hx hc tok).1 = false ↔
      (presentedToken f hx hc = [] ∨ presentedToken f hx hc ≠ tok)) ∧
    (CheckXSRFCookie f hx hc tok).2 = !(CheckXSRFCookie f hx hc tok).1 := by
  rw [checkXSRFCookie_eq]
  by_cases h1 : presentedToken f hx hc = []
  · simp [h1]
  · by_cases h2 : tok = presentedToken f hx hc
    · simp [h1, h2]
    · have h3 : ¬ presentedToken f hx hc = tok := fun e => h2 e.symm
      simp [h1, h2, h3]

/-- C21 (code): `ServeHTTP` drops the result of `CheckXSRFCookie`.  With
XSRF enabled, on a POST, PUT or DELETE request that is not a websocket
upgrade and presents no token, or a token different from the established
one, `CheckXSRFCookie` writes the 403 answer, which starts the response,
and dispatch goes on: `Prepare` and the controller's `Filter` hook run; the
verb handler, the access log of line 645 and auto-render are skipped
because the response is started; `Finish` and the `AFTER_EXEC` filters run
(when the `Filter` hook answers false, `accessLog` and `Finish` run and
`ServeHTTP` returns). -/
theorem C21_xsrf_rejection (cfg : Config) (p : ControllerRegistor) (req : Request) (u : Str)
    (k : Controller) (c : Ctx) (formToken headerXsrftoken headerCsrftoken xsrfToken : Str)
    (hen : cfg.enableXSRF = true)
    (hm : req.Method = "POST".toList ∨ req.Method = "DELETE".toList ∨ req.Method = "PUT".toList)
    (hws : req.websocket = false)
    (hbad : presentedToken formToken headerXsrftoken headerCsrftoken = [] ∨
      presentedToken formToken headerXsrftoken headerCsrftoken ≠ xsrfToken)
    (hk : k.CheckXSRFCookie
      = checkXSRFCode formToken headerXsrftoken headerCsrftoken xsrfToken)
    (hX : k.XsrfToken.panics = none) (hP : k.Prepare.panics = none)
    (hF : k.Filter.panics = none) (hA : k.accessLog.panics = none)
    (hFin : k.Finish.panics = none) :
    CheckXSRFCookie formToken headerXsrftoken headerCsrftoken xsrfToken = (false, true) ∧
    andThen (xsrfStage cfg req k) (runController cfg p req u k) c =
      if k.FilterResult = false then
        ({ c with started := true,
                  trace := c.trace ++ [.XsrfToken, .CheckXSRFCookie, .Prepare, .Filter, .accessLog,
                    .Finish] }, .ret)
      else
        doFilter p req u AFTER_EXEC
          { c with started := true,
                   trace := c.trace ++ [.XsrfToken, .CheckXSRFCookie, .Prepare, .Filter, .Finish] } := by
  obtain ⟨s1, s2⟩ := checkXSRFCookie_spec formToken headerXsrftoken headerCsrftoken xsrfToken
  have h1 := s1.mpr hbad
  have h2 : (CheckXSRFCookie formToken headerXsrftoken headerCsrftoken xsrfToken).2 = true := by
    rw [s2, h1]; rfl
  have hw : k.CheckXSRFCookie.writes = true := by rw [hk]; exact h2
  have hn : k.CheckXSRFCookie.panics = none := by rw [hk]; rfl
  refine ⟨Prod.ext h1 h2, ?_⟩
  have hcond : (req.Method = "POST".toList || req.Method = "DELETE".toList
      || req.Method = "PUT".toList
      || (req.Method = "POST".toList
          && valuesGet req.Form "_method".toList = "put".toList)) = true := by
    rcases hm with h | h | h <;> simp [h]
  unfold xsrfStage runController execStage
  simp only [hen, if_true, hcond, andThen, runUser, hX, hn, hw, hP, hF, hA, hFin, hws, Ctx.log]
  cases k.FilterResult <;> simp

/-- Witness of `C21_xsrf_rejection`: a POST without token. -/
theorem C21_xsrf_rejection_witness :
    (andThen (xsrfStage xsrfConfig (plainRequest "POST".toList "/a".toList) (xsrfConfig.controllers 2))
      (runController xsrfConfig afterExecApp (plainRequest "POST".toList "/a".toList) "/a".toList
        (xsrfConfig.controllers 2))
      { initCtx (plainRequest "POST".toList "/a".toList) with runMethod := "Post".toList }).1.trace
      = [.XsrfToken, .CheckXSRFCookie, .Prepare, .Filter, .Finish, .filterFunc AFTER_EXEC 0] :=
  (congrArg (fun r : Ctx × Flow => r.1.trace)
    (C21_xsrf_rejection xsrfConfig afterExecApp (plainRequest "POST".toList "/a".toList)
      "/a".toList (xsrfConfig.controllers 2)
      { initCtx (plainRequest "POST".toList "/a".toList) with runMethod := "Post".toList }
      [] [] [] "tok".toList rfl (Or.inl rfl) rfl (Or.inl rfl) rfl rfl rfl rfl rfl rfl).2).trans
    (by decide)

/-- C21 (code), on whole requests: with XSRF enabled, a POST that presents no token
gets the 403 answer from `CheckXSRFCookie`, after which `Prepare`, the
`Filter` hook, `Finish` and the `AFTER_EXEC` filter all run; only the verb
handler is left out.  On a websocket upgrade request the handler runs as
well. -/
theorem C21_pipeline_goes_on_after_403 :
    CheckXSRFCookie [] [] [] "tok".toList = (false, true) ∧
    (ServeHTTP xsrfConfig afterExecApp (plainRequest "POST".toList "/a".toList)).trace
      = [.readBody, .Init 2 "Post".toList, .XsrfToken, .CheckXSRFCookie, .Prepare, .Filter,
         .Finish, .filterFunc AFTER_EXEC 0] ∧
    (ServeHTTP xsrfConfig afterExecApp
        { plainRequest "POST".toList "/a".toList with websocket := true }).trace
      = [.readBody, .Init 2 "Post".toList, .XsrfToken, .CheckXSRFCookie, .Prepare, .Filter,
         .call "Post".toList, .accessLog, .Finish, .filterFunc AFTER_EXEC 0] := by
  decide

/-! ### Counting the calls of a controller method -/

theorem callMethod_eq (req : Request) (k : Controller) (runMethod : Str) (h : UserCode)
    (hv : verbHandler k runMethod = some h) :
    callMethod req k runMethod = runUser req h (.call runMethod) := by
  unfold verbHandler at hv
  unfold callMethod
  split_ifs at hv ⊢ <;> first
    | (injection hv with hv; rw [hv])
    | (rw [hv])

theorem doFilter_count (p : ControllerRegistor) (req : Request) (u : Str) (pos : Nat) (c : Ctx)
    (e : Event) (he : ∀ i, e ≠ .filterFunc pos i) :
    (doFilter p req u pos c).1.trace.count e = c.trace.count e := by
  unfold doFilter
  split_ifs
  · split
    · rename_i l _
      rw [doFilterLoop_trace, List.count_append]
      have : List.count e ((invokedUpTo req.websocket c.started (matchingFilters u l 0)).map
          (fun i => Event.filterFunc pos i)) = 0 := by
        rw [List.count_eq_zero]
        intro hm
        obtain ⟨i, _, hi⟩ := List.mem_map.mp hm
        exact he i hi.symm
      omega
    · rfl
  · rfl

theorem runUser_fst (req : Request) (u : UserCode) (ev : Event) (c : Ctx) :
    (runUser req u ev c).1
      = { c with trace := c.trace ++ [ev], started := c.started || (u.writes && !req.websocket) } := by
  unfold runUser
  cases u.panics <;> rfl

theorem runUser_snd (req : Request) (u : UserCode) (ev : Event) (c : Ctx) :
    (runUser req u ev c).2 = match u.panics with | some v => .panic v | none => .cont := by
  unfold runUser
  cases u.panics <;> rfl

theorem silent_andThen {e : Event} {a b : Ctx → Ctx × Flow} (ha : Silent e a) (hb : Silent e b) :
    Silent e (andThen a b) := by
  intro c
  unfold andThen
  have h1 := ha c
  cases h : a c with
  | mk c1 fl =>
    rw [h] at h1
    cases fl with
    | cont => simp only; rw [hb c1]; exact h1
    | ret => exact h1
    | panic v => exact h1

theorem andThen_count_right {e : Event} (a b : Ctx → Ctx × Flow) (hb : Silent e b) (c : Ctx) :
    (andThen a b c).1.trace.count e = (a c).1.trace.count e := by
  unfold andThen
  cases h : a c with
  | mk c1 fl =>
    cases fl with
    | cont => simp only; rw [hb c1]
    | ret => rfl
    | panic v => rfl

theorem andThen_cont (a b : Ctx → Ctx × Flow) (c c1 : Ctx) (h : a c = (c1, .cont)) :
    andThen a b c = b c1 := by
  simp only [andThen, h]

theorem andThen_stop (a b : Ctx → Ctx × Flow) (c c1 : Ctx) (fl : Flow) (h : a c = (c1, fl))
    (hf : fl ≠ .cont) : andThen a b c = (c1, fl) := by
  cases fl with
  | cont => exact absurd rfl hf
  | ret => simp only [andThen, h]
  | panic v => simp only [andThen, h]

theorem runUser_count (req : Request) (u : UserCode) (ev e : Event) (c : Ctx) :
    (runUser req u ev c).1.trace.count e = c.trace.count e + (if ev = e then 1 else 0) := by
  rw [runUser_fst]
  simp only [List.count_append, List.count_cons, List.count_nil, beq_iff_eq, Nat.zero_add]

theorem silent_runUser (req : Request) (u : UserCode) (ev e : Event) (h : ev ≠ e) :
    Silent e (runUser req u ev) := by
  intro c
  rw [runUser_count, if_neg h]
  rfl

theorem silent_doFilter (p : ControllerRegistor) (req : Request) (u : Str) (pos : Nat)
    (e : Event) (he : ∀ i, e ≠ .filterFunc pos i) : Silent e (doFilter p req u pos) :=
  fun c => doFilter_count p req u pos c e he

theorem silent_renderStage (cfg : Config) (req : Request) (k : Controller) (e : Event)
    (h1 : e ≠ .Render) (h2 : e ≠ .logPrint) : Silent e (renderStage cfg req k) := by
  intro c
  unfold renderStage
  by_cases hc : (!c.started && !req.websocket) = true
  · by_cases ha : cfg.autoRender = true
    · simp only [hc, ha, if_true]
      have hr := runUser_count req k.Render .Render e c
      rw [if_neg (fun x => h1 x.symm)] at hr
      cases hx : runUser req k.Render .Render c with
      | mk c1 fl =>
        rw [hx] at hr
        cases fl with
        | cont =>
          simp only
          by_cases hf : k.RenderFails = true
          · simp only [hf, if_true, Ctx.log, List.count_append, List.count_cons_of_ne h2,
              List.count_nil]
            exact hr
          · simp only [hf, Bool.false_eq_true, if_false]
            exact hr
        | ret => exact hr
        | panic v => exact hr
    · simp only [hc, ha, if_true, Bool.false_eq_true, if_false]
  · simp only [hc, Bool.false_eq_true, if_false]

/-- The access log inside the block of lines 619-658: called when the
response is not started at the entry and access logging is on. -/
theorem execStage_count_accessLog (cfg : Config) (req : Request) (k : Controller) (c : Ctx)
    (h : UserCode) (hv : verbHandler k c.runMethod = some h) (hh : h.panics = none) :
    (execStage cfg req k c).1.trace.count .accessLog
      = c.trace.count .accessLog
        + (if c.started = false ∧ cfg.enableAccessLog = true then 1 else 0) := by
  unfold execStage
  cases hs : c.started
  · simp only [Bool.not_false, if_true, true_and]
    rw [callMethod_eq req k c.runMethod h hv]
    have e1 : runUser req h (.call c.runMethod) c
        = ({ c with trace := c.trace ++ [.call c.runMethod],
                    started := c.started || (h.writes && !req.websocket) }, .cont) := by
      simp only [runUser, hh, Ctx.log]
    rw [andThen_cont _ _ _ _ e1]
    rw [andThen_count_right _ _ (silent_renderStage cfg req k .accessLog (by simp) (by simp))]
    by_cases ha : cfg.enableAccessLog = true
    · simp only [ha, if_true]
      rw [runUser_count]
      simp [List.count_append]
    · simp only [ha, Bool.false_eq_true, if_false]
      simp [List.count_append]
  · simp

/-- The state at the branch on the controller's `Filter` hook, when
`Prepare` and `Filter` return. -/
theorem runController_eq (cfg : Config) (p : ControllerRegistor) (req : Request) (u : Str)
    (k : Controller) (c : Ctx) (hP : k.Prepare.panics = none) (hF : k.Filter.panics = none) :
    runController cfg p req u k c =
      if k.FilterResult = false then
        andThen (runUser req k.accessLog .accessLog)
          (andThen (runUser req k.Finish .Finish) (fun c1 => (c1, .ret)))
          { c with trace := c.trace ++ [.Prepare, .Filter],
                   started := c.started || ((k.Prepare.writes || k.Filter.writes) && !req.websocket) }
      else
        andThen (execStage cfg req k)
          (andThen (runUser req k.Finish .Finish) (doFilter p req u AFTER_EXEC))
          { c with trace := c.trace ++ [.Prepare, .Filter],
                   started := c.started || ((k.Prepare.writes || k.Filter.writes) && !req.websocket) } := by
  have eP : runUser req k.Prepare .Prepare c
      = ({ c with trace := c.trace ++ [.Prepare],
                  started := c.started || (k.Prepare.writes && !req.websocket) }, .cont) := by
    simp only [runUser, hP, Ctx.log]
  have eF : runUser req k.Filter .Filter
        { c with trace := c.trace ++ [.Prepare],
                 started := c.started || (k.Prepare.writes && !req.websocket) }
      = ({ c with trace := c.trace ++ [.Prepare, .Filter],
                  started := c.started || ((k.Prepare.writes || k.Filter.writes) && !req.websocket) },
          .cont) := by
    simp only [runUser, hF, Ctx.log, List.append_assoc, List.singleton_append]
    cases c.started <;> cases k.Prepare.writes <;> cases k.Filter.writes <;>
      cases req.websocket <;> rfl
  unfold runController
  rw [andThen_cont _ _ _ _ eP, andThen_cont _ _ _ _ eF]
  cases k.FilterResult <;> simp

/-! ### C22 -/

/-- C22 (code): the call of `accessLog` does not follow the setting of
access logging.  From the call of `Prepare` on, when `Prepare`, the
`Filter` hook and the verb handler return, the controller's `accessLog` is
called exactly once when the `Filter` hook answers false, whatever the
setting (line 614 does not test it); when the hook answers true,
`accessLog` is called exactly once if access logging is enabled and the
response is not started before the verb handler, and is not called
otherwise. -/
theorem C22_access_log (cfg : Config) (p : ControllerRegistor) (req : Request) (u : Str)
    (k : Controller) (c : Ctx) (h : UserCode)
    (hP : k.Prepare.panics = none) (hF : k.Filter.panics = none)
    (hv : verbHandler k c.runMethod = some h) (hh : h.panics = none) :
    (runController cfg p req u k c).1.trace.count .accessLog
      = c.trace.count .accessLog +
        (if k.FilterResult = false ∨
            (cfg.enableAccessLog = true ∧
              (c.started || ((k.Prepare.writes || k.Filter.writes) && !req.websocket)) = false)
         then 1 else 0) := by
  rw [runController_eq cfg p req u k c hP hF]
  cases hR : k.FilterResult
  · simp only [if_true, true_or]
    rw [andThen_count_right _ _
      (silent_andThen (silent_runUser req k.Finish .Finish .accessLog (by simp))
        (fun c1 => rfl))]
    rw [runUser_count]
    simp [List.count_append]
  · simp only [Bool.true_eq_false, if_false, false_or]
    rw [andThen_count_right _ _
      (silent_andThen (silent_runUser req k.Finish .Finish .accessLog (by simp))
        (silent_doFilter p req u AFTER_EXEC .accessLog (by simp)))]
    rw [execStage_count_accessLog cfg req k
      { c with trace := c.trace ++ [.Prepare, .Filter],
               started := c.started || ((k.Prepare.writes || k.Filter.writes) && !req.websocket) }
      h hv hh]
    simp only [List.count_append]
    by_cases ha : cfg.enableAccessLog = true <;>
      cases (c.started || ((k.Prepare.writes || k.Filter.writes) && !req.websocket)) <;>
      simp [ha]

/-- Witness of `C22_access_log`: a GET on a controller whose methods
return, access logging on, nothing written before the handler. -/
theorem C22_access_log_witness :
    (runController plainConfig (register [("/a".toList, 2)]) (plainRequest "GET".toList "/a".toList)
      "/a".toList plainController
      { initCtx (plainRequest "GET".toList "/a".toList) with runMethod := "Get".toList }).1.trace.count
        .accessLog = 1 :=
  (C22_access_log plainConfig (register [("/a".toList, 2)])
    (plainRequest "GET".toList "/a".toList) "/a".toList plainController
    { initCtx (plainRequest "GET".toList "/a".toList) with runMethod := "Get".toList }
    plainController.Get rfl rfl rfl rfl).trans (by decide)

/-- C22 (code), on whole requests: with access logging on, a request whose response
a `BEFORE_ROUTER` filter registered with `returnOnOutput = false` has
started reaches the handler stage and ends without a call of `accessLog`;
with access logging off, a controller whose `Filter` hook answers false
gets its `accessLog` called. -/
theorem C22_access_log_not_tied_to_setting :
    plainConfig.enableAccessLog = true ∧
    (ServeHTTP plainConfig fireAndContinueApp (plainRequest "GET".toList "/a".toList)).trace
      = [.filterFunc BEFORE_ROUTER 0, .Init 2 "Get".toList, .Prepare, .Filter, .Finish] ∧
    (ServeHTTP
      { plainConfig with enableAccessLog := false,
                         controllers := fun _ => { plainController with FilterResult := false } }
      (register [("/a".toList, 2)]) (plainRequest "GET".toList "/a".toList)).trace
      = [.Init 2 "Get".toList, .Prepare, .Filter, .accessLog, .Finish] := by
  decide

/-! ### C23 -/

theorem callMethod_none (req : Request) (k : Controller) (runMethod : Str)
    (hv : verbHandler k runMethod = none) (c : Ctx) :
    callMethod req k runMethod c
      = (c, .panic ⟨false, "reflect: call of reflect.Value.Call on zero Value".toList⟩) := by
  unfold verbHandler at hv
  unfold callMethod
  split_ifs at hv ⊢
  rw [hv]

theorem silent_callMethod (req : Request) (k : Controller) (runMethod : Str) (e : Event)
    (he : e ≠ .call runMethod) : Silent e (callMethod req k runMethod) := by
  intro c
  cases hv : verbHandler k runMethod with
  | none => rw [callMethod_none req k runMethod hv]
  | some h =>
    rw [callMethod_eq req k runMethod h hv]
    exact silent_runUser req h _ e (fun x => he x.symm) c

theorem silent_execStage (cfg : Config) (req : Request) (k : Controller) (e : Event)
    (h1 : ∀ m, e ≠ .call m) (h2 : e ≠ .accessLog) (h3 : e ≠ .Render) (h4 : e ≠ .logPrint) :
    Silent e (execStage cfg req k) := by
  intro c
  unfold execStage
  by_cases hs : (!c.started) = true
  · simp only [hs, if_true]
    refine silent_andThen (silent_callMethod req k c.runMethod e (h1 _))
      (silent_andThen ?_ (silent_renderStage cfg req k e h3 h4)) c
    intro c1
    by_cases ha : cfg.enableAccessLog = true
    · simp only [ha, if_true]
      exact silent_runUser req k.accessLog _ e (fun x => h2 x.symm) c1
    · simp only [ha, Bool.false_eq_true, if_false]
  · simp only [hs, Bool.false_eq_true, if_false]

theorem renderStage_flow (cfg : Config) (req : Request) (k : Controller) (c : Ctx)
    (hR : k.Render.panics = none) :
    ((renderStage cfg req k c).2 = .cont ∧
      (k.RenderFails = true →
        (renderStage cfg req k c).1.trace.count .Render = c.trace.count .Render)) ∨
    ((renderStage cfg req k c).2 = .ret ∧ k.RenderFails = true ∧
      (renderStage cfg req k c).1.trace.count .Render = c.trace.count .Render + 1) := by
  unfold renderStage
  by_cases hc : (!c.started && !req.websocket) = true
  · by_cases ha : cfg.autoRender = true
    · simp only [hc, ha, if_true, runUser, hR, Ctx.log]
      by_cases hf : k.RenderFails = true
      · right
        simp [hf, List.count_append]
      · left
        simp [hf]
    · left
      simp [hc, ha]
  · left
    simp [hc]

/-- How the block of lines 619-658 ends when the verb handler, the access
log and `Render` return: it goes on, or auto-render was run, returned an
error, and `ServeHTTP` returns. -/
theorem execStage_flow (cfg : Config) (req : Request) (k : Controller) (c : Ctx) (h : UserCode)
    (hv : verbHandler k c.runMethod = some h) (hh : h.panics = none)
    (hA : k.accessLog.panics = none) (hR : k.Render.panics = none) :
    ((execStage cfg req k c).2 = .cont ∧
      (k.RenderFails = true →
        (execStage cfg req k c).1.trace.count .Render = c.trace.count .Render)) ∨
    ((execStage cfg req k c).2 = .ret ∧ k.RenderFails = true ∧
      (execStage cfg req k c).1.trace.count .Render = c.trace.count .Render + 1) := by
  unfold execStage
  cases hs : c.started
  · simp only [Bool.not_false, if_true]
    rw [callMethod_eq req k c.runMethod h hv]
    have e1 : runUser req h (.call c.runMethod) c
        = ({ c with trace := c.trace ++ [.call c.runMethod],
                    started := c.started || (h.writes && !req.websocket) }, .cont) := by
      simp only [runUser, hh, Ctx.log]
    rw [andThen_cont _ _ _ _ e1]
    have hc1 : ({ c with trace := c.trace ++ [.call c.runMethod],
                         started := c.started || (h.writes && !req.websocket) } : Ctx).trace.count
          .Render = c.trace.count .Render := by
      simp [List.count_append]
    generalize ({ c with trace := c.trace ++ [.call c.runMethod],
                         started := c.started || (h.writes && !req.websocket) } : Ctx) = c1 at hc1 ⊢
    obtain ⟨c2, e2, hc2⟩ : ∃ c2,
        (fun c1 => if cfg.enableAccessLog then runUser req k.accessLog .accessLog c1
                   else (c1, .cont)) c1 = (c2, .cont) ∧
        c2.trace.count .Render = c1.trace.count .Render := by
      by_cases ha : cfg.enableAccessLog = true
      · refine ⟨(runUser req k.accessLog .accessLog c1).1, ?_, ?_⟩
        · simp only [ha, if_true]
          apply Prod.ext
          · rfl
          · rw [runUser_snd, hA]
        · exact silent_runUser req k.accessLog .accessLog .Render (by simp) c1
      · exact ⟨c1, by simp only [ha, Bool.false_eq_true, if_false], rfl⟩
    rw [andThen_cont _ _ _ _ e2, ← hc1, ← hc2]
    exact renderStage_flow cfg req k c2 hR
  · simp

/-- C23 (code): the return of lines 652-655 leaves out `Finish`.  From the
call of `Prepare` on, when no method of the controller panics, `Finish` is
called exactly once before `ServeHTTP` returns, also when the `Filter` hook
answers false, except when auto-render is run and returns an error:
`ServeHTTP` then returns without calling `Finish`. -/
theorem C23_finish_hook (cfg : Config) (p : ControllerRegistor) (req : Request) (u : Str)
    (k : Controller) (c : Ctx) (h : UserCode)
    (hP : k.Prepare.panics = none) (hF : k.Filter.panics = none)
    (hv : verbHandler k c.runMethod = some h) (hh : h.panics = none)
    (hA : k.accessLog.panics = none) (hR : k.Render.panics = none) :
    (runController cfg p req u k c).1.trace.count .Finish
      = c.trace.count .Finish +
        (if k.RenderFails = true ∧
            c.trace.count .Render < (runController cfg p req u k c).1.trace.count .Render
         then 0 else 1) := by
  rw [runController_eq cfg p req u k c hP hF]
  cases hFR : k.FilterResult
  · simp only [if_true]
    have eA : runUser req k.accessLog .accessLog
          { c with trace := c.trace ++ [.Prepare, .Filter],
                   started := c.started || ((k.Prepare.writes || k.Filter.writes) && !req.websocket) }
        = ({ c with trace := c.trace ++ [.Prepare, .Filter] ++ [.accessLog],
                    started := (c.started || ((k.Prepare.writes || k.Filter.writes) && !req.websocket))
                      || (k.accessLog.writes && !req.websocket) }, .cont) := by
      simp only [runUser, hA, Ctx.log]
    rw [andThen_cont _ _ _ _ eA]
    have hfin : ∀ c1 : Ctx, (andThen (runUser req k.Finish .Finish) (fun c1 => (c1, Flow.ret)) c1).1
        = (runUser req k.Finish .Finish c1).1 := by
      intro c1
      unfold andThen
      cases hx : runUser req k.Finish .Finish c1 with
      | mk c2 fl => cases fl <;> rfl
    rw [hfin, runUser_fst]
    simp [List.count_append]
  · simp only [Bool.true_eq_false, if_false]
    have hcF : ∀ e : Event, e ≠ .Prepare → e ≠ .Filter →
        ({ c with trace := c.trace ++ [.Prepare, .Filter],
                  started := c.started || ((k.Prepare.writes || k.Filter.writes) && !req.websocket) }
          : Ctx).trace.count e = c.trace.count e := by
      intro e h1 h2
      simp [List.count_append, List.count_cons, Ne.symm h1, Ne.symm h2]
    have hfl := execStage_flow cfg req k
      { c with trace := c.trace ++ [.Prepare, .Filter],
               started := c.started || ((k.Prepare.writes || k.Filter.writes) && !req.websocket) }
      h hv hh hA hR
    have hsil := silent_execStage cfg req k .Finish (by simp) (by simp) (by simp) (by simp)
      { c with trace := c.trace ++ [.Prepare, .Filter],
               started := c.started || ((k.Prepare.writes || k.Filter.writes) && !req.websocket) }
    rw [hcF .Finish (by simp) (by simp)] at hsil
    rw [hcF .Render (by simp) (by simp)] at hfl
    generalize ({ c with trace := c.trace ++ [.Prepare, .Filter],
                         started := c.started || ((k.Prepare.writes || k.Filter.writes) && !req.websocket) }
          : Ctx) = cF at hfl hsil ⊢
    cases hx : execStage cfg req k cF with
    | mk c3 fl =>
      rw [hx] at hfl hsil
      simp only at hfl hsil
      rcases hfl with ⟨h1, h2⟩ | ⟨h1, h2, h3⟩
      · subst h1
        rw [andThen_cont _ _ _ _ hx]
        have hr : (andThen (runUser req k.Finish .Finish) (doFilter p req u AFTER_EXEC) c3).1.trace.count
            .Render = c3.trace.count .Render :=
          silent_andThen (silent_runUser req k.Finish .Finish .Render (by simp))
            (silent_doFilter p req u AFTER_EXEC .Render (by simp)) c3
        rw [andThen_count_right _ _ (silent_doFilter p req u AFTER_EXEC .Finish (by simp)),
          runUser_count, hsil, hr]
        have hn : ¬ (k.RenderFails = true ∧ c.trace.count .Render < c3.trace.count .Render) := by
          rintro ⟨a1, a2⟩
          rw [h2 a1] at a2
          exact absurd a2 (lt_irrefl _)
        simp only [hn, if_true, if_false]
      · subst h1
        rw [andThen_stop _ _ _ _ _ hx (by simp)]
        simp only [hsil, h2, h3, true_and, Nat.lt_succ_self, if_true, Nat.add_zero]

/-- Witness of `C23_finish_hook`: a GET on a controller whose methods
return and whose `Render` succeeds. -/
theorem C23_finish_hook_witness :
    (runController plainConfig (register [("/a".toList, 2)]) (plainRequest "GET".toList "/a".toList)
      "/a".toList plainController
      { initCtx (plainRequest "GET".toList "/a".toList) with runMethod := "Get".toList }).1.trace.count
        .Finish = 1 :=
  (C23_finish_hook plainConfig (register [("/a".toList, 2)])
    (plainRequest "GET".toList "/a".toList) "/a".toList plainController
    { initCtx (plainRequest "GET".toList "/a".toList) with runMethod := "Get".toList }
    plainController.Get rfl rfl rfl rfl rfl rfl).trans (by decide)

/-- C23 (code), on a whole request: a controller whose `Render` returns an error is
initialised and its handler runs, and `ServeHTTP` returns without a call of
`Finish`. -/
theorem C23_render_error_skips_finish :
    (ServeHTTP
      { plainConfig with controllers := fun _ => { plainController with RenderFails := true } }
      (register [("/a".toList, 2)]) (plainRequest "GET".toList "/a".toList)).trace
      = [.Init 2 "Get".toList, .Prepare, .Filter, .call "Get".toList, .accessLog, .Render,
         .logPrint] := by
  decide

/-! ### C24 -/

theorem splitN_cons (sep : Char) (a : Str) (rest : Str) (n : Nat) (h : sep ∉ a) :
    SplitN sep (a ++ sep :: rest) (n + 2) = a :: SplitN sep rest (n + 1) := by
  induction a with
  | nil => simp [SplitN]
  | cons c a ih =>
    have hc : ¬ c = sep := fun e => h (by simp [e])
    have ha : sep ∉ a := fun hm => h (List.mem_cons_of_mem _ hm)
    simp only [List.cons_append, SplitN, hc, if_false]
    rw [show a.append (sep :: rest) = a ++ sep :: rest from rfl, ih ha]

theorem b64Index_b64Char : ∀ i, i < 64 → b64Index (b64Char i) = some i := by
  decide

theorem b64Char_plain : ∀ i, i < 64 → plainChar (b64Char i) ∧ b64Char i ≠ '=' := by
  unfold plainChar
  decide

theorem hexDigit_plain : ∀ i, i < 16 → plainChar (hexDigit i) := by
  unfold plainChar
  decide

theorem digitChar_plain : ∀ i, i < 10 → plainChar (Nat.digitChar i) := by
  unfold plainChar
  decide

theorem encodeToString_plain (v : List Byte) : ∀ c ∈ EncodeToString v, plainChar c := by
  induction v using EncodeToString.induct with
  | case1 => intro c hc; simp [EncodeToString] at hc
  | case2 a =>
    intro c hc
    have h1 := (b64Char_plain (a.val / 4) (by omega)).1
    have h2 := (b64Char_plain (a.val % 4 * 16) (by omega)).1
    simp only [EncodeToString, List.mem_cons, List.mem_singleton, List.mem_nil_iff, or_false] at hc
    rcases hc with rfl | rfl | rfl | rfl
    · exact h1
    · exact h2
    · unfold plainChar; decide
    · unfold plainChar; decide
  | case3 a b =>
    intro c hc
    have h1 := (b64Char_plain (a.val / 4) (by omega)).1
    have h2 := (b64Char_plain (a.val % 4 * 16 + b.val / 16) (by omega)).1
    have h3 := (b64Char_plain (b.val % 16 * 4) (by omega)).1
    simp only [EncodeToString, List.mem_cons, List.mem_singleton, List.mem_nil_iff, or_false] at hc
    rcases hc with rfl | rfl | rfl | rfl
    · exact h1
    · exact h2
    · exact h3
    · unfold plainChar; decide
  | case4 a b c rest ih =>
    intro x hx
    have h1 := (b64Char_plain (a.val / 4) (by omega)).1
    have h2 := (b64Char_plain (a.val % 4 * 16 + b.val / 16) (by omega)).1
    have h3 := (b64Char_plain (b.val % 16 * 4 + c.val / 64) (by omega)).1
    have h4 := (b64Char_plain (c.val % 64) (by omega)).1
    simp only [EncodeToString, List.mem_cons] at hx
    rcases hx with rfl | rfl | rfl | rfl | hx
    · exact h1
    · exact h2
    · exact h3
    · exact h4
    · exact ih x hx

theorem toByte_val (a : Byte) (n : Nat) (h : n = a.val) : toByte n = a := by
  apply Fin.ext
  simp only [toByte, h]
  exact Nat.mod_eq_of_lt a.isLt

theorem decodeQuanta_encode (v : List Byte) : decodeQuanta (EncodeToString v) = v := by
  induction v using EncodeToString.induct with
  | case1 => rfl
  | case2 a =>
    have ha := a.isLt
    have e0 := b64Index_b64Char (a.val / 4) (by omega)
    have e1 := b64Index_b64Char (a.val % 4 * 16) (by omega)
    simp only [EncodeToString, decodeQuanta, e0, e1, if_true, and_self]
    rw [toByte_val a _ (by omega)]
  | case3 a b =>
    have ha := a.isLt
    have hb := b.isLt
    have e0 := b64Index_b64Char (a.val / 4) (by omega)
    have e1 := b64Index_b64Char (a.val % 4 * 16 + b.val / 16) (by omega)
    have e2 := b64Index_b64Char (b.val % 16 * 4) (by omega)
    have n2 := (b64Char_plain (b.val % 16 * 4) (by omega)).2
    simp only [EncodeToString, decodeQuanta, e0, e1, e2, n2, if_true, if_false]
    rw [toByte_val a _ (by omega), toByte_val b _ (by omega)]
  | case4 a b c rest ih =>
    have ha := a.isLt
    have hb := b.isLt
    have hc := c.isLt
    have e0 := b64Index_b64Char (a.val / 4) (by omega)
    have e1 := b64Index_b64Char (a.val % 4 * 16 + b.val / 16) (by omega)
    have e2 := b64Index_b64Char (b.val % 16 * 4 + c.val / 64) (by omega)
    have e3 := b64Index_b64Char (c.val % 64) (by omega)
    have n2 := (b64Char_plain (b.val % 16 * 4 + c.val / 64) (by omega)).2
    have n3 := (b64Char_plain (c.val % 64) (by omega)).2
    simp only [EncodeToString, decodeQuanta, e0, e1, e2, e3, n2, n3, if_false, ih]
    rw [toByte_val a _ (by omega), toByte_val b _ (by omega), toByte_val c _ (by omega)]

theorem decodeString_encode (v : List Byte) : DecodeString (EncodeToString v) = v := by
  unfold DecodeString
  have hf : (EncodeToString v).filter (fun c => c != '\r' && c != '\n') = EncodeToString v := by
    rw [List.filter_eq_self]
    intro c hc
    obtain ⟨_, _, h3, h4⟩ := encodeToString_plain v c hc
    simp [h3, h4]
  rw [hf, decodeQuanta_encode]

theorem toDigitsCore_plain (fuel : Nat) :
    ∀ (n : Nat) (ds : List Char), (∀ c ∈ ds, plainChar c) →
      ∀ c ∈ Nat.toDigitsCore 10 fuel n ds, plainChar c := by
  induction fuel with
  | zero => intro n ds h c hc; exact h c (by simpa [Nat.toDigitsCore] using hc)
  | succ fuel ih =>
    intro n ds h c hc
    have hd : ∀ x ∈ Nat.digitChar (n % 10) :: ds, plainChar x := by
      intro x hx
      rcases List.mem_cons.mp hx with rfl | hx
      · exact digitChar_plain _ (Nat.mod_lt _ (by decide))
      · exact h x hx
    simp only [Nat.toDigitsCore] at hc
    split_ifs at hc
    · exact hd c hc
    · exact ih _ _ hd c hc

theorem formatInt_plain (i : Int) : ∀ c ∈ FormatInt i, plainChar c := by
  intro c hc
  unfold FormatInt at hc
  have hn : ∀ x ∈ Nat.toDigits 10 i.natAbs, plainChar x :=
    toDigitsCore_plain _ _ [] (by simp)
  split_ifs at hc
  · rcases List.mem_cons.mp hc with rfl | hc
    · unfold plainChar; decide
    · exact hn c hc
  · exact hn c hc

theorem hex_plain (b : List Byte) : ∀ c ∈ hex b, plainChar c := by
  intro c hc
  unfold hex at hc
  obtain ⟨x, _, hx⟩ := List.mem_flatMap.mp hc
  have hx1 := x.isLt
  simp only [List.mem_cons, List.mem_singleton, List.mem_nil_iff, or_false] at hx
  rcases hx with rfl | rfl
  · exact hexDigit_plain _ (by omega)
  · exact hexDigit_plain _ (Nat.mod_lt _ (by decide))

/-- C24: for every secret, value, time and keyed digest, the cookie text
`SetSecureCookie` builds is `base64url(value) | timestamp | hex digest`, the
cookie sanitizer leaves it as it is, and `GetSecureCookie` with the same
secret accepts it and returns `(value, true)`.  `GetSecureCookie` returns
`ok = false` for the empty cookie, for a cookie that `SplitN` does not cut
in three parts, and for a cookie whose third part is not the digest of the
first two; it returns `ok = true` in every other case. -/
theorem C24_secure_cookie_round_trip (hmacSHA1 : Str → Str → List Byte) (secret : Str)
    (value : List Byte) (now : Int) :
    SetSecureCookie hmacSHA1 secret value now
      = EncodeToString value ++ '|' :: (FormatInt now ++ '|' ::
          hex (hmacSHA1 secret (EncodeToString value ++ FormatInt now))) ∧
    sanitizeValue (SetSecureCookie hmacSHA1 secret value now)
      = SetSecureCookie hmacSHA1 secret value now ∧
    GetSecureCookie hmacSHA1 secret (SetSecureCookie hmacSHA1 secret value now) = (value, true) ∧
    (GetSecureCookie hmacSHA1 secret []).2 = false ∧
    (∀ val, (SplitN '|' val 3).length ≠ 3 → (GetSecureCookie hmacSHA1 secret val).2 = false) ∧
    (∀ val vs timestamp sig, SplitN '|' val 3 = [vs, timestamp, sig] →
      sig ≠ hex (hmacSHA1 secret (vs ++ timestamp)) →
        (GetSecureCookie hmacSHA1 secret val).2 = false) ∧
    (∀ val vs timestamp sig, val ≠ [] → SplitN '|' val 3 = [vs, timestamp, sig] →
      sig = hex (hmacSHA1 secret (vs ++ timestamp)) →
        GetSecureCookie hmacSHA1 secret val = (DecodeString vs, true)) := by
  have hset : SetSecureCookie hmacSHA1 secret value now
      = EncodeToString value ++ '|' :: (FormatInt now ++ '|' ::
          hex (hmacSHA1 secret (EncodeToString value ++ FormatInt now))) := by
    simp [SetSecureCookie, Join]
  have hsplit : SplitN '|' (SetSecureCookie hmacSHA1 secret value now) 3
      = [EncodeToString value, FormatInt now,
          hex (hmacSHA1 secret (EncodeToString value ++ FormatInt now))] := by
    rw [hset, splitN_cons '|' _ _ 1 (fun h => (encodeToString_plain value _ h).1 rfl),
      splitN_cons '|' _ _ 0 (fun h => (formatInt_plain now _ h).1 rfl)]
    have e1 : ∀ s : Str, SplitN '|' s (0 + 1) = [s] := by
      intro s
      cases s <;> rfl
    rw [e1]
  have hbad : ∀ val vs timestamp sig, SplitN '|' val 3 = [vs, timestamp, sig] →
      sig ≠ hex (hmacSHA1 secret (vs ++ timestamp)) →
        (GetSecureCookie hmacSHA1 secret val).2 = false := by
    intro val vs timestamp sig hs hne
    unfold GetSecureCookie
    by_cases hv : val = []
    · simp [hv]
    · have hne1 : ¬ hex (hmacSHA1 secret (vs ++ timestamp)) = sig := fun e => hne e.symm
      simp [hv, hs, hne1]
  have hgood : ∀ val vs timestamp sig, val ≠ [] → SplitN '|' val 3 = [vs, timestamp, sig] →
      sig = hex (hmacSHA1 secret (vs ++ timestamp)) →
        GetSecureCookie hmacSHA1 secret val = (DecodeString vs, true) := by
    intro val vs timestamp sig hv hs he
    unfold GetSecureCookie
    simp [hv, hs, he]
  refine ⟨hset, ?_, ?_, ?_, ?_, hbad, hgood⟩
  · unfold sanitizeValue
    rw [List.map_congr_left, List.map_id]
    intro c hc
    have hp : c ≠ ';' ∧ c ≠ '\n' ∧ c ≠ '\r' := by
      rw [hset] at hc
      simp only [List.mem_append, List.mem_cons] at hc
      rcases hc with hc | rfl | hc | rfl | hc
      · exact (encodeToString_plain _ c hc).2
      · decide
      · exact (formatInt_plain _ c hc).2
      · decide
      · exact (hex_plain _ c hc).2
    obtain ⟨h2, h3, h4⟩ := hp
    simp [h2, h3, h4]
  · rw [hgood _ _ _ _ (by rw [hset]; simp) hsplit rfl, decodeString_encode]
  · simp [GetSecureCookie]
  · intro val hl
    unfold GetSecureCookie
    by_cases hv : val = []
    · simp [hv]
    · simp [hv, hl]

/-- Witness of `C24_secure_cookie_round_trip`: the value `hi`, with a keyed
digest of two bytes standing for HMAC-SHA1; a cookie whose signature is
altered is refused. -/
theorem C24_secure_cookie_round_trip_witness :
    SetSecureCookie (fun key msg => [toByte key.length, toByte msg.length]) "k".toList
        [104, 105] 1700000000
      = "aGk=|1700000000|010e".toList ∧
    GetSecureCookie (fun key msg => [toByte key.length, toByte msg.length]) "k".toList
        (SetSecureCookie (fun key msg => [toByte key.length, toByte msg.length]) "k".toList
          [104, 105] 1700000000)
      = ([104, 105], true) ∧
    (GetSecureCookie (fun key msg => [toByte key.length, toByte msg.length]) "k".toList
        "aGk=|1700000000|010f".toList).2 = false ∧
    (GetSecureCookie (fun key msg => [toByte key.length, toByte msg.length]) "k".toList
        "aGk=|1700000000".toList).2 = false :=
  ⟨by decide,
   (C24_secure_cookie_round_trip (fun key msg => [toByte key.length, toByte msg.length])
      "k".toList [104, 105] 1700000000).2.2.1,
   by decide, by decide⟩

/-! ### C25 -/

theorem walk_of_linked (next : Nat → Option Nat) (l : List Nat) :
    ∀ p, Linked next p l → walk next l.length p = l := by
  induction l with
  | nil => intro p _; rfl
  | cons a l ih =>
    intro p h
    obtain ⟨hp, hl⟩ := h
    subst hp
    simp only [List.length_cons, walk, ih _ hl]

theorem holds_contents (jq : JobQueue) (l : List Nat) (h : Holds jq l) : jq.contents = l := by
  obtain ⟨hs, hl, _, _⟩ := h
  unfold JobQueue.contents
  rw [hs]
  exact walk_of_linked _ _ _ hl

theorem linked_setNext (next : Nat → Option Nat) (a : Nat) (v : Option Nat) (l : List Nat) :
    ∀ p, a ∉ l → Linked next p l → Linked (setNext next a v) p l := by
  induction l with
  | nil => intro p _ h; exact h
  | cons b l ih =>
    intro p ha h
    obtain ⟨hp, hl⟩ := h
    have hb : ¬ b = a := fun e => ha (by simp [e])
    refine ⟨hp, ?_⟩
    have e : setNext next a v b = next b := by simp [setNext, hb]
    rw [e]
    exact ih _ (fun hm => ha (List.mem_cons_of_mem _ hm)) hl

theorem linked_append (next : Nat → Option Nat) (job : Nat) (l : List Nat) :
    ∀ p t, Linked next p l → l.getLast? = some t → job ∉ l → l.Nodup →
      Linked (setNext (setNext next job none) t (some job)) p (l ++ [job]) := by
  induction l with
  | nil => intro p t _ ht; simp at ht
  | cons a l ih =>
    intro p t h ht hj hn
    obtain ⟨hp, hl⟩ := h
    have haj : ¬ a = job := fun e => hj (by simp [e])
    cases l with
    | nil =>
      have hta : t = a := by simpa using ht.symm
      subst hta
      refine ⟨hp, ?_⟩
      have e1 : setNext (setNext next job none) t (some job) t = some job := by simp [setNext]
      have hjt : ¬ job = t := fun e => haj e.symm
      have e2 : setNext (setNext next job none) t (some job) job = none := by
        simp [setNext, hjt]
      simp only [List.nil_append, Linked, e1, e2, and_self]
    | cons b l =>
      have ht1 : (b :: l).getLast? = some t := by simpa [List.getLast?_cons_cons] using ht
      have htm : t ∈ b :: l := List.mem_of_getLast?_eq_some ht1
      have hat : ¬ a = t := by
        intro e
        subst e
        exact (List.nodup_cons.mp hn).1 htm
      refine ⟨hp, ?_⟩
      have e : setNext (setNext next job none) t (some job) a = next a := by
        simp [setNext, hat, haj]
      show Linked _ (setNext (setNext next job none) t (some job) a) ((b :: l) ++ [job])
      rw [e]
      exact ih _ t hl ht1 (fun hm => hj (List.mem_cons_of_mem _ hm)) (List.nodup_cons.mp hn).2

theorem push_refused (jq : JobQueue) (job : Nat)
    (h : jq.IsStop = true ∨ (jq.maxSize ≠ 0 ∧ jq.size ≥ jq.maxSize)) :
    jq.Push job = .ret jq false := by
  unfold JobQueue.Push
  by_cases hs : jq.IsStop = true
  · simp [hs]
  · rcases h with h | h
    · exact absurd h hs
    · simp [hs, h]

theorem push_holds (jq : JobQueue) (l : List Nat) (job : Nat) (h : Holds jq l)
    (hj : job ∉ l) (hs : jq.IsStop = false)
    (hf : ¬ (jq.maxSize ≠ 0 ∧ jq.size ≥ jq.maxSize)) :
    ∃ jq1, jq.Push job = .ret jq1 true ∧ Holds jq1 (l ++ [job]) ∧ jq1.stop = jq.stop ∧
      jq1.maxSize = jq.maxSize := by
  obtain ⟨h1, h2, h3, h4⟩ := h
  unfold JobQueue.Push
  simp only [hs, Bool.false_eq_true, if_false, hf]
  cases l with
  | nil =>
    have hh : jq.head = none := h2
    have ht : jq.tail = none := by simpa using h3
    simp only [hh, ht, and_self, if_true]
    refine ⟨_, rfl, ⟨?_, ?_, ?_, ?_⟩, rfl, rfl⟩
    · simp [h1]
    · simp [Linked, setNext]
    · simp
    · simp
  | cons a l =>
    have hh : jq.head = some a := h2.1
    obtain ⟨t, ht⟩ : ∃ t, (a :: l).getLast? = some t := by
      cases hg : (a :: l).getLast? with
      | none => simp at hg
      | some t => exact ⟨t, rfl⟩
    have htl : jq.tail = some t := by rw [h3, ht]
    simp only [hh, htl, reduceCtorEq, and_self, if_false]
    refine ⟨_, rfl, ⟨?_, ?_, ?_, ?_⟩, rfl, rfl⟩
    · show jq.size + 1 = ((a :: l ++ [job]).length : Int)
      rw [h1]
      simp only [List.length_append, List.length_cons, List.length_singleton, List.length_nil]
      push_cast
      ring
    · have := linked_append jq.next job (a :: l) jq.head t h2 ht hj h4
      rw [hh] at this
      exact this
    · show some job = (a :: l ++ [job]).getLast?
      rw [List.getLast?_append]
      rfl
    · rw [List.nodup_append]
      refine ⟨h4, by simp, ?_⟩
      intro x hx hx1
      simp only [List.mem_singleton] at hx1
      subst hx1
      exact hj hx

theorem pop_holds_cons (jq : JobQueue) (a : Nat) (l : List Nat) (h : Holds jq (a :: l)) :
    ∃ jq1, jq.Pop = .ret jq1 (some a) ∧ Holds jq1 l ∧ jq1.stop = jq.stop ∧
      jq1.maxSize = jq.maxSize := by
  obtain ⟨h1, h2, h3, h4⟩ := h
  have hh : jq.head = some a := h2.1
  have hsz : ¬ jq.size = 0 := by
    rw [h1]
    simp only [List.length_cons]
    push_cast
    omega
  unfold JobQueue.Pop
  simp only [hsz, false_and, if_false, hh]
  cases l with
  | nil =>
    have hn : jq.next a = none := h2.2
    simp only [hn, if_true]
    refine ⟨_, rfl, ⟨?_, ?_, ?_, ?_⟩, rfl, rfl⟩
    · simp [h1]
    · rfl
    · simp
    · simp
  | cons b l =>
    have hn : jq.next a = some b := h2.2.1
    simp only [hn, reduceCtorEq, if_false]
    refine ⟨_, rfl, ⟨?_, ?_, ?_, ?_⟩, rfl, rfl⟩
    · simp only [h1, List.length_cons]
      push_cast
      ring
    · have := h2.2
      rw [hn] at this
      exact this
    · simpa [List.getLast?_cons_cons] using h3
    · exact (List.nodup_cons.mp h4).2

theorem pop_holds_nil (jq : JobQueue) (h : Holds jq []) :
    jq.Pop = if jq.IsStop then .ret jq none else .blocks := by
  obtain ⟨h1, _, _, _⟩ := h
  have hsz : jq.size = 0 := by simpa using h1
  unfold JobQueue.Pop
  cases hs : jq.IsStop <;> simp [hsz]

theorem stop_holds (jq : JobQueue) (l : List Nat) (h : Holds jq l) : Holds jq.Stop l := h

theorem newJobQueue_holds (maxSize : Int) : Holds (NewJobQueue maxSize) [] :=
  ⟨rfl, rfl, rfl, List.nodup_nil⟩

theorem run_holds (ops : List Op) :
    ∀ (r : Run) (l : List Nat), Holds r.jq l → r.pushed = r.popped ++ l → r.status = .done →
      freshPushes ops r.jq = true →
      ∃ l1, Holds (run ops r).jq l1 ∧ (run ops r).pushed = (run ops r).popped ++ l1 ∧
        ((run ops r).status = .done ∨
          ((run ops r).status = .blocked ∧ l1 = [] ∧ (run ops r).jq.IsStop = false)) := by
  induction ops with
  | nil => intro r l h hp hs _; exact ⟨l, h, hp, Or.inl hs⟩
  | cons op ops ih =>
    intro r l h hp hs hf
    cases op with
    | push job =>
      simp only [freshPushes, Bool.and_eq_true, Bool.not_eq_true_eq_eq_false,
        List.contains_eq_any_beq, List.any_eq_false, beq_iff_eq] at hf
      have hj : job ∉ l := by
        intro hm
        rw [holds_contents _ _ h] at hf
        simpa using hf.1 job hm
      by_cases hc : r.jq.IsStop = true ∨ (r.jq.maxSize ≠ 0 ∧ r.jq.size ≥ r.jq.maxSize)
      · have e := push_refused r.jq job hc
        rw [e] at hf
        simp only [run, e]
        exact ih _ l h hp hs hf.2
      · have hs1 : r.jq.IsStop = false := by
          cases hb : r.jq.IsStop
          · rfl
          · exact absurd (Or.inl hb) hc
        obtain ⟨jq1, e, h1, _, _⟩ := push_holds r.jq l job h hj hs1 (fun hx => hc (Or.inr hx))
        rw [e] at hf
        simp only [run, e]
        exact ih _ (l ++ [job]) h1 (by simp [hp]) hs hf.2
    | pop =>
      simp only [freshPushes] at hf
      cases l with
      | nil =>
        have e := pop_holds_nil r.jq h
        cases hb : r.jq.IsStop with
        | true =>
          rw [hb] at e
          simp only [if_true] at e
          rw [e] at hf
          simp only [run, e]
          exact ih _ [] h hp hs hf
        | false =>
          rw [hb] at e
          simp only [Bool.false_eq_true, if_false] at e
          simp only [run, e]
          exact ⟨[], h, hp, Or.inr ⟨trivial, rfl, hb⟩⟩
      | cons a l =>
        obtain ⟨jq1, e, h1, _, _⟩ := pop_holds_cons r.jq a l h
        rw [e] at hf
        simp only [run, e]
        exact ih _ l h1 (by simp [hp]) hs hf
    | stop =>
      simp only [freshPushes] at hf
      simp only [run]
      exact ih _ l (stop_holds _ _ h) hp hs hf

/-- C25 (amended): in a sequential run of `Push`, `Pop` and `Stop` on a new
queue in which no `Push` is given a job that is in the queue at that
moment, no call dereferences nil, and at every moment the jobs whose `Push`
returned true are the jobs returned by `Pop`, in push order, followed by
the jobs still in the queue, whose number is `Size`.  A `Pop` on a queue
that holds jobs returns the oldest one, stopped or not; `Pop` returns nil
only when the queue is empty and stopped, and does so then; on an empty
queue that is not stopped it waits. -/
theorem C25_job_queue_fifo (maxSize : Int) (ops : List Op)
    (hfresh : freshPushes ops (NewJobQueue maxSize) = true) :
    (runNew maxSize ops).status ≠ .panicked ∧
    (runNew maxSize ops).pushed = (runNew maxSize ops).popped ++ (runNew maxSize ops).jq.contents ∧
    (runNew maxSize ops).jq.Size = ((runNew maxSize ops).jq.contents.length : Int) ∧
    (∀ job rest, (runNew maxSize ops).jq.contents = job :: rest →
      ∃ jq1, (runNew maxSize ops).jq.Pop = .ret jq1 (some job) ∧ jq1.contents = rest) ∧
    (∀ jq1, (runNew maxSize ops).jq.Pop = .ret jq1 none →
      (runNew maxSize ops).jq.contents = [] ∧ (runNew maxSize ops).jq.IsStop = true) ∧
    ((runNew maxSize ops).jq.contents = [] → (runNew maxSize ops).jq.IsStop = true →
      (runNew maxSize ops).jq.Pop = .ret (runNew maxSize ops).jq none) ∧
    ((runNew maxSize ops).jq.contents = [] → (runNew maxSize ops).jq.IsStop = false →
      (runNew maxSize ops).jq.Pop = .blocks) ∧
    ((runNew maxSize ops).status = .blocked →
      (runNew maxSize ops).jq.contents = [] ∧ (runNew maxSize ops).jq.IsStop = false) := by
  obtain ⟨l, h, hp, hst⟩ := run_holds ops
    { jq := NewJobQueue maxSize, pushed := [], popped := [], status := .done } []
    (newJobQueue_holds maxSize) rfl rfl hfresh
  have hc := holds_contents _ _ h
  unfold runNew
  rw [hc]
  refine ⟨?_, hp, h.1, ?_, ?_, ?_, ?_, ?_⟩
  · rcases hst with e | ⟨e, _, _⟩ <;> rw [e] <;> decide
  · intro job rest hl
    subst hl
    obtain ⟨jq1, e, h1, _, _⟩ := pop_holds_cons _ job rest h
    exact ⟨jq1, e, holds_contents _ _ h1⟩
  · intro jq1 e
    cases l with
    | nil =>
      refine ⟨rfl, ?_⟩
      have e1 := pop_holds_nil _ h
      rw [e] at e1
      cases hb : (run ops
        { jq := NewJobQueue maxSize, pushed := [], popped := [], status := .done }).jq.IsStop
      · rw [hb] at e1
        simp at e1
      · rfl
    | cons a l =>
      obtain ⟨jq2, e2, _⟩ := pop_holds_cons _ a l h
      rw [e] at e2
      simp at e2
  · intro hl hs
    subst hl
    rw [pop_holds_nil _ h, hs]
    rfl
  · intro hl hs
    subst hl
    rw [pop_holds_nil _ h, hs]
    rfl
  · intro hb
    rcases hst with e | ⟨_, e1, e2⟩
    · rw [e] at hb
      exact absurd hb (by decide)
    · exact ⟨e1, e2⟩

set_option maxRecDepth 100000 in
/-- Witness of `C25_job_queue_fifo`: 100 jobs pushed to `NewJobQueue(0)`,
then `Stop`, then 101 `Pop`s: the jobs come back in push order, the queue is
empty and the run has not blocked (the last `Pop` returned nil). -/
theorem C25_job_queue_fifo_witness :
    (runNew 0 testOps).pushed = List.range 100 ∧
    (runNew 0 testOps).popped = List.range 100 ∧
    (runNew 0 testOps).status = .done ∧
    (runNew 0 testOps).jq.contents = [] := by
  have h := C25_job_queue_fifo 0 testOps (by decide)
  have e1 : (runNew 0 testOps).pushed = List.range 100 := by decide
  have e2 : (runNew 0 testOps).popped = List.range 100 := by decide
  refine ⟨e1, e2, by decide, ?_⟩
  have h2 := h.2.1
  rw [e1, e2] at h2
  simpa using h2.symm

/-- C25 (counterexample): the job 1 is pushed twice in a row, then the job
2; the three `Push`es return true and the three `Pop`s that follow return
the job 1 three times: the job 2 is never returned. -/
theorem C25_job_pushed_twice :
    (runNew 0 [.push 1, .push 1, .pop, .pop, .push 2, .pop]).pushed = [1, 1, 2] ∧
    (runNew 0 [.push 1, .push 1, .pop, .pop, .push 2, .pop]).popped = [1, 1, 1] ∧
    (runNew 0 [.push 1, .push 1, .pop, .pop, .push 2, .pop]).status = .done ∧
    (runNew 0 [.push 1, .push 2, .push 1, .pop, .pop]).status = .panicked := by
  decide

/-! ### C26 -/

/-- C26 (code): `Push` returns false exactly when the queue is stopped or
full, full meaning that `maxSize` is non-zero and the size is at least
`maxSize`, although its comment says that false means the list is full; the
queue is then unchanged.  When it returns true the size has
grown by one and the job is the new tail.  `Push` never waits, and it
returns whenever the queue does not have a head without a tail. -/
theorem C26_push_result (jq : JobQueue) (job : Nat) :
    (jq.IsStop = true ∨ (jq.maxSize ≠ 0 ∧ jq.size ≥ jq.maxSize) → jq.Push job = .ret jq false) ∧
    (∀ jq1, jq.Push job = .ret jq1 false →
      (jq.IsStop = true ∨ (jq.maxSize ≠ 0 ∧ jq.size ≥ jq.maxSize)) ∧ jq1 = jq) ∧
    (∀ jq1, jq.Push job = .ret jq1 true →
      jq.IsStop = false ∧ ¬ (jq.maxSize ≠ 0 ∧ jq.size ≥ jq.maxSize) ∧
      jq1.size = jq.size + 1 ∧ jq1.tail = some job ∧
      (jq.head = none ∧ jq.tail = none → jq1.head = some job) ∧
      (¬ (jq.head = none ∧ jq.tail = none) → jq1.head = jq.head)) ∧
    ((jq.tail = none → jq.head = none) → ∃ jq1 b, jq.Push job = .ret jq1 b) ∧
    jq.Push job ≠ .blocks := by
  by_cases hc : jq.IsStop = true ∨ (jq.maxSize ≠ 0 ∧ jq.size ≥ jq.maxSize)
  · have e := push_refused jq job hc
    rw [e]
    refine ⟨fun _ => rfl, ?_, ?_, fun _ => ⟨jq, false, rfl⟩, by simp⟩
    · intro jq1 h
      injection h with h1 _
      exact ⟨hc, h1.symm⟩
    · intro jq1 h
      injection h with _ h2
      cases h2
  · have hs : jq.IsStop = false := by
      cases hb : jq.IsStop
      · rfl
      · exact absurd (Or.inl hb) hc
    have hf : ¬ (jq.maxSize ≠ 0 ∧ jq.size ≥ jq.maxSize) := fun hx => hc (Or.inr hx)
    refine ⟨fun h => absurd h hc, ?_, ?_, ?_, ?_⟩
    · intro jq1 h
      exfalso
      unfold JobQueue.Push at h
      simp only [hs, Bool.false_eq_true, if_false, hf] at h
      split_ifs at h
      · injection h with _ h2
        cases h2
      · split at h
        · cases h
        · injection h with _ h2
          cases h2
    · intro jq1 h
      unfold JobQueue.Push at h
      simp only [hs, Bool.false_eq_true, if_false, hf] at h
      split_ifs at h with hn
      · injection h with h1 _
        subst h1
        exact ⟨hs, hf, rfl, rfl, fun _ => rfl, fun hne => absurd hn hne⟩
      · split at h
        · cases h
        · rename_i t ht
          injection h with h1 _
          subst h1
          exact ⟨hs, hf, rfl, rfl, fun hh => absurd hh hn, fun _ => rfl⟩
    · intro ht
      unfold JobQueue.Push
      simp only [hs, Bool.false_eq_true, if_false, hf]
      split_ifs with hn
      · exact ⟨_, true, rfl⟩
      · split
        · rename_i hx
          exact absurd ⟨ht hx, hx⟩ hn
        · exact ⟨_, true, rfl⟩
    · unfold JobQueue.Push
      simp only [hs, Bool.false_eq_true, if_false, hf]
      split_ifs
      · simp
      · split <;> simp

/-- Witness of `C26_push_result`: on `NewJobQueue(1)` the first `Push`
returns true and the second, the queue being full, returns false and
leaves the queue as it is. -/
theorem C26_push_result_witness :
    ((NewJobQueue 1).Push 1).value? = some true ∧
    (runNew 1 [.push 1]).jq.Push 2 = .ret (runNew 1 [.push 1]).jq false :=
  ⟨by decide, (C26_push_result (runNew 1 [.push 1]).jq 2).1 (Or.inr (by decide))⟩

/-- C26 (code), at the failing input: on `NewJobQueue(0)`, which has no
upper limit and is never full, `Push` returns false after `Stop`, and leaves
the queue empty. -/
theorem C26_push_on_stopped_queue :
    ((NewJobQueue 0).Stop.Push 1).value? = some false ∧
    ((NewJobQueue 0).Push 1).value? = some true ∧
    (runNew 0 [.stop, .push 1]).pushed = [] ∧
    (runNew 0 [.stop, .push 1]).jq.contents = [] := by
  decide

/-! ### C27 -/

theorem slicePadLoop_eq {α : Type} (size : Int) (val : α) :
    ∀ (fuel i : Nat) (slice : List α),
      (size - (slice.length : Int) - i : Int) ≤ 2 * fuel →
      SlicePadLoop size val (fuel + 1) i slice
        = some (slice ++ List.replicate ((size - (slice.length : Int) - i + 1) / 2).toNat val) := by
  intro fuel
  induction fuel with
  | zero =>
    intro i slice h
    have hc : ¬ ((i : Int) < size - (slice.length : Int)) := by omega
    have e : ((size - (slice.length : Int) - i + 1) / 2).toNat = 0 := by omega
    simp [SlicePadLoop, hc, e]
  | succ fuel ih =>
    intro i slice h
    unfold SlicePadLoop
    split_ifs with hc
    · rw [ih (i + 1) (slice ++ [val])]
      · have e : ((size - (slice.length : Int) - i + 1) / 2).toNat
            = ((size - ((slice ++ [val]).length : Int) - ((i + 1 : Nat) : Int) + 1) / 2).toNat + 1 := by
          simp only [List.length_append, List.length_singleton]
          push_cast
          omega
        rw [e, List.replicate_succ, List.append_assoc]
        rfl
      · simp only [List.length_append, List.length_singleton]
        push_cast
        omega
    · have e : ((size - (slice.length : Int) - i + 1) / 2).toNat = 0 := by omega
      simp [e]

/-- What `SlicePad` returns: it always returns, and for `size > len(s)` it
appends `(size - len(s) + 1) / 2` copies of `val`, half of what is
missing, rounded up. -/
theorem slicePad_eq {α : Type} (s : List α) (size : Int) (val : α) :
    SlicePad s size val =
      some (if size ≤ (s.length : Int) then s
            else s ++ List.replicate ((size - (s.length : Int) + 1) / 2).toNat val) := by
  unfold SlicePad
  split_ifs with h
  · rfl
  · rw [slicePadLoop_eq size val size.toNat 0 s (by push_cast; omega)]
    simp

/-- C27 (code): `SlicePad` does not pad to the requested length.  The bound
`size - len(slice)` of its loop shrinks while the slice grows, so that for
`size > len(s)` only `(size - len(s) + 1) / 2` copies of `val` are appended:
`SlicePad([], 4, v)` has length 2 and `SlicePad([1, 2], 5, 0)` is
`[1, 2, 0, 0]`.  The result has length `size` exactly when one element is
missing, and `s` is returned unchanged for `size <= len(s)`. -/
theorem C27_slice_pad_stops_half_way :
    SlicePad ([] : List Nat) 4 7 = some [7, 7] ∧
    SlicePad [1, 2] 5 0 = some [1, 2, 0, 0] ∧
    (∀ (α : Type) (s : List α) (size : Int) (val : α), (s.length : Int) < size →
      ∃ r, SlicePad s size val = some r ∧
        r = s ++ List.replicate ((size - (s.length : Int) + 1) / 2).toNat val ∧
        ((r.length : Int) = size ↔ size = (s.length : Int) + 1)) ∧
    (∀ (α : Type) (s : List α) (size : Int) (val : α), size ≤ (s.length : Int) →
      SlicePad s size val = some s) := by
  refine ⟨by decide, by decide, ?_, ?_⟩
  · intro α s size val h
    refine ⟨_, slicePad_eq s size val, ?_, ?_⟩
    · simp [not_le.mpr h]
    · simp only [not_le.mpr h, if_false, List.length_append, List.length_replicate]
      push_cast
      omega
  · intro α s size val h
    rw [slicePad_eq, if_pos h]

/-! ### C28 -/

/-- C28 (code): the access `requestPath[n-1]` of the scan of the fixed
routes is out of range on the empty path.  For every request with the
empty path and every table whose first fixed route has a non-empty
pattern, the scan panics at that route; with `Add("/admin", c)` registered,
a GET with the empty path ends in the deferred function, which recovers the
index panic and calls `SimpleServerError`. -/
theorem C28_empty_path_index_panic :
    (∀ (req : Request) (route : controllerInfo) (rest : List controllerInfo) (c : Ctx),
      req.Path = [] → route.pattern ≠ [] →
        fixLoop req (route :: rest) c = (c, .panic indexPanic)) ∧
    (single "/admin".toList 2).fixrouters = [⟨"/admin".toList, none, [], 2, [], false⟩] ∧
    (serveBody plainConfig (single "/admin".toList 2) (plainRequest "GET".toList [])
        (initCtx (plainRequest "GET".toList []))).2 = .panic indexPanic ∧
    (ServeHTTP plainConfig (single "/admin".toList 2) (plainRequest "GET".toList [])).trace
      = [.recover indexPanic, .errorHandler .SimpleServerError] := by
  refine ⟨?_, by decide, by decide, by decide⟩
  intro req route rest c hp hr
  have h1 : ¬ ([] : Str) = route.pattern := fun e => hr e.symm
  simp [fixLoop, hp, h1, hr]

/-! ### What a stage keeps: the trace and the flag `started` -/

theorem before_refl (c : Ctx) : c.before c := ⟨List.prefix_refl _, id⟩

theorem before_trans {a b c : Ctx} (h1 : a.before b) (h2 : b.before c) : a.before c :=
  ⟨h1.1.trans h2.1, fun h => h2.2 (h1.2 h)⟩

theorem before_of_eq {a b : Ctx} (ht : b.trace = a.trace) (hs : b.started = a.started) :
    a.before b := ⟨ht ▸ List.prefix_refl _, fun h => hs ▸ h⟩

theorem before_log (c : Ctx) (e : Event) : c.before (c.log e) :=
  ⟨List.prefix_append _ _, id⟩

theorem before_start (c : Ctx) : c.before c.start := ⟨List.prefix_refl _, fun _ => rfl⟩

theorem keeps_id (fl : Flow) : Keeps (fun c => (c, fl)) := fun c => before_refl c

theorem keeps_andThen {a b : Ctx → Ctx × Flow} (ha : Keeps a) (hb : Keeps b) :
    Keeps (andThen a b) := by
  intro c
  unfold andThen
  have h1 := ha c
  cases h : a c with
  | mk c1 fl =>
    rw [h] at h1
    cases fl with
    | cont => exact before_trans h1 (hb c1)
    | ret => exact h1
    | panic v => exact h1

theorem keeps_runUser (req : Request) (u : UserCode) (ev : Event) : Keeps (runUser req u ev) := by
  intro c
  unfold runUser
  refine ⟨?_, ?_⟩
  · cases u.panics <;> exact List.prefix_append _ _
  · intro h
    cases u.panics <;> simp [h]

theorem keeps_ite (b : Ctx → Bool) {f g : Ctx → Ctx × Flow} (hf : Keeps f) (hg : Keeps g) :
    Keeps (fun c => if b c then f c else g c) := by
  intro c
  dsimp only
  split_ifs
  · exact hf c
  · exact hg c

theorem keeps_log (ev : Event) (fl : Flow) : Keeps (fun c => (c.log ev, fl)) :=
  fun c => before_log c ev

theorem keeps_doFilterLoop (req : Request) (u : Str) (pos : Nat) (l : List FilterRouter) :
    ∀ idx, Keeps (doFilterLoop req u pos l idx) := by
  induction l with
  | nil => intro idx c; exact before_refl c
  | cons f l ih =>
    intro idx c
    cases hv : (f.ValidRouter u).1 with
    | false =>
      rw [doFilterLoop_cons_skip _ _ _ _ _ _ _ hv]
      exact ih _ c
    | true =>
      have hstep : c.before
          { c with InputParams := (f.ValidRouter u).2,
                   trace := c.trace ++ [.filterFunc pos idx],
                   started := c.started || (f.filterFunc.writes && !req.websocket) } :=
        ⟨List.prefix_append _ _, fun h => by simp [h]⟩
      cases hp : f.filterFunc.panics with
      | some v =>
        rw [doFilterLoop_cons_panic _ _ _ _ _ _ _ v hv hp]
        exact hstep
      | none =>
        rw [doFilterLoop_cons_match _ _ _ _ _ _ _ hv hp]
        split_ifs
        · exact hstep
        · exact before_trans hstep (ih _ _)

theorem keeps_doFilter (p : ControllerRegistor) (req : Request) (u : Str) (pos : Nat) :
    Keeps (doFilter p req u pos) := by
  intro c
  unfold doFilter
  split_ifs
  · split
    · exact keeps_doFilterLoop req u pos _ 0 c
    · exact before_refl c
  · exact before_refl c

theorem keeps_Exception (em : List (Str × Handler)) (code : Str) : Keeps (Exception em code) := by
  intro c
  unfold Exception
  split <;> exact before_log c _

theorem keeps_staticLoop (cfg : Config) (req : Request) (l : List (Str × Str)) :
    Keeps (staticLoop cfg req l) := by
  induction l with
  | nil => intro c; exact before_refl c
  | cons x l ih =>
    intro c
    obtain ⟨pre, dir⟩ := x
    have hfav : c.before (if req.Path = "/favicon.ico".toList then
        (c.log (.serveFile (dir ++ req.Path))).start else c) := by
      split_ifs
      · exact before_trans (before_log c _) (before_start _)
      · exact before_refl c
    simp only [staticLoop]
    generalize (if req.Path = "/favicon.ico".toList then
      (c.log (.serveFile (dir ++ req.Path))).start else c) = c1 at hfav ⊢
    refine before_trans hfav ?_
    by_cases hp : HasPrefix req.Path pre = true
    · simp only [hp, if_true]
      cases cfg.stat (dir ++ List.drop pre.length req.Path) with
      | none => exact before_trans (before_trans (before_log _ _) (before_start _)) (ih _)
      | some isDir =>
        simp only
        split_ifs
        · exact keeps_andThen (keeps_Exception _ _) ih _
        · exact before_trans (before_trans (before_log _ _) (before_start _)) (ih _)
    · simp only [hp, if_false]
      exact ih _

theorem keeps_fixLoop (req : Request) (l : List controllerInfo) : Keeps (fixLoop req l) := by
  induction l with
  | nil => intro c; exact before_refl c
  | cons x l ih =>
    intro c
    simp only [fixLoop]
    repeat' split
    all_goals first
      | exact before_refl _
      | (refine before_trans ?_ (ih _)
         refine ⟨?_, ?_⟩ <;> simp [Ctx.log, Ctx.start])

theorem keeps_patLoop (req : Request) (l : List controllerInfo) : Keeps (patLoop req l) := by
  induction l with
  | nil => intro c; exact before_refl c
  | cons x l ih =>
    intro c
    simp only [patLoop_cons]
    repeat' split
    all_goals first
      | exact before_refl _
      | (refine before_trans ?_ (ih _)
         refine ⟨?_, ?_⟩ <;> simp [Ctx.log, Ctx.start])
      | (refine ⟨?_, ?_⟩ <;> simp [Ctx.log, Ctx.start])

theorem keeps_resolve (p : ControllerRegistor) (req : Request) : Keeps (resolve p req) :=
  keeps_andThen (keeps_fixLoop req _)
    (keeps_ite (fun c => !c.findrouter) (keeps_patLoop req _) (keeps_id _))

theorem keeps_notFoundStage (cfg : Config) : Keeps (notFoundStage cfg) :=
  keeps_ite (fun c => !c.findrouter)
    (keeps_andThen (keeps_Exception _ _) (keeps_id _)) (keeps_id _)

theorem keeps_xsrfStage (cfg : Config) (req : Request) (k : Controller) :
    Keeps (xsrfStage cfg req k) := by
  unfold xsrfStage
  by_cases hx : cfg.enableXSRF = true
  · simp only [hx, if_true]
    refine keeps_andThen (keeps_runUser _ _ _) ?_
    intro c
    dsimp only
    split_ifs
    · exact keeps_runUser _ _ _ c
    · exact before_refl c
  · simp only [hx]
    exact keeps_id _

theorem keeps_callMethod (req : Request) (k : Controller) (runMethod : Str) :
    Keeps (callMethod req k runMethod) := by
  unfold callMethod
  repeat' split
  all_goals first
    | exact keeps_runUser _ _ _
    | exact keeps_id _

theorem keeps_renderStage (cfg : Config) (req : Request) (k : Controller) :
    Keeps (renderStage cfg req k) := by
  intro c
  unfold renderStage
  have hr := keeps_runUser req k.Render .Render c
  by_cases h1 : (!c.started && !req.websocket) = true
  · by_cases h2 : cfg.autoRender = true
    · simp only [h1, h2, if_true]
      cases hu : runUser req k.Render .Render c with
      | mk c1 fl =>
        rw [hu] at hr
        cases fl with
        | cont =>
          by_cases h3 : k.RenderFails = true
          · simp only [h3, if_true]
            exact before_trans hr (before_log _ _)
          · simp only [h3, Bool.false_eq_true, if_false]
            exact hr
        | ret => exact hr
        | panic v => exact hr
    · simp only [h1, h2, if_true, Bool.false_eq_true, if_false]
      exact before_refl c
  · simp only [h1, Bool.false_eq_true, if_false]
    exact before_refl c

theorem keeps_execStage (cfg : Config) (req : Request) (k : Controller) :
    Keeps (execStage cfg req k) := by
  intro c
  unfold execStage
  by_cases hs : (!c.started) = true
  · simp only [hs, if_true]
    refine keeps_andThen (keeps_callMethod req k c.runMethod)
      (keeps_andThen ?_ (keeps_renderStage cfg req k)) c
    by_cases ha : cfg.enableAccessLog = true
    · simp only [ha, if_true]
      exact keeps_runUser _ _ _
    · simp only [ha, Bool.false_eq_true, if_false]
      exact keeps_id _
  · simp only [hs, Bool.false_eq_true, if_false]
    exact before_refl c

theorem keeps_runController (cfg : Config) (p : ControllerRegistor) (req : Request) (u : Str)
    (k : Controller) : Keeps (runController cfg p req u k) := by
  unfold runController
  refine keeps_andThen (keeps_runUser _ _ _) (keeps_andThen (keeps_runUser _ _ _) ?_)
  by_cases hf : k.FilterResult = true
  · simp only [hf, Bool.not_true, Bool.false_eq_true, if_false]
    exact keeps_andThen (keeps_execStage cfg req k)
      (keeps_andThen (keeps_runUser _ _ _) (keeps_doFilter p req u AFTER_EXEC))
  · simp only [hf, Bool.not_false, if_true]
    exact keeps_andThen (keeps_runUser _ _ _) (keeps_andThen (keeps_runUser _ _ _) (keeps_id _))

theorem keeps_execRoute (cfg : Config) (p : ControllerRegistor) (req : Request) (u : Str) :
    Keeps (execRoute cfg p req u) := by
  unfold execRoute
  refine keeps_andThen (keeps_doFilter p req u BEFORE_EXEC) ?_
  intro c
  dsimp only
  split
  · exact before_refl c
  · split_ifs
    · exact before_log c _
    · exact keeps_andThen (keeps_runUser _ _ _)
        (keeps_andThen (keeps_xsrfStage cfg req _) (keeps_runController cfg p req u _)) c

theorem keeps_afterRouter (cfg : Config) (p : ControllerRegistor) (req : Request) :
    Keeps (afterRouter cfg p req) :=
  keeps_andThen (keeps_resolve p req)
    (keeps_andThen (keeps_notFoundStage cfg) (keeps_execRoute cfg p req _))

theorem keeps_beforeRouter (cfg : Config) (p : ControllerRegistor) (req : Request) :
    Keeps (beforeRouter cfg p req) := by
  unfold beforeRouter
  refine keeps_andThen ?_ (keeps_andThen ?_ (keeps_andThen ?_
    (keeps_andThen (keeps_doFilter p req _ BEFORE_STATIC) ?_)))
  · exact keeps_ite (fun _ => cfg.sessionOn && decide (cfg.runMode = "web".toList))
      (keeps_log _ _) (keeps_id _)
  · intro c
    dsimp only
    split_ifs
    · exact before_trans (before_log c _) (before_start _)
    · exact before_refl c
  · exact keeps_ite (fun _ => req.Method != "GET".toList && req.Method != "HEAD".toList)
      (keeps_log _ _) (keeps_id _)
  · intro c
    dsimp only
    split_ifs
    · exact keeps_staticLoop cfg req _ c
    · exact before_refl c

theorem keeps_serveBody (cfg : Config) (p : ControllerRegistor) (req : Request) :
    Keeps (serveBody cfg p req) :=
  keeps_andThen (keeps_beforeRouter cfg p req)
    (keeps_andThen (keeps_doFilter p req _ BEFORE_ROUTER) (keeps_afterRouter cfg p req))

theorem before_recoverStage (cfg : Config) (r : Ctx × Flow) : r.1.before (recoverStage cfg r) := by
  obtain ⟨c, fl⟩ := r
  unfold recoverStage
  cases fl with
  | cont => exact before_refl c
  | ret => exact before_refl c
  | panic v =>
    simp only
    split_ifs
    · exact before_log c _
    · exact before_trans (before_log c _) (before_log _ _)

/-- The controller stage on a response that is already started, when no
method of the controller panics: `Init`, the XSRF calls, `Prepare`, the
`Filter` hook and `Finish` run, the verb handler does not. -/
theorem startedController (cfg : Config) (p : ControllerRegistor) (req : Request) (u : Str)
    (k : Controller) (t : ReflectType) (c : Ctx) (hs : c.started = true)
    (hI : k.Init.panics = none) (hX : k.XsrfToken.panics = none)
    (hC : k.CheckXSRFCookie.panics = none) (hP : k.Prepare.panics = none)
    (hF : k.Filter.panics = none) (hA : k.accessLog.panics = none)
    (hFin : k.Finish.panics = none) :
    ∃ xs, (∀ e ∈ xs, e = Event.XsrfToken ∨ e = Event.CheckXSRFCookie) ∧
      andThen (runUser req k.Init (.Init t c.runMethod))
          (andThen (xsrfStage cfg req k) (runController cfg p req u k)) c =
        if k.FilterResult = false then
          ({ c with trace := c.trace ++ [.Init t c.runMethod] ++ xs
                      ++ [.Prepare, .Filter, .accessLog, .Finish] }, .ret)
        else
          doFilter p req u AFTER_EXEC
            { c with trace := c.trace ++ [.Init t c.runMethod] ++ xs
                       ++ [.Prepare, .Filter, .Finish] } := by
  by_cases hx : cfg.enableXSRF = true
  · by_cases hm : (req.Method = "POST".toList || req.Method = "DELETE".toList
        || req.Method = "PUT".toList
        || (req.Method = "POST".toList
            && valuesGet req.Form "_method".toList = "put".toList)) = true
    · refine ⟨[.XsrfToken, .CheckXSRFCookie], by simp, ?_⟩
      unfold xsrfStage runController execStage
      simp only [hx, if_true, hm, andThen, runUser, hI, hX, hC, hP, hF, hA, hFin, hs, Ctx.log]
      cases k.FilterResult <;> simp
    · refine ⟨[.XsrfToken], by simp, ?_⟩
      unfold xsrfStage runController execStage
      simp only [hx, if_true, hm, andThen, runUser, hI, hX, hC, hP, hF, hA, hFin, hs, Ctx.log]
      cases k.FilterResult <;> simp
  · refine ⟨[], by simp, ?_⟩
    unfold xsrfStage runController execStage
    simp only [hx, andThen, runUser, hI, hX, hC, hP, hF, hA, hFin, hs, Ctx.log]
    cases k.FilterResult <;> simp

/-! ### C30 -/

/-- C30: no stage of `ServeHTTP` resets the flag `started`: once it is set
it is still set after the body, after each of its parts and after the
deferred function.  A matching filter with `returnOnOutput = true` that
returns therefore ends the loop of `doFilter` with `true` whenever the
response was started before it, whatever the filter itself writes; at the
`BEFORE_ROUTER` stage `ServeHTTP` then returns in the state after that
filter's call. -/
theorem C30_started_is_sticky (cfg : Config) (p : ControllerRegistor) (req : Request) :
    (∀ c : Ctx, c.started = true → (serveBody cfg p req c).1.started = true) ∧
    (∀ c : Ctx, c.started = true → (beforeRouter cfg p req c).1.started = true) ∧
    (∀ (u : Str) (pos : Nat) (c : Ctx), c.started = true →
      (doFilter p req u pos c).1.started = true) ∧
    (∀ c : Ctx, c.started = true → (afterRouter cfg p req c).1.started = true) ∧
    (∀ r : Ctx × Flow, r.1.started = true → (recoverStage cfg r).started = true) ∧
    (∀ (u : Str) (pos : Nat) (f : FilterRouter) (rest : List FilterRouter) (idx : Nat) (c : Ctx),
      c.started = true → (f.ValidRouter u).1 = true → f.returnOnOutput = true →
      f.filterFunc.panics = none →
        doFilterLoop req u pos (f :: rest) idx c =
          ({ c with InputParams := (f.ValidRouter u).2,
                    trace := c.trace ++ [.filterFunc pos idx] }, .ret)) ∧
    (∀ (c0 c1 : Ctx) (pre post : List FilterRouter) (f : FilterRouter),
      p.enableFilter = true →
      mapGet? p.filters BEFORE_ROUTER = some (pre ++ f :: post) →
      beforeRouter cfg p req (initCtx req) = (c0, .cont) →
      doFilterLoop req (urlPathOf cfg req) BEFORE_ROUTER pre 0 c0 = (c1, .cont) →
      c1.started = true → (f.ValidRouter (urlPathOf cfg req)).1 = true →
      f.returnOnOutput = true → f.filterFunc.panics = none →
        ServeHTTP cfg p req =
          { c1 with InputParams := (f.ValidRouter (urlPathOf cfg req)).2,
                    trace := c1.trace ++ [.filterFunc BEFORE_ROUTER pre.length] }) := by
  have hloop : ∀ (u : Str) (pos : Nat) (f : FilterRouter) (rest : List FilterRouter) (idx : Nat)
      (c : Ctx), c.started = true → (f.ValidRouter u).1 = true → f.returnOnOutput = true →
      f.filterFunc.panics = none →
        doFilterLoop req u pos (f :: rest) idx c =
          ({ c with InputParams := (f.ValidRouter u).2,
                    trace := c.trace ++ [.filterFunc pos idx] }, .ret) := by
    intro u pos f rest idx c hs hv hr hp
    rw [doFilterLoop_cons_match req u pos f rest idx c hv hp]
    simp only [hr, hs, Bool.true_or, Bool.and_self, if_true]
  refine ⟨fun c => (keeps_serveBody cfg p req c).2, fun c => (keeps_beforeRouter cfg p req c).2,
    fun u pos c => (keeps_doFilter p req u pos c).2, fun c => (keeps_afterRouter cfg p req c).2,
    fun r => (before_recoverStage cfg r).2, hloop, ?_⟩
  intro c0 c1 pre post f hen hl hb hpre hs hv hr hp
  unfold ServeHTTP
  rw [serveBody_at_filter cfg p req c0 c1 pre post f hen hl hb hpre,
    andThen_stop _ _ _ _ _ (hloop _ _ f post pre.length c1 hs hv hr hp) (by simp)]
  rfl

/-- Witness of `C30_started_is_sticky`: a filter registered with
`returnOnOutput = false` writes, and the next filter, which writes nothing
and has `returnOnOutput = true`, ends the request; the same filter ends a
request that a static file has started, and lets pass a request that
nothing has started. -/
theorem C30_started_is_sticky_witness :
    (ServeHTTP plainConfig twoFilterApp (plainRequest "GET".toList "/a".toList)).trace
      = [.filterFunc BEFORE_ROUTER 0, .filterFunc BEFORE_ROUTER 1] ∧
    (ServeHTTP staticConfig quietFilterApp
        (plainRequest "GET".toList "/static/app.css".toList)).trace
      = [.serveFile "public/app.css".toList, .filterFunc BEFORE_ROUTER 0] ∧
    (ServeHTTP plainConfig quietFilterApp
        (plainRequest "GET".toList "/static/app.css".toList)).trace
      = [.filterFunc BEFORE_ROUTER 0, .Init 3 "Get".toList, .Prepare, .Filter,
         .call "Get".toList, .accessLog, .Render, .Finish] :=
  ⟨(congrArg Ctx.trace
      ((C30_started_is_sticky plainConfig twoFilterApp
          (plainRequest "GET".toList "/a".toList)).2.2.2.2.2.2
        (initCtx (plainRequest "GET".toList "/a".toList))
        { initCtx (plainRequest "GET".toList "/a".toList) with
            started := true, trace := [.filterFunc BEFORE_ROUTER 0] }
        [⟨⟨true, none⟩, matchAll "/*".toList, "/*".toList, false⟩] []
        ⟨quiet, matchAll "/*".toList, "/*".toList, true⟩
        rfl rfl rfl rfl rfl rfl rfl rfl)).trans (by decide),
   by decide, by decide⟩

/-! ### Started responses and the filters -/

/-- On a non-empty path that does not end in `/`, the scan passes over the
fixed routes whose pattern is neither the path nor the path followed by
`/`, in the same state. -/
theorem fixLoop_noslash_pass (req : Request) (last : Char) (hl : req.Path.getLast? = some last)
    (hs : last ≠ '/') (pre rest : List controllerInfo) :
    ∀ c : Ctx, (∀ x ∈ pre, x.pattern ≠ req.Path ∧ x.pattern ≠ req.Path ++ "/".toList) →
      fixLoop req (pre ++ rest) c = fixLoop req rest c := by
  induction pre with
  | nil => intro c _; rfl
  | cons x pre ih =>
    intro c h
    obtain ⟨h1, h2⟩ := h x (List.mem_cons_self _ _)
    have h1' : ¬ req.Path = x.pattern := fun e => h1 e.symm
    have h2' : ¬ req.Path ++ ['/'] = x.pattern := fun e => h2 e.symm
    rw [List.cons_append, ← ih c (fun y hy => h y (List.mem_cons_of_mem _ hy))]
    simp [fixLoop, h1', hl, hs, h2']

/-- What `middleware.Exception` does: the call is recorded, and a nil entry
under the code panics. -/
theorem exception_eq (em : List (Str × Handler)) (code : Str) (c : Ctx) :
    Exception em code c =
      (c.log (.exception code),
       if mapGet? em code = some .nil then .panic nilPanic else .cont) := by
  unfold Exception
  cases hm : mapGet? em code with
  | none => simp
  | some h => cases h <;> simp

/-- The stage of lines 575-579 when no route was found. -/
theorem notFoundStage_none (cfg : Config) (c : Ctx) (hf : c.findrouter = false) :
    notFoundStage cfg c =
      (c.log (.exception "404".toList),
       if mapGet? cfg.ErrorMaps "404".toList = some .nil then .panic nilPanic else .ret) := by
  simp only [notFoundStage, hf, Bool.not_false, if_true, andThen, exception_eq]
  split_ifs <;> rfl

/-- On a response that is already started, a matching filter registered with
`returnOnOutput = true` that returns ends the loop of `doFilter` with
`true`, whatever it writes. -/
theorem doFilterLoop_started (req : Request) (u : Str) (pos : Nat) (g : FilterRouter)
    (rest : List FilterRouter) (idx : Nat) (c : Ctx) (hs : c.started = true)
    (hv : (g.ValidRouter u).1 = true) (hr : g.returnOnOutput = true)
    (hp : g.filterFunc.panics = none) :
    doFilterLoop req u pos (g :: rest) idx c =
      ({ c with InputParams := (g.ValidRouter u).2,
                trace := c.trace ++ [.filterFunc pos idx] }, .ret) := by
  rw [doFilterLoop_cons_match req u pos g rest idx c hv hp]
  simp only [hr, hs, Bool.true_or, Bool.and_self, if_true]

/-- The filters of a stage on a started response: when the filters before
`g` let the request pass, and `g` matches, is registered with
`returnOnOutput = true` and returns, `doFilter` answers `true` right after
the call of `g`. -/
theorem doFilter_started (p : ControllerRegistor) (req : Request) (u : Str) (pos : Nat)
    (m post : List FilterRouter) (g : FilterRouter) (c c1 : Ctx)
    (hen : p.enableFilter = true) (hl : mapGet? p.filters pos = some (m ++ g :: post))
    (hm : doFilterLoop req u pos m 0 c = (c1, .cont)) (hs : c.started = true)
    (hv : (g.ValidRouter u).1 = true) (hr : g.returnOnOutput = true)
    (hp : g.filterFunc.panics = none) :
    doFilter p req u pos c =
      ({ c1 with InputParams := (g.ValidRouter u).2,
                 trace := c1.trace ++ [.filterFunc pos m.length] }, .ret) := by
  have h1 : c1.started = true := by
    have hk := keeps_doFilterLoop req u pos m 0 c
    rw [hm] at hk
    exact hk.2 hs
  have h := doFilterLoop_append req u pos m (g :: post) 0 c c1 hm
  simp only [Nat.zero_add] at h
  simp only [doFilter, hen, if_true, hl, h]
  exact doFilterLoop_started req u pos g post m.length c1 h1 hv hr hp

/-! ### C29 -/

/-- C29 (amended): a request path that does not end in `/` meets a fixed
route whose pattern is the path followed by `/`, the routes before it having
other patterns: the 301 redirect is issued, the response is started, and the
scan goes on with the remaining fixed routes and then, when none is found,
with the pattern routes.  When no route is found, `middleware.Exception`
answers 404 on the same response and `ServeHTTP` returns (a nil entry of
`ErrorMaps` under `404` panics instead).  When a later route is found, the
`BEFORE_EXEC` filters run on the started response: the first matching one
registered with `returnOnOutput = true` ends the request right after its
call, before the controller is instantiated.  When they let the request
pass and the controller type implements the interface and none of its
methods panics, `Init`, the XSRF calls, `Prepare`, the `Filter` hook and
`Finish` run, and the whole block of the verb handler is skipped: the
handler, the access log of line 645 and auto-render. -/
theorem C29_redirect_not_terminal (cfg : Config) (p : ControllerRegistor) (req : Request)
    (pre : List controllerInfo) (r : controllerInfo) (rest : List controllerInfo) (c : Ctx)
    (last : Char)
    (hlast : req.Path.getLast? = some last) (hl : last ≠ '/')
    (hr : r.pattern = req.Path ++ "/".toList)
    (hpre : ∀ x ∈ pre, x.pattern ≠ req.Path ∧ x.pattern ≠ req.Path ++ "/".toList)
    (hfix : p.fixrouters = pre ++ r :: rest) :
    fixLoop req (pre ++ r :: rest) c =
      fixLoop req rest
        { c with started := true,
                 trace := c.trace ++ [.redirect (req.Path ++ "/".toList) 301] } ∧
    resolve p req c =
      resolve { p with fixrouters := rest } req
        { c with started := true,
                 trace := c.trace ++ [.redirect (req.Path ++ "/".toList) 301] } ∧
    (∀ c2, resolve p req c = (c2, .cont) →
      c.trace ++ [.redirect (req.Path ++ "/".toList) 301] <+: c2.trace ∧ c2.started = true) ∧
    (∀ c2, resolve p req c = (c2, .cont) → c2.findrouter = false →
      afterRouter cfg p req c
        = ({ c2 with trace := c2.trace ++ [.exception "404".toList] },
           if mapGet? cfg.ErrorMaps "404".toList = some .nil then .panic nilPanic else .ret)) ∧
    (∀ c2 c3 m g post, resolve p req c = (c2, .cont) → c2.findrouter = true →
      p.enableFilter = true → mapGet? p.filters BEFORE_EXEC = some (m ++ g :: post) →
      doFilterLoop req (urlPathOf cfg req) BEFORE_EXEC m 0 c2 = (c3, .cont) →
      (g.ValidRouter (urlPathOf cfg req)).1 = true → g.returnOnOutput = true →
      g.filterFunc.panics = none →
      afterRouter cfg p req c
        = ({ c3 with InputParams := (g.ValidRouter (urlPathOf cfg req)).2,
                     trace := c3.trace ++ [.filterFunc BEFORE_EXEC m.length] }, .ret)) ∧
    (∀ c2 c3 t, resolve p req c = (c2, .cont) → c2.findrouter = true →
      doFilter p req (urlPathOf cfg req) BEFORE_EXEC c2 = (c3, .cont) →
      c3.runrouter = some t → (cfg.controllers t).implements = true →
      (cfg.controllers t).Init.panics = none → (cfg.controllers t).XsrfToken.panics = none →
      (cfg.controllers t).CheckXSRFCookie.panics = none →
      (cfg.controllers t).Prepare.panics = none → (cfg.controllers t).Filter.panics = none →
      (cfg.controllers t).accessLog.panics = none → (cfg.controllers t).Finish.panics = none →
      c.trace ++ [.redirect (req.Path ++ "/".toList) 301] <+: c3.trace ∧ c3.started = true ∧
      ∃ xs, (∀ e ∈ xs, e = Event.XsrfToken ∨ e = Event.CheckXSRFCookie) ∧
        afterRouter cfg p req c =
          if (cfg.controllers t).FilterResult = false then
            ({ c3 with trace := c3.trace ++ [.Init t c3.runMethod] ++ xs
                          ++ [.Prepare, .Filter, .accessLog, .Finish] }, .ret)
          else
            doFilter p req (urlPathOf cfg req) AFTER_EXEC
              { c3 with trace := c3.trace ++ [.Init t c3.runMethod] ++ xs
                           ++ [.Prepare, .Filter, .Finish] }) := by
  have hstep : fixLoop req (pre ++ r :: rest) c =
      fixLoop req rest
        { c with started := true,
                 trace := c.trace ++ [.redirect (req.Path ++ "/".toList) 301] } := by
    have hne1 : ¬ req.Path = req.Path ++ "/".toList := fun e => append_slash_ne req.Path e.symm
    simp only [String.toList] at hne1
    rw [fixLoop_noslash_pass req last hlast hl pre (r :: rest) c hpre]
    simp [fixLoop, hr, hne1, hlast, hl, Ctx.log, Ctx.start]
  have hres : resolve p req c =
      resolve { p with fixrouters := rest } req
        { c with started := true,
                 trace := c.trace ++ [.redirect (req.Path ++ "/".toList) 301] } := by
    simp only [resolve, andThen, hfix, hstep]
  have hbefore : ∀ c2, resolve p req c = (c2, .cont) →
      c.trace ++ [.redirect (req.Path ++ "/".toList) 301] <+: c2.trace ∧ c2.started = true := by
    intro c2 h2
    have hk := keeps_resolve { p with fixrouters := rest } req
      { c with started := true,
               trace := c.trace ++ [.redirect (req.Path ++ "/".toList) 301] }
    rw [← hres, h2] at hk
    exact ⟨hk.1, hk.2 rfl⟩
  refine ⟨hstep, hres, hbefore, ?_, ?_, ?_⟩
  · intro c2 h2 hf
    unfold afterRouter
    rw [andThen_cont _ _ _ _ h2]
    rw [andThen_stop _ _ _ _ _ (notFoundStage_none cfg c2 hf) (by split_ifs <;> simp)]
    rfl
  · intro c2 c3 m g post h2 hf hen hfl hm hv hret hp
    have hn : notFoundStage cfg c2 = (c2, .cont) := by
      simp [notFoundStage, hf]
    have hd := doFilter_started p req (urlPathOf cfg req) BEFORE_EXEC m post g c2 c3 hen hfl hm
      (hbefore c2 h2).2 hv hret hp
    unfold afterRouter
    rw [andThen_cont _ _ _ _ h2, andThen_cont _ _ _ _ hn]
    unfold execRoute
    rw [andThen_stop _ _ _ _ _ hd (by simp)]
  · intro c2 c3 t h2 hf h3 ht himp hI hX hC hP hF hA hFin
    obtain ⟨hb1, hb2⟩ := hbefore c2 h2
    have hk3 := keeps_doFilter p req (urlPathOf cfg req) BEFORE_EXEC c2
    rw [h3] at hk3
    have hs3 : c3.started = true := hk3.2 hb2
    refine ⟨hb1.trans hk3.1, hs3, ?_⟩
    obtain ⟨xs, hxs, he⟩ := startedController cfg p req (urlPathOf cfg req) (cfg.controllers t) t
      c3 hs3 hI hX hC hP hF hA hFin
    refine ⟨xs, hxs, ?_⟩
    rw [← he]
    unfold afterRouter
    rw [andThen_cont _ _ _ _ h2]
    have hn : notFoundStage cfg c2 = (c2, .cont) := by
      simp [notFoundStage, hf]
    rw [andThen_cont _ _ _ _ hn]
    unfold execRoute
    rw [andThen_cont _ _ _ _ h3]
    simp only [ht, himp, Bool.not_true, Bool.false_eq_true, if_false]

/-- Witness of `C29_redirect_not_terminal`: with the fixed routes `/x`, `/a/`
and `/a`, a GET for `/a` gets the redirect of the second route and is then
found by the third; with a `BEFORE_EXEC` filter, the request ends after that
filter. -/
theorem C29_redirect_not_terminal_witness :
    slashExecFilterApp.fixrouters
      = [⟨"/x".toList, none, [], 0, [], false⟩] ++ ⟨"/a/".toList, none, [], 1, [], false⟩
          :: [⟨"/a".toList, none, [], 2, [], false⟩] ∧
    afterRouter plainConfig slashExecFilterApp (plainRequest "GET".toList "/a".toList)
        (initCtx (plainRequest "GET".toList "/a".toList))
      = ({ initCtx (plainRequest "GET".toList "/a".toList) with
            started := true, findrouter := true, runMethod := "Get".toList, runrouter := some 2,
            trace := [.redirect "/a/".toList 301, .filterFunc BEFORE_EXEC 0] }, .ret) :=
  ⟨by decide,
   (C29_redirect_not_terminal plainConfig slashExecFilterApp
      (plainRequest "GET".toList "/a".toList) [⟨"/x".toList, none, [], 0, [], false⟩]
      ⟨"/a/".toList, none, [], 1, [], false⟩ [⟨"/a".toList, none, [], 2, [], false⟩]
      (initCtx (plainRequest "GET".toList "/a".toList)) 'a' rfl (by decide) rfl (by decide)
      (by decide)).2.2.2.2.1
      { initCtx (plainRequest "GET".toList "/a".toList) with
          started := true, findrouter := true, runMethod := "Get".toList, runrouter := some 2,
          trace := [.redirect "/a/".toList 301] }
      { initCtx (plainRequest "GET".toList "/a".toList) with
          started := true, findrouter := true, runMethod := "Get".toList, runrouter := some 2,
          trace := [.redirect "/a/".toList 301] }
      [] ⟨quiet, matchAll "/*".toList, "/*".toList, true⟩ []
      (by decide) rfl rfl rfl rfl rfl rfl rfl⟩

/-- C29 (counterexample): the fixed routes `/a/` and `/a` are registered, in
this order, with the default settings (access log and auto-render enabled).
A GET for `/a/` runs the whole controller.  A GET for `/a` gets the redirect
and then the controller of `/a` without its verb handler, without the access
log and without the rendering; with a `BEFORE_EXEC` filter registered
without a bool argument, which writes nothing, it gets the redirect and the
filter's call and nothing else: no `Init`, no `Prepare`, no `Finish`. -/
theorem C29_exec_filter_ends_request :
    (ServeHTTP plainConfig (register [("/a/".toList, 1), ("/a".toList, 2)])
        (plainRequest "GET".toList "/a/".toList)).trace
      = [.Init 1 "Get".toList, .Prepare, .Filter, .call "Get".toList, .accessLog, .Render,
         .Finish] ∧
    (ServeHTTP plainConfig (register [("/a/".toList, 1), ("/a".toList, 2)])
        (plainRequest "GET".toList "/a".toList)).trace
      = [.redirect "/a/".toList 301, .Init 2 "Get".toList, .Prepare, .Filter, .Finish] ∧
    (ServeHTTP plainConfig
        (InsertFilter matchAll true (register [("/a/".toList, 1), ("/a".toList, 2)])
          "/*".toList BEFORE_EXEC quiet [])
        (plainRequest "GET".toList "/a".toList)).trace
      = [.redirect "/a/".toList 301, .filterFunc BEFORE_EXEC 0] := by
  decide

/-! ### C10 -/

/-- When a route is found, dispatch goes on with the `BEFORE_EXEC` filters
and the controller. -/
theorem afterRouter_found (cfg : Config) (p : ControllerRegistor) (req : Request) (c c2 : Ctx)
    (h2 : resolve p req c = (c2, .cont)) (hf : c2.findrouter = true) :
    afterRouter cfg p req c = execRoute cfg p req (urlPathOf cfg req) c2 := by
  have hn : notFoundStage cfg c2 = (c2, .cont) := by
    simp [notFoundStage, hf]
  unfold afterRouter
  rw [andThen_cont _ _ _ _ h2, andThen_cont _ _ _ _ hn]

/-- C10 (amended): on a request that is not a websocket upgrade, when
dispatch reaches a `BEFORE_ROUTER` filter registered with
`returnOnOutput = false` that matches the path, writes a status or body and
returns, `doFilter` does not return after it: the loop goes on with the
remaining `BEFORE_ROUTER` filters, in the state after the filter's call, in
which the response is started.  From then on the first matching filter
registered with `returnOnOutput = true` that is reached ends the request
right after its own call, whatever it writes: among the remaining
`BEFORE_ROUTER` filters, before any route is resolved, or among the
`BEFORE_EXEC` filters, before the controller is instantiated.  When the
filters of both stages let the request pass, a route is found and the
controller type implements the interface and none of its methods panics,
`Init`, the XSRF calls, `Prepare`, the `Filter` hook and `Finish` run, and
the block of the verb handler (the handler, the access log of line 645 and
auto-render) is skipped. -/
theorem C10_fire_and_continue (cfg : Config) (p : ControllerRegistor) (req : Request)
    (c0 c1 : Ctx) (pre post : List FilterRouter) (f : FilterRouter)
    (hws : req.websocket = false)
    (hen : p.enableFilter = true)
    (hl : mapGet? p.filters BEFORE_ROUTER = some (pre ++ f :: post))
    (hb : beforeRouter cfg p req (initCtx req) = (c0, .cont))
    (hpre : doFilterLoop req (urlPathOf cfg req) BEFORE_ROUTER pre 0 c0 = (c1, .cont))
    (hv : (f.ValidRouter (urlPathOf cfg req)).1 = true)
    (hret : f.returnOnOutput = false) (hp : f.filterFunc.panics = none)
    (hw : f.filterFunc.writes = true) :
    serveBody cfg p req (initCtx req) =
      andThen (doFilterLoop req (urlPathOf cfg req) BEFORE_ROUTER post (pre.length + 1))
        (afterRouter cfg p req)
        { c1 with InputParams := (f.ValidRouter (urlPathOf cfg req)).2,
                  trace := c1.trace ++ [.filterFunc BEFORE_ROUTER pre.length],
                  started := true } ∧
    (∀ (m post2 : List FilterRouter) (g : FilterRouter) (c3 : Ctx), post = m ++ g :: post2 →
      doFilterLoop req (urlPathOf cfg req) BEFORE_ROUTER m (pre.length + 1)
        { c1 with InputParams := (f.ValidRouter (urlPathOf cfg req)).2,
                  trace := c1.trace ++ [.filterFunc BEFORE_ROUTER pre.length],
                  started := true } = (c3, .cont) →
      (g.ValidRouter (urlPathOf cfg req)).1 = true → g.returnOnOutput = true →
      g.filterFunc.panics = none →
      ServeHTTP cfg p req =
        { c3 with InputParams := (g.ValidRouter (urlPathOf cfg req)).2,
                  trace := c3.trace ++ [.filterFunc BEFORE_ROUTER (pre.length + 1 + m.length)] }) ∧
    (∀ c3 : Ctx,
      doFilterLoop req (urlPathOf cfg req) BEFORE_ROUTER post (pre.length + 1)
        { c1 with InputParams := (f.ValidRouter (urlPathOf cfg req)).2,
                  trace := c1.trace ++ [.filterFunc BEFORE_ROUTER pre.length],
                  started := true } = (c3, .cont) →
      c3.started = true ∧
      serveBody cfg p req (initCtx req) = afterRouter cfg p req c3 ∧
      (∀ (c4 c5 : Ctx) (m post2 : List FilterRouter) (g : FilterRouter),
        resolve p req c3 = (c4, .cont) → c4.findrouter = true →
        mapGet? p.filters BEFORE_EXEC = some (m ++ g :: post2) →
        doFilterLoop req (urlPathOf cfg req) BEFORE_EXEC m 0 c4 = (c5, .cont) →
        (g.ValidRouter (urlPathOf cfg req)).1 = true → g.returnOnOutput = true →
        g.filterFunc.panics = none →
        ServeHTTP cfg p req =
          { c5 with InputParams := (g.ValidRouter (urlPathOf cfg req)).2,
                    trace := c5.trace ++ [.filterFunc BEFORE_EXEC m.length] }) ∧
      (∀ (c4 c5 : Ctx) (t : ReflectType),
        resolve p req c3 = (c4, .cont) → c4.findrouter = true →
        doFilter p req (urlPathOf cfg req) BEFORE_EXEC c4 = (c5, .cont) →
        c5.runrouter = some t → (cfg.controllers t).implements = true →
        (cfg.controllers t).Init.panics = none → (cfg.controllers t).XsrfToken.panics = none →
        (cfg.controllers t).CheckXSRFCookie.panics = none →
        (cfg.controllers t).Prepare.panics = none → (cfg.controllers t).Filter.panics = none →
        (cfg.controllers t).accessLog.panics = none → (cfg.controllers t).Finish.panics = none →
        c5.started = true ∧
        ∃ xs, (∀ e ∈ xs, e = Event.XsrfToken ∨ e = Event.CheckXSRFCookie) ∧
          serveBody cfg p req (initCtx req) =
            if (cfg.controllers t).FilterResult = false then
              ({ c5 with trace := c5.trace ++ [.Init t c5.runMethod] ++ xs
                            ++ [.Prepare, .Filter, .accessLog, .Finish] }, .ret)
            else
              doFilter p req (urlPathOf cfg req) AFTER_EXEC
                { c5 with trace := c5.trace ++ [.Init t c5.runMethod] ++ xs
                             ++ [.Prepare, .Filter, .Finish] })) := by
  have hs := serveBody_at_filter cfg p req c0 c1 pre post f hen hl hb hpre
  have hmain : serveBody cfg p req (initCtx req) =
      andThen (doFilterLoop req (urlPathOf cfg req) BEFORE_ROUTER post (pre.length + 1))
        (afterRouter cfg p req)
        { c1 with InputParams := (f.ValidRouter (urlPathOf cfg req)).2,
                  trace := c1.trace ++ [.filterFunc BEFORE_ROUTER pre.length],
                  started := true } := by
    rw [hs]
    simp only [andThen, doFilterLoop_cons_match _ _ _ _ _ _ _ hv hp, hret, hw, hws]
    simp
  refine ⟨hmain, ?_, ?_⟩
  · intro m post2 g c3 hpost hm hgv hgr hgp
    have h3 : c3.started = true := by
      have hk := keeps_doFilterLoop req (urlPathOf cfg req) BEFORE_ROUTER m (pre.length + 1)
        { c1 with InputParams := (f.ValidRouter (urlPathOf cfg req)).2,
                  trace := c1.trace ++ [.filterFunc BEFORE_ROUTER pre.length],
                  started := true }
      rw [hm] at hk
      exact hk.2 rfl
    have hstop := doFilterLoop_started req (urlPathOf cfg req) BEFORE_ROUTER g post2
      (pre.length + 1 + m.length) c3 h3 hgv hgr hgp
    unfold ServeHTTP
    rw [hmain, hpost,
      andThen_stop _ _ _ _ _
        ((doFilterLoop_append req (urlPathOf cfg req) BEFORE_ROUTER m (g :: post2) _ _ c3 hm).trans
          hstop) (by simp)]
    rfl
  · intro c3 hpost
    have h3 : c3.started = true := by
      have hk := keeps_doFilterLoop req (urlPathOf cfg req) BEFORE_ROUTER post (pre.length + 1)
        { c1 with InputParams := (f.ValidRouter (urlPathOf cfg req)).2,
                  trace := c1.trace ++ [.filterFunc BEFORE_ROUTER pre.length],
                  started := true }
      rw [hpost] at hk
      exact hk.2 rfl
    have hbody : serveBody cfg p req (initCtx req) = afterRouter cfg p req c3 := by
      rw [hmain, andThen_cont _ _ _ _ hpost]
    refine ⟨h3, hbody, ?_, ?_⟩
    · intro c4 c5 m post2 g h4 hf hfl hm hgv hgr hgp
      have hs4 : c4.started = true := by
        have hk := keeps_resolve p req c3
        rw [h4] at hk
        exact hk.2 h3
      have hd := doFilter_started p req (urlPathOf cfg req) BEFORE_EXEC m post2 g c4 c5 hen hfl hm
        hs4 hgv hgr hgp
      unfold ServeHTTP
      rw [hbody, afterRouter_found cfg p req c3 c4 h4 hf]
      unfold execRoute
      rw [andThen_stop _ _ _ _ _ hd (by simp)]
      rfl
    · intro c4 c5 t h4 hf h5 ht himp hI hX hC hP hF hA hFin
      have hs4 : c4.started = true := by
        have hk := keeps_resolve p req c3
        rw [h4] at hk
        exact hk.2 h3
      have hs5 : c5.started = true := by
        have hk := keeps_doFilter p req (urlPathOf cfg req) BEFORE_EXEC c4
        rw [h5] at hk
        exact hk.2 hs4
      obtain ⟨xs, hxs, he⟩ := startedController cfg p req (urlPathOf cfg req) (cfg.controllers t)
        t c5 hs5 hI hX hC hP hF hA hFin
      refine ⟨hs5, xs, hxs, ?_⟩
      rw [← he, hbody, afterRouter_found cfg p req c3 c4 h4 hf]
      unfold execRoute
      rw [andThen_cont _ _ _ _ h5]
      simp only [ht, himp, Bool.not_true, Bool.false_eq_true, if_false]

/-- Witness of `C10_fire_and_continue`: the fixed route `/a` with a writing
`BEFORE_ROUTER` filter registered with `returnOnOutput = false` and a quiet
`BEFORE_EXEC` filter registered without a bool argument: the route is
resolved after the first filter, and the second one ends the request. -/
theorem C10_fire_and_continue_witness :
    ServeHTTP plainConfig fireExecFilterApp (plainRequest "GET".toList "/a".toList)
      = { initCtx (plainRequest "GET".toList "/a".toList) with
            started := true, findrouter := true, runMethod := "Get".toList, runrouter := some 2,
            trace := [.filterFunc BEFORE_ROUTER 0, .filterFunc BEFORE_EXEC 0] } :=
  ((C10_fire_and_continue plainConfig fireExecFilterApp (plainRequest "GET".toList "/a".toList)
      (initCtx (plainRequest "GET".toList "/a".toList))
      (initCtx (plainRequest "GET".toList "/a".toList)) [] []
      ⟨⟨true, none⟩, matchAll "/*".toList, "/*".toList, false⟩
      rfl rfl rfl rfl rfl rfl rfl rfl rfl).2.2
    { initCtx (plainRequest "GET".toList "/a".toList) with
        started := true, trace := [.filterFunc BEFORE_ROUTER 0] } rfl).2.2.1
    { initCtx (plainRequest "GET".toList "/a".toList) with
        started := true, findrouter := true, runMethod := "Get".toList, runrouter := some 2,
        trace := [.filterFunc BEFORE_ROUTER 0] }
    { initCtx (plainRequest "GET".toList "/a".toList) with
        started := true, findrouter := true, runMethod := "Get".toList, runrouter := some 2,
        trace := [.filterFunc BEFORE_ROUTER 0] }
    [] [] ⟨quiet, matchAll "/*".toList, "/*".toList, true⟩
    (by decide) rfl rfl rfl rfl rfl rfl

/-- C10 (counterexample): the fixed route `/a` and a `BEFORE_ROUTER` filter
registered with `returnOnOutput = false`.  When that filter writes nothing,
a second `BEFORE_ROUTER` filter or a `BEFORE_EXEC` filter, quiet and
registered without a bool argument, lets the request pass and the whole
controller runs.  When it writes, the second `BEFORE_ROUTER` filter ends the
request before any route is resolved, and the `BEFORE_EXEC` filter ends it
before the controller is instantiated: the later stages do not run. -/
theorem C10_later_filter_ends_request :
    (ServeHTTP plainConfig
        (InsertFilter matchAll true
          (InsertFilter matchAll true (register [("/a".toList, 2)]) "/*".toList BEFORE_ROUTER
            quiet [false])
          "/*".toList BEFORE_ROUTER quiet [])
        (plainRequest "GET".toList "/a".toList)).trace
      = [.filterFunc BEFORE_ROUTER 0, .filterFunc BEFORE_ROUTER 1, .Init 2 "Get".toList,
         .Prepare, .Filter, .call "Get".toList, .accessLog, .Render, .Finish] ∧
    (ServeHTTP plainConfig
        (InsertFilter matchAll true
          (InsertFilter matchAll true (register [("/a".toList, 2)]) "/*".toList BEFORE_ROUTER
            ⟨true, none⟩ [false])
          "/*".toList BEFORE_ROUTER quiet [])
        (plainRequest "GET".toList "/a".toList)).trace
      = [.filterFunc BEFORE_ROUTER 0, .filterFunc BEFORE_ROUTER 1] ∧
    (ServeHTTP plainConfig
        (InsertFilter matchAll true
          (InsertFilter matchAll true (register [("/a".toList, 2)]) "/*".toList BEFORE_ROUTER
            quiet [false])
          "/*".toList BEFORE_EXEC quiet [])
        (plainRequest "GET".toList "/a".toList)).trace
      = [.filterFunc BEFORE_ROUTER 0, .filterFunc BEFORE_EXEC 0, .Init 2 "Get".toList,
         .Prepare, .Filter, .call "Get".toList, .accessLog, .Render, .Finish] ∧
    (ServeHTTP plainConfig
        (InsertFilter matchAll true
          (InsertFilter matchAll true (register [("/a".toList, 2)]) "/*".toList BEFORE_ROUTER
            ⟨true, none⟩ [false])
          "/*".toList BEFORE_EXEC quiet [])
        (plainRequest "GET".toList "/a".toList)).trace
      = [.filterFunc BEFORE_ROUTER 0, .filterFunc BEFORE_EXEC 0] := by
  decide

/-! ### C6 -/

theorem getRunMethodOf_ne_nil {ρ : Type} (m : Str) (form : List (Str × List Str))
    (r : controllerInfoOf ρ) (hr : r.hasMethod = false)
    (hm : InSlice (ToLower m) HTTPMETHOD = true) : getRunMethodOf m form r ≠ [] := by
  have h0 : ToLower m ≠ [] := by
    intro h
    rw [h] at hm
    exact absurd hm (by decide)
  simp only [getRunMethodOf, hr]
  simp only [Bool.false_eq_true, if_false]
  split_ifs <;> simp [title_eq_nil, h0]

/-- The pattern routes after one `Add`: the route of the registration, if
any, is appended. -/
theorem addWith_routers {ρ : Type} (compile : Str → Option ρ) (p : ControllerRegistorOf ρ)
    (x : Str × ReflectType) :
    (AddWith compile p x.1 x.2 []).routers = p.routers ++ (patternRoute compile x).toList := by
  have hrw : Join "/".toList (addLoop (Split '/' x.1) [] 0).1 = rewritten x.1 := by
    rw [(addLoop_spec (Split '/' x.1) [] 0 rfl).1]; rfl
  by_cases h0 : (paramNames x.1).length = 0
  · have hj : (addLoop (Split '/' x.1) [] 0).2.2 = 0 := by rw [addLoop_count, h0]
    simp [AddWith, patternRoute, hj, h0]
  · have hj : ¬ (addLoop (Split '/' x.1) [] 0).2.2 = 0 := by rw [addLoop_count]; exact h0
    simp only [AddWith, patternRoute, hj, h0, if_false, hrw]
    cases compile (rewritten x.1) <;> simp

/-- The pattern routes of a registrar built by `Add` are the routes of the
registrations, in registration order. -/
theorem foldl_addWith_routers {ρ : Type} (compile : Str → Option ρ)
    (adds : List (Str × ReflectType)) :
    ∀ p : ControllerRegistorOf ρ,
      (adds.foldl (fun p x => AddWith compile p x.1 x.2 []) p).routers
        = p.routers ++ adds.filterMap (patternRoute compile) := by
  induction adds with
  | nil => intro p; simp
  | cons a adds ih =>
    intro p
    rw [List.foldl_cons, ih, addWith_routers]
    cases h : patternRoute compile a <;> simp [List.filterMap_cons, h]

/-- What `patternRoute` yields is a route as `Add` stores it. -/
theorem patternRoute_added {ρ : Type} (compile : Str → Option ρ) (x : Str × ReflectType)
    (r : controllerInfoOf ρ) (h : patternRoute compile x = some r) : addedRoute r := by
  unfold patternRoute at h
  split_ifs at h with h0
  cases hc : compile (rewritten x.1) with
  | none => simp [hc] at h
  | some re =>
    simp only [hc, Option.map_some', Option.some.injEq] at h
    subst h
    refine ⟨rfl, ⟨re, rfl⟩, ?_⟩
    have h2 := (addLoop_spec (Split '/' x.1) [] 0 rfl).2.1
    have h3 : (addLoop (Split '/' x.1) [] 0).2.1.length = (addLoop (Split '/' x.1) [] 0).2.2 := by
      simpa using congrArg List.length h2
    have h4 := addLoop_count x.1
    simp only
    omega

/-- The scan of the pattern routes passes over the routes whose test says
`continue`, recording that it consulted them. -/
theorem patLoopWith_skip {ρ : Type} (L : RegexpLib ρ) (req : Request)
    (pre rest : List (controllerInfoOf ρ)) :
    ∀ c : Ctx, (∀ x ∈ pre, ∃ re, x.regex = some re ∧ acceptRouteWith L re req.Path = .skip) →
      patLoopWith L req (pre ++ rest) c =
        patLoopWith L req rest
          { c with trace := c.trace ++ pre.map (fun x => Event.matchString x.pattern) } := by
  induction pre with
  | nil => intro c _; simp
  | cons x pre ih =>
    intro c h
    obtain ⟨re, h1, h2⟩ := h x (List.mem_cons_self _ _)
    have e : patLoopWith L req (x :: (pre ++ rest)) c
        = patLoopWith L req (pre ++ rest) (c.log (.matchString x.pattern)) := by
      simp only [patLoopWith, h1, h2]
    rw [List.cons_append, e, ih _ (fun y hy => h y (List.mem_cons_of_mem _ hy))]
    simp [Ctx.log]

/-- C6: whatever the `regexp` library `L` is, the pattern routes of a
registrar built by `Add` are the routes of the registrations in
registration order, and the scan of the pattern routes (reached when the
fixed routes have found nothing), on a request of an allowed method,
selects the first of them whose test of lines 545-553 accepts the path,
whatever routes follow it and however specific they are: the controller
type is that route's, the extracted parameters are its names bound to its
submatches, and the routes after it are not consulted.  With the modelled
library, route resolution is this scan whenever the scan of the fixed routes
has found nothing. -/
theorem C6_insertion_order {ρ : Type} (L : RegexpLib ρ) (adds : List (Str × ReflectType))
    (req : Request) (c : Ctx) (pre post : List (controllerInfoOf ρ)) (r : controllerInfoOf ρ)
    (re : ρ) (gs : List Str)
    (hm : allowed req.Method = true)
    (hrs : (registerWith L.Compile adds).routers = pre ++ r :: post)
    (hpre : ∀ x ∈ pre, ∀ re1, x.regex = some re1 → acceptRouteWith L re1 req.Path = .skip)
    (hre : r.regex = some re) (hacc : acceptRouteWith L re req.Path = .accept gs) :
    (registerWith L.Compile adds).routers = adds.filterMap (patternRoute L.Compile) ∧
    patLoopWith L req (registerWith L.Compile adds).routers c =
      ({ c with
          trace := c.trace ++ (pre ++ [r]).map (fun x => Event.matchString x.pattern),
          RawQuery := (bindLoop r.params gs 0 (c.RawQuery, c.params)).1,
          params := (bindLoop r.params gs 0 (c.RawQuery, c.params)).2,
          InputParams := (bindLoop r.params gs 0 (c.RawQuery, c.params)).2,
          runMethod := getRunMethodOf req.Method req.Form r,
          runrouter := some r.controllerType,
          findrouter := true }, .cont) ∧
    getRunMethodOf req.Method req.Form r ≠ [] ∧
    (∀ (q : ControllerRegistor) (c1 : Ctx), fixLoop req q.fixrouters c = (c1, .cont) →
      c1.findrouter = false → resolve q req c = patLoopWith modelRegexp req q.routers c1) := by
  have hreg : (registerWith L.Compile adds).routers = adds.filterMap (patternRoute L.Compile) := by
    unfold registerWith
    rw [foldl_addWith_routers]
    simp [NewControllerRegistor]
  have hall : ∀ x ∈ pre ++ r :: post, addedRoute x := by
    intro x hx
    rw [← hrs, hreg, List.mem_filterMap] at hx
    obtain ⟨a, _, ha⟩ := hx
    exact patternRoute_added L.Compile a x ha
  obtain ⟨hr1, _, hr3⟩ := hall r (by simp)
  have hrun := getRunMethodOf_ne_nil req.Method req.Form r hr1 hm
  have hskip : ∀ x ∈ pre, ∃ re1, x.regex = some re1 ∧ acceptRouteWith L re1 req.Path = .skip := by
    intro x hx
    obtain ⟨_, ⟨re1, h1⟩, _⟩ := hall x (by simp [hx])
    exact ⟨re1, h1, hpre x hx re1 h1⟩
  refine ⟨hreg, ?_, hrun, ?_⟩
  · rw [hrs, patLoopWith_skip L req pre (r :: post) c hskip]
    simp only [patLoopWith, hre, hacc, Ctx.log, hr3, decide_True, if_true]
    simp [hrun]
  · intro q c1 h1 h2
    simp only [resolve, andThen, h1, h2, Bool.not_false, if_true]
    rfl

/-- Witness of `C6_insertion_order`, with the modelled library: `/:a`
registered before `/user/:id`, and a GET request for `/user/42`, which both
accept: the first one wins. -/
theorem C6_insertion_order_witness :
    (register [("/:a".toList, 1), ("/user/:id".toList, 2)]).routers
      = [⟨"/(.*)".toList, Compile "/(.*)".toList, [(0, ":a".toList)], 1, [], false⟩,
         ⟨"/user/(.*)".toList, Compile "/user/(.*)".toList, [(0, ":id".toList)], 2, [], false⟩] ∧
    (resolve (register [("/:a".toList, 1), ("/user/:id".toList, 2)])
      (plainRequest "GET".toList "/user/42".toList)
      (initCtx (plainRequest "GET".toList "/user/42".toList))).1.runrouter = some 1 ∧
    (patLoop (plainRequest "GET".toList "/user/42".toList)
      (register [("/:a".toList, 1), ("/user/:id".toList, 2)]).routers
      (initCtx (plainRequest "GET".toList "/user/42".toList))).1.InputParams
      = [(":a".toList, "user/42".toList)] := by
  have h := (C6_insertion_order modelRegexp [("/:a".toList, 1), ("/user/:id".toList, 2)]
    (plainRequest "GET".toList "/user/42".toList)
    (initCtx (plainRequest "GET".toList "/user/42".toList)) []
    [⟨"/user/(.*)".toList, Compile "/user/(.*)".toList, [(0, ":id".toList)], 2, [], false⟩]
    ⟨"/(.*)".toList, Compile "/(.*)".toList, [(0, ":a".toList)], 1, [], false⟩
    (.cat (.chr '/') (.group 1 (.star .dot))) ["user/42".toList]
    (by decide) (by decide) (by simp) (by decide) (by decide)).2.1
  refine ⟨by decide, by decide, ?_⟩
  exact (congrArg (fun x : Ctx × Flow => x.1.InputParams) h).trans (by decide)

/-! ### C1 -/

theorem index_of_not_mem (c : Char) (s : Str) (h : c ∉ s) : Index c s = -1 := by
  induction s with
  | nil => rfl
  | cons d ds ih =>
    simp only [List.mem_cons, not_or] at h
    have hd : ¬ d = c := fun e => h.1 e.symm
    simp [Index, hd, ih h.2]

theorem index_append (c : Char) (a b : Str) (h : c ∉ a) :
    Index c (a ++ c :: b) = a.length := by
  induction a with
  | nil => simp [Index]
  | cons d ds ih =>
    simp only [List.mem_cons, not_or] at h
    have hd : ¬ d = c := fun e => h.1 e.symm
    have hne : ¬ ((ds.length : Int) = -1) := by omega
    have e : Index c (d :: (ds ++ c :: b)) = (ds.length : Int) + 1 := by
      rw [Index, if_neg hd, ih h.2, if_neg hne]
    simpa using e

theorem lastIndex_of_not_mem (c : Char) (s : Str) (h : c ∉ s) : LastIndex c s = -1 := by
  induction s with
  | nil => rfl
  | cons d ds ih =>
    simp only [List.mem_cons, not_or] at h
    have hd : ¬ d = c := fun e => h.1 e.symm
    simp [LastIndex, hd, ih h.2]

theorem lastIndex_append (c : Char) (a b : Str) (h : c ∉ b) :
    LastIndex c (a ++ c :: b) = a.length := by
  induction a with
  | nil => simp [LastIndex, lastIndex_of_not_mem c b h]
  | cons d ds ih =>
    have hne : ¬ ((ds.length : Int) = -1) := by omega
    have e : LastIndex c (d :: (ds ++ c :: b)) = (ds.length : Int) + 1 := by
      rw [LastIndex, ih, if_neg hne]
    simpa using e

theorem split_of_not_mem (s : Str) (h : '/' ∉ s) : Split '/' s = [s] := by
  induction s with
  | nil => rfl
  | cons d ds ih =>
    simp only [List.mem_cons, not_or] at h
    have hd : ¬ d = '/' := fun e => h.1 e.symm
    simp [Split, hd, ih h.2]

theorem split_append (a b : Str) (h : '/' ∉ a) :
    Split '/' (a ++ '/' :: b) = a :: Split '/' b := by
  induction a with
  | nil => simp [Split]
  | cons d ds ih =>
    simp only [List.mem_cons, not_or] at h
    have hd : ¬ d = '/' := fun e => h.1 e.symm
    simp [Split, hd, ih h.2]

/-- Splitting the joined segments at `/` gives the segments back. -/
theorem split_join (l : List Str) (hne : l ≠ []) (h : ∀ x ∈ l, '/' ∉ x) :
    Split '/' (Join "/".toList l) = l := by
  induction l with
  | nil => exact absurd rfl hne
  | cons x xs ih =>
    cases xs with
    | nil => simpa [Join] using split_of_not_mem x (h x (List.mem_cons_self _ _))
    | cons y ys =>
      have hj : Join "/".toList (x :: y :: ys) = x ++ '/' :: Join "/".toList (y :: ys) := by
        simp [Join]
      rw [hj, split_append x _ (h x (List.mem_cons_self _ _)),
        ih (by simp) (fun z hz => h z (List.mem_cons_of_mem _ hz))]

theorem nameOk_spec (n : Str) (h : nameOk n = true) : '/' ∉ n ∧ ':' ∉ n ∧ '(' ∉ n := by
  unfold nameOk at h
  rw [List.all_eq_true] at h
  refine ⟨fun hm => ?_, fun hm => ?_, fun hm => ?_⟩ <;>
  · have := h _ hm
    simp at this

theorem affixOk_spec (s : Str) (h : affixOk s = true) :
    '/' ∉ s ∧ ':' ∉ s ∧ '(' ∉ s ∧ ')' ∉ s := by
  unfold affixOk at h
  rw [List.all_eq_true] at h
  refine ⟨fun hm => ?_, fun hm => ?_, fun hm => ?_, fun hm => ?_⟩ <;>
  · have := h _ hm
    simp at this

theorem contains_false (c : Char) (s : Str) (h : c ∉ s) : Contains c s = false := by
  unfold Contains
  simpa using h

theorem addPart_literal (t : Str) (h : (Segment.literal t).wellFormed = true) :
    addPart t [] 0 = ⟨t, t, [], 0⟩ := by
  simp only [Segment.wellFormed, Bool.and_eq_true, Bool.not_eq_true'] at h
  obtain ⟨⟨⟨_, h1⟩, h2⟩, h3⟩ := h
  have e1 : addColon ⟨t, t, [], 0⟩ = ⟨t, t, [], 0⟩ := by
    unfold addColon
    simp only [h1, Bool.false_eq_true, if_false]
  have e2 : addStar ⟨t, t, [], 0⟩ = ⟨t, t, [], 0⟩ := by
    unfold addStar
    simp only [h2, Bool.false_eq_true, if_false]
  have e3 : addMixed ⟨t, t, [], 0⟩ = ⟨t, t, [], 0⟩ := by
    unfold addMixed
    simp only [h3, Bool.false_eq_true, if_false]
  rw [addPart, e1, e2, e3]

/-- After the colon branch has left a name as the part, the star branch and
the scan do not apply. -/
theorem addStarMixed_name (n slot : Str) (params : List (Nat × Str)) (j : Nat)
    (h3 : '(' ∉ n) :
    addMixed (addStar ⟨':' :: n, slot, params, j⟩) = ⟨':' :: n, slot, params, j⟩ := by
  have hs : HasPrefix (':' :: n) "*".toList = false := by
    simp [HasPrefix, List.isPrefixOf]
  have hc : Contains '(' (':' :: n) = false := contains_false _ _ (by simp [h3])
  have e2 : addStar ⟨':' :: n, slot, params, j⟩ = ⟨':' :: n, slot, params, j⟩ := by
    unfold addStar
    simp only [hs, Bool.false_eq_true, if_false]
  rw [e2]
  unfold addMixed
  simp only [hc, Bool.and_false, Bool.false_and, Bool.false_eq_true, if_false]

theorem hasPrefix_colon (x : Str) : HasPrefix (':' :: x) ":".toList = true := by
  simp [HasPrefix]

theorem addPart_param (n : Str) (h : nameOk n = true) :
    addPart (':' :: n) [] 0 = ⟨':' :: n, "(.*)".toList, [(0, ':' :: n)], 1⟩ := by
  obtain ⟨_, h2, h3⟩ := nameOk_spec n h
  have hi : Index '(' (':' :: n) = -1 := index_of_not_mem _ _ (by simp [h3])
  have hl : LastIndex ':' (':' :: n) = 0 := by
    simp [LastIndex, lastIndex_of_not_mem _ _ h2]
  have e1 : addColon ⟨':' :: n, ':' :: n, [], 0⟩
      = ⟨':' :: n, "(.*)".toList, [(0, ':' :: n)], 1⟩ := by
    unfold addColon
    simp only [hasPrefix_colon, if_true, hi, hl, bne_self_eq_false, Bool.false_eq_true, if_false,
      mapSet, Nat.zero_add]
  rw [addPart, e1, addStarMixed_name n _ _ _ h3]

theorem addPart_suffix (n suf frag : Str) (h : nameOk n = true) (hs : ':' ∉ suf) (hp : '(' ∉ suf)
    (hsel : ∀ part : Str,
      (if (':' :: suf) = ":int".toList then ("([0-9]+)".toList, ':' :: n)
       else if (':' :: suf) = ":string".toList then ("([\\w]+)".toList, ':' :: n)
       else ("(.*)".toList, part)) = (frag, ':' :: n)) :
    addPart (':' :: n ++ ':' :: suf) [] 0 = ⟨':' :: n, frag, [(0, ':' :: n)], 1⟩ := by
  obtain ⟨_, h2, h3⟩ := nameOk_spec n h
  have hi : Index '(' (':' :: n ++ ':' :: suf) = -1 :=
    index_of_not_mem _ _ (by simp [h3, hp])
  have hl : LastIndex ':' (':' :: n ++ ':' :: suf) = ((n.length + 1 : Nat) : Int) := by
    have := lastIndex_append ':' (':' :: n) suf hs
    simpa using this
  have hne : (((n.length + 1 : Nat) : Int) != 0) = true := by
    simp only [bne_iff_ne, ne_eq]
    omega
  have hd : List.drop (n.length + 1) (':' :: n ++ ':' :: suf) = ':' :: suf := by
    simp
  have ht : List.take (n.length + 1) (':' :: n ++ ':' :: suf) = ':' :: n := by
    simp
  have hp0 : HasPrefix (':' :: n ++ ':' :: suf) ":".toList = true := hasPrefix_colon _
  have e1 : addColon ⟨':' :: n ++ ':' :: suf, ':' :: n ++ ':' :: suf, [], 0⟩
      = ⟨':' :: n, frag, [(0, ':' :: n)], 1⟩ := by
    unfold addColon
    simp only [hp0, if_true, hi, hl, bne_self_eq_false, Bool.false_eq_true, if_false,
      hne, sliceFrom, sliceTo, Int.toNat_ofNat, hd, ht, hsel, mapSet, Nat.zero_add]
  rw [addPart, e1, addStarMixed_name n _ _ _ h3]

theorem addPart_paramInt (n : Str) (h : nameOk n = true) :
    addPart (':' :: n ++ ":int".toList) [] 0
      = ⟨':' :: n, "([0-9]+)".toList, [(0, ':' :: n)], 1⟩ :=
  addPart_suffix n "int".toList _ h (by decide) (by decide) (fun _ => rfl)

theorem addPart_paramString (n : Str) (h : nameOk n = true) :
    addPart (':' :: n ++ ":string".toList) [] 0
      = ⟨':' :: n, "([\\w]+)".toList, [(0, ':' :: n)], 1⟩ :=
  addPart_suffix n "string".toList _ h (by decide) (by decide) (fun _ => rfl)

theorem addPart_paramExpr (n e : Str) (h : nameOk n = true) :
    addPart (':' :: n ++ '(' :: e ++ [')']) [] 0
      = ⟨':' :: n, '(' :: e ++ [')'], [(0, ':' :: n)], 1⟩ := by
  obtain ⟨_, h2, h3⟩ := nameOk_spec n h
  have hi : Index '(' (':' :: n ++ '(' :: e ++ [')']) = ((n.length + 1 : Nat) : Int) := by
    have := index_append '(' (':' :: n) (e ++ [')']) (by simp [h3])
    simpa using this
  have hne : (((n.length + 1 : Nat) : Int) != -1) = true := by
    simp only [bne_iff_ne, ne_eq]
    omega
  have hd : List.drop (n.length + 1) (':' :: n ++ '(' :: e ++ [')']) = '(' :: e ++ [')'] := by
    simp
  have ht : List.take (n.length + 1) (':' :: n ++ '(' :: e ++ [')']) = ':' :: n := by
    simp
  have e1 : addColon ⟨':' :: n ++ '(' :: e ++ [')'], ':' :: n ++ '(' :: e ++ [')'], [], 0⟩
      = ⟨':' :: n, '(' :: e ++ [')'], [(0, ':' :: n)], 1⟩ := by
    have hp0 : HasPrefix (':' :: n ++ '(' :: e ++ [')']) ":".toList = true := hasPrefix_colon _
    unfold addColon
    simp only [hp0, if_true, hi, hne, sliceFrom, sliceTo, Int.toNat_ofNat, hd, ht,
      mapSet, Nat.zero_add]
  rw [addPart, e1, addStarMixed_name n _ _ _ h3]

theorem scan_plain (l : Str) :
    ∀ s : ScanSt, s.start = false → s.startexp = false →
      (∀ c ∈ l, c ≠ ':' ∧ c ≠ '(' ∧ c ≠ ')') →
      l.foldl scanStep s = { s with out := s.out ++ l } := by
  induction l with
  | nil => intro s _ _ _; simp
  | cons c cs ih =>
    intro s hs he hl
    obtain ⟨h1, h2, h3⟩ := hl c (List.mem_cons_self _ _)
    have e : scanStep s c = { s with out := s.out ++ [c] } := by
      unfold scanStep
      simp [hs, he, h1, h2, h3]
    rw [List.foldl_cons, e, ih { s with out := s.out ++ [c] } hs he
      (fun d hd => hl d (List.mem_cons_of_mem _ hd))]
    simp

theorem scan_name (l : Str) :
    ∀ s : ScanSt, s.start = true → '(' ∉ l →
      l.foldl scanStep s = { s with param := s.param ++ l } := by
  induction l with
  | nil => intro s _ _; simp
  | cons c cs ih =>
    intro s hs hl
    simp only [List.mem_cons, not_or] at hl
    have h1 : ¬ c = '(' := fun e => hl.1 e.symm
    have e : scanStep s c = { s with param := s.param ++ [c] } := by
      unfold scanStep
      simp [hs, h1]
    rw [List.foldl_cons, e, ih { s with param := s.param ++ [c] } hs hl.2]
    simp

theorem scan_expr (l : Str) :
    ∀ s : ScanSt, s.start = false → s.startexp = true → ')' ∉ l →
      l.foldl scanStep s = { s with expt := s.expt ++ l } := by
  induction l with
  | nil => intro s _ _ _; simp
  | cons c cs ih =>
    intro s hs he hl
    simp only [List.mem_cons, not_or] at hl
    have h1 : ¬ c = ')' := fun e => hl.1 e.symm
    have e : scanStep s c = { s with expt := s.expt ++ [c] } := by
      unfold scanStep
      simp [hs, he, h1]
    rw [List.foldl_cons, e, ih { s with expt := s.expt ++ [c] } hs he hl.2]
    simp

/-- The character scan of lines 155-191 on literal text around one embedded
`:name(expr)`. -/
theorem scan_mixed (pre n e suf : Str) (params : List (Nat × Str)) (j : Nat)
    (hpre : ∀ c ∈ pre, c ≠ ':' ∧ c ≠ '(' ∧ c ≠ ')') (hn : '(' ∉ n) (he : ')' ∉ e)
    (hsuf : ∀ c ∈ suf, c ≠ ':' ∧ c ≠ '(' ∧ c ≠ ')') :
    (pre ++ ':' :: n ++ '(' :: e ++ ')' :: suf).foldl scanStep
        ⟨[], false, false, [], [], params, j⟩
      = ⟨pre ++ '(' :: e ++ ')' :: suf, false, false, ':' :: n, '(' :: e ++ [')'],
          mapSet params j (':' :: n), j + 1⟩ := by
  simp only [List.foldl_append, List.foldl_cons]
  rw [scan_plain pre _ rfl rfl hpre]
  have e1 : scanStep { (⟨[], false, false, [], [], params, j⟩ : ScanSt) with out := [] ++ pre } ':'
      = ⟨pre, true, false, [':'], [], params, j⟩ := by
    simp [scanStep]
  rw [e1, scan_name n _ rfl hn]
  have e2 : scanStep { (⟨pre, true, false, [':'], [], params, j⟩ : ScanSt) with
        param := [':'] ++ n } '('
      = ⟨pre, false, true, ':' :: n, ['('], mapSet params j (':' :: n), j + 1⟩ := by
    simp [scanStep]
  rw [e2, scan_expr e _ rfl rfl he]
  have e3 : scanStep { (⟨pre, false, true, ':' :: n, ['('], mapSet params j (':' :: n), j + 1⟩
        : ScanSt) with expt := ['('] ++ e } ')'
      = ⟨pre ++ '(' :: e ++ [')'], false, false, ':' :: n, '(' :: e ++ [')'],
          mapSet params j (':' :: n), j + 1⟩ := by
    simp [scanStep]
  rw [e3, scan_plain suf _ rfl rfl hsuf]
  simp

theorem addPart_mixed (pre n e suf : Str)
    (h : (Segment.mixed pre n e suf).wellFormed = true) :
    addPart (pre ++ ':' :: n ++ '(' :: e ++ ')' :: suf) [] 0
      = ⟨pre ++ ':' :: n ++ '(' :: e ++ ')' :: suf, pre ++ '(' :: e ++ ')' :: suf,
          [(0, ':' :: n)], 1⟩ := by
  simp only [Segment.wellFormed, Bool.and_eq_true, Bool.not_eq_true', bne_iff_ne, ne_eq] at h
  obtain ⟨⟨⟨⟨⟨h1, h2⟩, h3⟩, h4⟩, h5⟩, h6⟩ := h
  obtain ⟨_, p2, p3, p4⟩ := affixOk_spec pre h3
  obtain ⟨_, s2, s3, s4⟩ := affixOk_spec suf h6
  obtain ⟨_, _, n3⟩ := nameOk_spec n h4
  have he : ')' ∉ e := by
    rw [List.all_eq_true] at h5
    intro hm
    have := h5 _ hm
    simp at this
  obtain ⟨c, cs, rfl⟩ : ∃ c cs, pre = c :: cs := by
    cases pre with
    | nil => exact absurd rfl h1
    | cons c cs => exact ⟨c, cs, rfl⟩
  have hc1 : ¬ c = ':' := by
    intro e1; subst e1; exact p2 (List.mem_cons_self _ _)
  have hc2 : ¬ c = '*' := by
    intro e1; subst e1
    simp [HasPrefix] at h2
  have hp1 : HasPrefix (c :: cs ++ ':' :: n ++ '(' :: e ++ ')' :: suf) ":".toList = false := by
    simp [HasPrefix, List.isPrefixOf, Ne.symm hc1]
  have hp2 : HasPrefix (c :: cs ++ ':' :: n ++ '(' :: e ++ ')' :: suf) "*".toList = false := by
    simp [HasPrefix, List.isPrefixOf, Ne.symm hc2]
  have hk : (Contains ':' (c :: cs ++ ':' :: n ++ '(' :: e ++ ')' :: suf)
      && Contains '(' (c :: cs ++ ':' :: n ++ '(' :: e ++ ')' :: suf)
      && Contains ')' (c :: cs ++ ':' :: n ++ '(' :: e ++ ')' :: suf)) = true := by
    simp [Contains]
  have e1 : addColon ⟨c :: cs ++ ':' :: n ++ '(' :: e ++ ')' :: suf,
      c :: cs ++ ':' :: n ++ '(' :: e ++ ')' :: suf, [], 0⟩
      = ⟨c :: cs ++ ':' :: n ++ '(' :: e ++ ')' :: suf,
          c :: cs ++ ':' :: n ++ '(' :: e ++ ')' :: suf, [], 0⟩ := by
    unfold addColon
    simp only [hp1, Bool.false_eq_true, if_false]
  have e2 : addStar ⟨c :: cs ++ ':' :: n ++ '(' :: e ++ ')' :: suf,
      c :: cs ++ ':' :: n ++ '(' :: e ++ ')' :: suf, [], 0⟩
      = ⟨c :: cs ++ ':' :: n ++ '(' :: e ++ ')' :: suf,
          c :: cs ++ ':' :: n ++ '(' :: e ++ ')' :: suf, [], 0⟩ := by
    unfold addStar
    simp only [hp2, Bool.false_eq_true, if_false]
  rw [addPart, e1, e2]
  unfold addMixed
  simp only [hk, if_true]
  rw [scan_mixed (c :: cs) n e suf [] 0
    (fun d hd => ⟨fun e1 => p2 (e1 ▸ hd), fun e1 => p3 (e1 ▸ hd), fun e1 => p4 (e1 ▸ hd)⟩) n3 he
    (fun d hd => ⟨fun e1 => s2 (e1 ▸ hd), fun e1 => s3 (e1 ▸ hd), fun e1 => s4 (e1 ▸ hd)⟩)]
  simp [mapSet]

/-- The code's replacement text and names of a well-formed segment are the
fragment and the names of the specification. -/
theorem segment_refines (s : Segment) (h : s.wellFormed = true) :
    segSlot s.text = s.fragment ∧ segNames s.text = s.names := by
  unfold segSlot segNames
  cases s with
  | literal t => rw [Segment.text, addPart_literal t h]; exact ⟨rfl, rfl⟩
  | param n => rw [Segment.text, addPart_param n h]; exact ⟨rfl, rfl⟩
  | paramInt n => rw [Segment.text, addPart_paramInt n h]; exact ⟨rfl, rfl⟩
  | paramString n => rw [Segment.text, addPart_paramString n h]; exact ⟨rfl, rfl⟩
  | paramExpr n e =>
    have h1 : nameOk n = true := by
      simp only [Segment.wellFormed, Bool.and_eq_true] at h
      exact h.1
    rw [Segment.text, addPart_paramExpr n e h1]; exact ⟨rfl, rfl⟩
  | splat => exact ⟨rfl, rfl⟩
  | pathExt => exact ⟨rfl, rfl⟩
  | mixed pre n e suf => rw [Segment.text, addPart_mixed pre n e suf h]; exact ⟨rfl, rfl⟩

/-- No text of a well-formed segment holds a `/`. -/
theorem segment_no_slash (s : Segment) (h : s.wellFormed = true) : '/' ∉ s.text := by
  cases s with
  | literal t =>
    simp only [Segment.wellFormed, Bool.and_eq_true, List.all_eq_true] at h
    intro hm
    have := h.1.1.1 _ hm
    simp at this
  | param n =>
    have := (nameOk_spec n h).1
    simp [Segment.text, this]
  | paramInt n =>
    have := (nameOk_spec n h).1
    simp [Segment.text, this]
  | paramString n =>
    have := (nameOk_spec n h).1
    simp [Segment.text, this]
  | paramExpr n e =>
    simp only [Segment.wellFormed, Bool.and_eq_true, List.all_eq_true] at h
    have h1 := (nameOk_spec n h.1).1
    have h2 : '/' ∉ e := by
      intro hm
      have := h.2 _ hm
      simp at this
    simp [Segment.text, h1, h2]
  | splat => decide
  | pathExt => decide
  | mixed pre n e suf =>
    simp only [Segment.wellFormed, Bool.and_eq_true, List.all_eq_true] at h
    obtain ⟨⟨⟨⟨⟨_, _⟩, h3⟩, h4⟩, h5⟩, h6⟩ := h
    have p1 := (affixOk_spec pre h3).1
    have s1 := (affixOk_spec suf h6).1
    have n1 := (nameOk_spec n h4).1
    have e1 : '/' ∉ e := by
      intro hm
      have := h5 _ hm
      simp at this
    simp [Segment.text, p1, s1, n1, e1]

/-- The fragment of a plain segment has one capturing group for each of the
segment's names: for the built-in fragments by their text, for the text of
the user by the condition. -/
theorem groupsOf_fragment (s : Segment) (hp : s.plain = true) :
    groupsOf s.fragment = some s.names.length := by
  cases s with
  | literal t => simpa [Segment.plain, Segment.fragment, Segment.names] using hp
  | param n => show groupsOf "(.*)".toList = some 1; decide
  | paramInt n => show groupsOf "([0-9]+)".toList = some 1; decide
  | paramString n => show groupsOf "([\\w]+)".toList = some 1; decide
  | paramExpr n e => simpa [Segment.plain, Segment.fragment, Segment.names] using hp
  | splat => decide
  | pathExt => decide
  | mixed pre n e suf =>
    simp only [Segment.plain, Bool.and_eq_true, beq_iff_eq] at hp
    obtain ⟨⟨h1, h2⟩, h3⟩ := hp
    unfold groupsOf at h1 h2 h3 ⊢
    cases hl1 : lexRun .norm pre with
    | none => rw [hl1] at h1; simp at h1
    | some t1 =>
      cases hl2 : lexRun .norm ('(' :: e ++ [')']) with
      | none => rw [hl2] at h2; simp at h2
      | some t2 =>
        cases hl3 : lexRun .norm suf with
        | none => rw [hl3] at h3; simp at h3
        | some t3 =>
          simp only [hl1, hl2, hl3, Option.map_some', Option.some.injEq] at h1 h2 h3
          have e : (Segment.mixed pre n e suf).fragment = pre ++ (('(' :: e ++ [')']) ++ suf) := by
            simp [Segment.fragment]
          rw [e, lexRun_append pre _ t1 hl1, lexRun_append _ _ t2 hl2, hl3]
          simp [List.count_append, h1, h2, h3, Segment.names]

/-- The submatches of an accepted path are as many as the capturing
groups. -/
theorem acceptRoute_length (re : Regex) (path : Str) (gs : List Str)
    (h : acceptRoute re path = some gs) : gs.length = re.NumSubexp := by
  unfold acceptRoute at h
  split_ifs at h
  cases hf : FindStringSubmatch re path with
  | none => simp [hf] at h
  | some ms =>
    have hl := findStringSubmatch_length re path ms hf
    cases ms with
    | nil => simp [hf] at h
    | cons m0 groups =>
      simp only [hf] at h
      split_ifs at h
      simp only [Option.some.injEq] at h
      subst h
      simpa using hl

theorem names_refine (segs : List Segment) (hwf : ∀ s ∈ segs, s.wellFormed = true) :
    (segs.map Segment.text).flatMap segNames = namesOf segs := by
  unfold namesOf
  induction segs with
  | nil => rfl
  | cons s rest ih =>
    simp only [List.map_cons, List.flatMap_cons]
    rw [(segment_refines s (hwf s (List.mem_cons_self _ _))).2,
      ih (fun x hx => hwf x (List.mem_cons_of_mem _ hx))]

/-- C1 (amended): for every pattern made of segments of the pattern
mini-language (literal text, `:name`, `:name:int`, `:name:string`,
`:name(expr)`, `*`, `*.*`, literal text around one `:name(expr)`) that holds
`k ≥ 1` parameters and whose rewritten form compiles, whatever
`regexp.Compile` is, `Add` appends one pattern route whose `pattern` is the
segments' fragments joined by `/`, and whose `params` holds exactly the `k`
parameter names of the segments at the keys `0 .. k-1`, in left-to-right
order: `params[i]` is the `i`-th name.  When moreover the text of the user
brings no capturing group of its own (every literal segment, read as a
regular expression, has none, and every `(expr)` has the one pair of its own
parentheses), the expression compiled by the modelled `regexp` has exactly
`k` capturing groups, `FindStringSubmatch` yields the match and `k`
submatches, and an accepted path yields `k` submatches, the `i`-th of which
the loop of lines 558-561 binds to `params[i]`. -/
theorem C1_add_names_and_groups {ρ : Type} (compile : Str → Option ρ)
    (p : ControllerRegistorOf ρ) (segs : List Segment) (t : ReflectType) (mm : List Str) (re : ρ)
    (hwf : ∀ s ∈ segs, s.wellFormed = true)
    (hk : 1 ≤ (namesOf segs).length)
    (hc : compile (exprOf segs) = some re) :
    AddWith compile p (patternOf segs) t mm =
      { p with routers := p.routers ++
          [⟨exprOf segs, some re, (namesOf segs).enum, t, [], false⟩] } ∧
    (∀ i, mapGet? (namesOf segs).enum i = (namesOf segs)[i]?) ∧
    (∀ re1 : Regex, Compile (exprOf segs) = some re1 → (∀ s ∈ segs, s.plain = true) →
      re1.NumSubexp = (namesOf segs).length ∧
      (∀ path ms, FindStringSubmatch re1 path = some ms →
        ms.length = (namesOf segs).length + 1) ∧
      (∀ path gs, acceptRoute re1 path = some gs → gs.length = (namesOf segs).length)) := by
  have hne : segs.map Segment.text ≠ [] := by
    intro h
    have : segs = [] := by simpa using h
    subst this
    simp [namesOf] at hk
  have hsplit : Split '/' (patternOf segs) = segs.map Segment.text := by
    unfold patternOf
    apply split_join _ hne
    intro x hx
    obtain ⟨s, hs, rfl⟩ := List.mem_map.mp hx
    exact segment_no_slash s (hwf s hs)
  have hslots : (segs.map Segment.text).map segSlot = segs.map Segment.fragment := by
    rw [List.map_map]
    apply List.map_congr_left
    intro s hs
    exact (segment_refines s (hwf s hs)).1
  have hnames : (segs.map Segment.text).flatMap segNames = namesOf segs :=
    names_refine segs hwf
  obtain ⟨a1, a2, a3, a4⟩ := addLoop_spec (Split '/' (patternOf segs)) [] 0 rfl
  rw [hsplit] at a1 a2 a3 a4
  rw [hnames] at a3 a4
  rw [hslots] at a1
  have hj : (addLoop (segs.map Segment.text) [] 0).2.2 = (namesOf segs).length := by
    simpa using a3
  have hpat : Join "/".toList (addLoop (segs.map Segment.text) [] 0).1 = exprOf segs := by
    rw [a1]; rfl
  have hparams : (addLoop (segs.map Segment.text) [] 0).2.1 = (namesOf segs).enum := by
    rw [List.enum_eq_zip_range]
    apply List.zip_of_prod
    · rw [a2, hj]
    · simpa using a4
  have hj0 : ¬ (addLoop (segs.map Segment.text) [] 0).2.2 = 0 := by omega
  refine ⟨?_, ?_, ?_⟩
  · simp only [AddWith, hsplit, hj0, if_false, hpat, hc, hparams]
    simp
  · intro i
    have := mapGet?_range (namesOf segs) (namesOf segs).enum 0
      (by simp [List.range_eq_range', List.enum_map_fst]) (List.enum_map_snd _) i
    simpa using this
  · intro re1 hc1 hplain
    obtain ⟨ts, hts, hcnt⟩ := lexRun_join id (fun f => (groupsOf f).getD 0)
      (segs.map Segment.fragment) (by
        intro x hx
        obtain ⟨s, hs, rfl⟩ := List.mem_map.mp hx
        have hg := groupsOf_fragment s (hplain s hs)
        show (lexRun .norm s.fragment).map (fun ts => ts.count .lparen)
          = some ((groupsOf s.fragment).getD 0)
        rw [hg]
        exact hg)
    have hsum : ((segs.map Segment.fragment).map (fun f => (groupsOf f).getD 0)).sum
        = (namesOf segs).length := by
      unfold namesOf
      clear hwf hk hc hne hsplit hslots hnames a1 a2 a3 a4 hj hpat hparams hj0 hc1 hts hcnt
      induction segs with
      | nil => rfl
      | cons s rest ih =>
        simp only [List.map_cons, List.sum_cons, List.flatMap_cons, List.length_append]
        rw [ih (fun x hx => hplain x (List.mem_cons_of_mem _ hx)),
          groupsOf_fragment s (hplain s (List.mem_cons_self _ _))]
        rfl
    have hts1 : lexRun .norm (exprOf segs) = some ts := by
      simpa [exprOf] using hts
    have hn : re1.NumSubexp = (namesOf segs).length := by
      rw [compile_numSubexp _ re1 ts hts1 hc1, hcnt, hsum]
    refine ⟨hn, fun path ms h => ?_, fun path gs h => ?_⟩
    · rw [findStringSubmatch_length re1 path ms h, hn]
    · rw [acceptRoute_length re1 path gs h, hn]

/-- Witness of `C1_add_names_and_groups`: the pattern `/user/:id:int/*.*` has
three parameters and its expression three capturing groups; the pattern
`/cms_:id([0-9]+).html` has one parameter and its expression one capturing
group. -/
theorem C1_add_names_and_groups_witness :
    patternOf [.literal [], .literal "user".toList, .paramInt "id".toList, .pathExt]
      = "/user/:id:int/*.*".toList ∧
    (∃ re, single "/user/:id:int/*.*".toList 7
        = { NewControllerRegistor with
            routers := [⟨"/user/([0-9]+)/([^.]+).([^.]+)".toList, some re,
              [(0, ":id".toList), (1, ":path".toList), (2, ":ext".toList)], 7, [], false⟩] } ∧
      re.NumSubexp = 3) ∧
    patternOf [.literal [], .mixed "cms_".toList "id".toList "[0-9]+".toList ".html".toList]
      = "/cms_:id([0-9]+).html".toList ∧
    (∃ re, single "/cms_:id([0-9]+).html".toList 7
        = { NewControllerRegistor with
            routers := [⟨"/cms_([0-9]+).html".toList, some re, [(0, ":id".toList)], 7, [],
              false⟩] } ∧
      re.NumSubexp = 1) := by
  obtain ⟨re, hre⟩ : ∃ re, Compile (exprOf
      [.literal [], .literal "user".toList, .paramInt "id".toList, .pathExt]) = some re :=
    ⟨_, rfl⟩
  obtain ⟨re2, hre2⟩ : ∃ re, Compile (exprOf
      [.literal [], .mixed "cms_".toList "id".toList "[0-9]+".toList ".html".toList]) = some re :=
    ⟨_, rfl⟩
  have h := C1_add_names_and_groups Compile NewControllerRegistor
    [.literal [], .literal "user".toList, .paramInt "id".toList, .pathExt] 7 [] re
    (by decide) (by decide) hre
  have h2 := C1_add_names_and_groups Compile NewControllerRegistor
    [.literal [], .mixed "cms_".toList "id".toList "[0-9]+".toList ".html".toList] 7 [] re2
    (by decide) (by decide) hre2
  exact ⟨by decide, ⟨re, h.1, (h.2.2 re hre (by decide)).1⟩, by decide,
    ⟨re2, h2.1, (h2.2.2 re2 hre2 (by decide)).1⟩⟩

/-- C1 (counterexample): the pattern `/:v(a(b))` is the segment `:v(a(b))`
of the mini-language after the empty first segment; it has one parameter
token, `Add` stores one parameter name, and the compiled expression has two
capturing groups.  Likewise `/(a)/:id`, whose literal segment `(a)` brings a
group, has one name and two groups; and `/*:a(b)`, whose second segment is
not of the mini-language, has two names, `:splat` and `:a`, and one group. -/
theorem C1_nested_group :
    patternOf [.literal [], .paramExpr "v".toList "a(b)".toList] = "/:v(a(b))".toList ∧
    (∀ s ∈ [Segment.literal [], .paramExpr "v".toList "a(b)".toList], s.wellFormed = true) ∧
    namesOf [.literal [], .paramExpr "v".toList "a(b)".toList] = [":v".toList] ∧
    (∃ route re, (single "/:v(a(b))".toList 7).routers = [route] ∧
      route.regex = some re ∧ route.pattern = "/(a(b))".toList ∧
      paramNames "/:v(a(b))".toList = [":v".toList] ∧
      route.params = [(0, ":v".toList)] ∧ re.NumSubexp = 2) ∧
    (∃ route re, (single "/(a)/:id".toList 7).routers = [route] ∧ route.regex = some re ∧
      route.pattern = "/(a)/(.*)".toList ∧ route.params = [(0, ":id".toList)] ∧
      re.NumSubexp = 2) ∧
    (∃ route re, (single "/*:a(b)".toList 7).routers = [route] ∧ route.regex = some re ∧
      route.pattern = "/*(b)".toList ∧
      route.params = [(0, ":splat".toList), (1, ":a".toList)] ∧ re.NumSubexp = 1) :=
  ⟨by decide, by decide, by decide, ⟨_, _, rfl, rfl, rfl, by decide, rfl, by decide⟩,
   ⟨_, _, rfl, rfl, rfl, rfl, by decide⟩, ⟨_, _, rfl, rfl, rfl, rfl, by decide⟩⟩

end Fargo
